import Mathlib

/-!
Asset reconciliation engine of the enebular runtime agent

Shallow embedding of `src/agent/src/asset-manager.js`:

* the `Asset` record and the `AssetManager` collection,
* `_handleDeviceStateChange` (the diff of the desired asset map against the
  collection) up to the point where it triggers the drain,
* `_updateReportedAssetState` / `_updateReportedAssetsState`,
* one iteration of the `while` loop of `_processPendingAssets`, and the loop,
* the durable snapshot (`_saveAssetState`, `_loadAssetState`, `_deserializeAsset`),
* `FileAsset.deploy` and `FileAsset.remove`,

of `_verify` and `_delete` of `src/agent/src/file-asset.js`, and of the supervisor of
`src/agent/src/node-red-controller.js`: the exit handler of the service, `_shutdownService`,
`_startService`, the flow deployment `_fetchAndUpdateFlow` and the action queue.

Conventions of the embedding.

* Objects are values; the mutable array `this._assets` is a `List Asset` and a
  mutation of an element is a replacement at its position.
* The desired asset map is the list of its own properties, in the order in which
  `for...in` enumerates them.  An exception thrown inside `_handleDeviceStateChange`
  ends the run and is recorded in the field `error` of the result.
* `Date.now()` is a clock that is read by successive calls: `clock k` is the
  value returned by the `k`-th call, and the functions thread the number of
  calls made so far (`tick`).
* Everything the engine does to the outside world (the reported-state store,
  `asset.remove()`, `asset.deploy()`, the snapshot file, `delay`, the error log)
  is recorded, in program order, in a list of `Effect`s.  Debug logging is left
  out.
* The results of the two awaited calls `asset.remove()` and `asset.deploy()` are
  inputs (`Outcome`); one loop iteration is taken without a desired-state event
  being handled in the middle of it.
-/

namespace Enebular

/-- Asset states (`asset-manager.js`, lines 16-21). -/
inductive AssetState
  | notDeployed
  | deployed
  | deploying
  | deployFail
  | removing
  | removeFail
  deriving DecidableEq, Repr

/-- The string the source uses for an asset state. -/
def AssetState.str : AssetState → String
  | .notDeployed => "notDeployed"
  | .deployed => "deployed"
  | .deploying => "deploying"
  | .deployFail => "deployFail"
  | .removing => "removing"
  | .removeFail => "removeFail"

/-- A JavaScript value that is a string, `null` or `undefined`; `===` on such
values is equality of this type. -/
inductive JsString
  | undefined
  | null
  | str (s : String)
  deriving DecidableEq, Repr

/-- The part `config.fileTypeConfig` of a file asset configuration. -/
structure FileTypeConfig where
  filename : String
  integrity : String
  size : Nat
  key : String
  deriving DecidableEq, Repr

/-- An asset configuration object (`desiredAsset.config`). -/
structure Config where
  type : String
  destPath : String
  fileTypeConfig : FileTypeConfig
  deriving DecidableEq, Repr

/-- Values of `pendingChange` that are truthy: the two the source assigns and any
other truthy value (the `default:` branches of the source). -/
inductive PendingChange
  | deploy
  | remove
  | other
  deriving DecidableEq, Repr

/-- Class `Asset` (lines 30-59).  `pendingChange = none` stands for the falsy
values `undefined` and `null`; `config = none` and `pendingConfig = none` stand
for `null` / `undefined`. -/
structure Asset where
  type : String
  id : String
  updateId : JsString
  config : Option Config
  state : AssetState
  changeTs : Nat
  pendingUpdateId : JsString
  pendingChange : Option PendingChange
  pendingConfig : Option Config
  deriving DecidableEq, Repr

/-- The object returned by `Asset.serialize` (lines 77-86). -/
structure SerializedAsset where
  type : String
  id : String
  updateId : JsString
  state : AssetState
  changeTs : Nat
  config : Option Config
  deriving DecidableEq, Repr

/-- Method `Asset.serialize` (lines 77-86). -/
def Asset.serialize (asset : Asset) : SerializedAsset :=
  { type := asset.type, id := asset.id, updateId := asset.updateId,
    state := asset.state, changeTs := asset.changeTs, config := asset.config }

/-- One entry `desiredState.assets[id]` of the desired asset map, at its documented
shape `{updateId, config: {type, ...}}`. -/
structure DesiredAsset where
  updateId : JsString
  config : Config
  deriving DecidableEq, Repr

/-- The value returned by `getState('desired', 'assets')` when it is an object;
`assets = none` is an absent (falsy) asset map.  The map is the list of its own
properties in `for ... in` order. -/
structure DesiredState where
  assets : Option (List (String × DesiredAsset))
  deriving DecidableEq, Repr

/-- The `k`-th call of `Date.now()` returns `clock k`. -/
abbrev Clock := Nat → Nat

/-- What the engine does to the outside world. -/
inductive Effect
  /-- The call `updateState('reported', 'set', path, {updateId, ts, state})`. -/
  | reportSet (path : String) (updateId : JsString) (ts : Nat) (state : String)
  /-- The call `updateState('reported', 'remove', path)`. -/
  | reportRemove (path : String)
  /-- A call of `asset.remove()` on the asset with this id. -/
  | callRemove (id : String)
  /-- A call of `asset.deploy()` on the asset with this id, with the `updateId`
  and `config` it has at the call. -/
  | callDeploy (id : String) (updateId : JsString) (config : Option Config)
  /-- The snapshot handed to `fs.writeFileSync` by `_saveAssetState`. -/
  | saveAssetState (serializedAssets : List SerializedAsset)
  /-- The wait `await delay(ms)`. -/
  | delay (ms : Nat)
  /-- The log call `this._error(msg)`. -/
  | logError (msg : String)
  deriving DecidableEq, Repr

/-- The fields of `AssetManager` the engine works on (lines 168-176). -/
structure AssetManager where
  assets : List Asset
  processingAssetState : Bool
  inited : Bool
  deriving DecidableEq, Repr

/-- The argument `{ type, path }` of the `stateChange` event. -/
structure Params where
  type : String
  path : Option String
  deriving DecidableEq, Repr

/-- The outcomes of the awaited `asset.remove()` and `asset.deploy()` calls of one
loop iteration. -/
structure Outcome where
  removeOk : Bool
  deployOk : Bool
  deriving DecidableEq, Repr

/-! ## `_handleDeviceStateChange` -/

/-- The reported-state path of an asset: `'assets.assets.' + asset.id()`. -/
def reportedPath (id : String) : String := "assets.assets." ++ id

/-- The test `path.startsWith(pre)`. -/
def startsWith (path pre : String) : Bool := pre.data.isPrefixOf path.data

/-- The guard of line 292:
`type !== 'desired' || (path && !path.startsWith('assets'))`. -/
def ignoredEvent (params : Params) : Bool :=
  params.type != "desired" ||
    (match params.path with
     | none => false
     | some p => p != "" && !startsWith p "assets")

/-- Lines 320-323: stage a deploy of the desired version on an existing asset. -/
def stageDeploy (clock : Clock) (tick : Nat) (desiredAsset : DesiredAsset) (asset : Asset) :
    Asset :=
  { asset with
    pendingUpdateId := desiredAsset.updateId
    pendingChange := some PendingChange.deploy
    pendingConfig := some desiredAsset.config
    changeTs := clock tick }

/-- The inner loop of lines 316-328: look for the first asset whose id is
`desiredAssetId`, stage a deploy on it when its `updateId` differs, and stop.
Returns the collection, `found` and the number of clock readings made. -/
def findAndStage (clock : Clock) (desiredAssetId : String) (desiredAsset : DesiredAsset) :
    Nat → List Asset → List Asset × Bool × Nat
  | tick, [] => ([], false, tick)
  | tick, asset :: rest =>
    if asset.id = desiredAssetId then
      if asset.updateId ≠ desiredAsset.updateId then
        (stageDeploy clock tick desiredAsset asset :: rest, true, tick + 1)
      else
        (asset :: rest, true, tick)
    else
      let r := findAndStage clock desiredAssetId desiredAsset tick rest
      (asset :: r.1, r.2.1, r.2.2)

/-- Lines 334-344: `new FileAsset(config.type, id, null, null, 'notDeployed', this)`
(the constructor reads the clock for `changeTs`) with the deploy staged on it. -/
def newFileAsset (clock : Clock) (tick : Nat) (desiredAssetId : String)
    (desiredAsset : DesiredAsset) : Asset :=
  { type := desiredAsset.config.type
    id := desiredAssetId
    updateId := JsString.null
    config := none
    state := AssetState.notDeployed
    changeTs := clock tick
    pendingUpdateId := desiredAsset.updateId
    pendingChange := some PendingChange.deploy
    pendingConfig := some desiredAsset.config }

/-- The variables of the loop of lines 309-354. -/
structure DiffAcc where
  assets : List Asset
  newAssets : List Asset
  tick : Nat
  effects : List Effect
  deriving DecidableEq, Repr

/-- Lines 314-353: the body of the loop of lines 310-354 for one property of the
desired asset map, after the own-property test of lines 311-313. -/
def diffOwnEntry (clock : Clock) (acc : DiffAcc) (entry : String × DesiredAsset) : DiffAcc :=
  let r := findAndStage clock entry.1 entry.2 acc.tick acc.assets
  if r.2.1 then
    { acc with assets := r.1, tick := r.2.2 }
  else if entry.2.config.type = "file" then
    { acc with
      assets := r.1
      newAssets := acc.newAssets ++ [newFileAsset clock r.2.2 entry.1 entry.2]
      tick := r.2.2 + 1 }
  else
    { acc with
      assets := r.1
      tick := r.2.2
      effects := acc.effects ++ [Effect.logError ("Unsupported asset type: " ++ entry.2.config.type)] }

/-- The message of the `TypeError` that the call
`desiredState.assets.hasOwnProperty(...)` throws when the property found is not a
function. -/
def hasOwnPropertyTypeError : String :=
  "TypeError: desiredState.assets.hasOwnProperty is not a function"

/-- The call `desiredState.assets.hasOwnProperty(id)` of lines 311 and 358.  The method
is looked up on the desired asset map itself.  When the map has an own key
`hasOwnProperty`, the value found is that entry, an object `{updateId, config}`, and
calling it throws a `TypeError`; otherwise the method is the inherited
`Object.prototype.hasOwnProperty`, which tells whether `id` is a key of the map. -/
def hasOwnProperty (desiredAssets : List (String × DesiredAsset)) (id : String) :
    Except String Bool :=
  if "hasOwnProperty" ∈ desiredAssets.map Prod.fst then
    Except.error hasOwnPropertyTypeError
  else
    Except.ok (decide (id ∈ desiredAssets.map Prod.fst))

/-- The body of the loop of lines 310-354 for one property of the desired asset map:
the own-property test of lines 311-313, which throws or skips the property or lets
the rest of the body run. -/
def diffEntry (clock : Clock) (desiredAssets : List (String × DesiredAsset)) (acc : DiffAcc)
    (entry : String × DesiredAsset) : Except String DiffAcc :=
  match hasOwnProperty desiredAssets entry.1 with
  | Except.error e => Except.error e
  | Except.ok false => Except.ok acc
  | Except.ok true => Except.ok (diffOwnEntry clock acc entry)

/-- The loop of lines 310-354 over the properties of the desired asset map that are
still to be enumerated; an exception ends it. -/
def diffEntries (clock : Clock) (desiredAssets : List (String × DesiredAsset)) :
    List (String × DesiredAsset) → DiffAcc → Except String DiffAcc
  | [], acc => Except.ok acc
  | entry :: rest, acc =>
    match diffEntry clock desiredAssets acc entry with
    | Except.error e => Except.error e
    | Except.ok acc' => diffEntries clock desiredAssets rest acc'

/-- Lines 359-360: stage a remove. -/
def stageRemove (clock : Clock) (tick : Nat) (asset : Asset) : Asset :=
  { asset with pendingChange := some PendingChange.remove, changeTs := clock tick }

/-- The loop of lines 357-362; an exception of the call on line 358 ends it. -/
def stageRemoves (clock : Clock) (desiredAssets : List (String × DesiredAsset)) :
    Nat → List Asset → Except String (List Asset × Nat)
  | tick, [] => Except.ok ([], tick)
  | tick, asset :: rest =>
    match hasOwnProperty desiredAssets asset.id with
    | Except.error e => Except.error e
    | Except.ok true =>
      match stageRemoves clock desiredAssets tick rest with
      | Except.error e => Except.error e
      | Except.ok r => Except.ok (asset :: r.1, r.2)
    | Except.ok false =>
      match stageRemoves clock desiredAssets (tick + 1) rest with
      | Except.error e => Except.error e
      | Except.ok r => Except.ok (stageRemove clock tick asset :: r.1, r.2)

/-- The loop of lines 357-362 for a desired asset map without a key `hasOwnProperty`,
on which the call of line 358 returns whether the id is a key. -/
def stageOwnRemoves (clock : Clock) (desiredAssets : List (String × DesiredAsset)) :
    Nat → List Asset → List Asset × Nat
  | tick, [] => ([], tick)
  | tick, asset :: rest =>
    if asset.id ∈ desiredAssets.map Prod.fst then
      let r := stageOwnRemoves clock desiredAssets tick rest
      (asset :: r.1, r.2)
    else
      let r := stageOwnRemoves clock desiredAssets (tick + 1) rest
      (stageRemove clock tick asset :: r.1, r.2)

/-- The state label computed by `_updateReportedAssetState` (lines 376-391). -/
def reportedStateLabel (asset : Asset) : String :=
  match asset.pendingChange with
  | some PendingChange.deploy => "deployPending"
  | some PendingChange.remove => "removePending"
  | some PendingChange.other => "unknown"
  | none => asset.state.str

/-- Method `_updateReportedAssetState` (lines 375-402). -/
def updateReportedAssetState (asset : Asset) : Effect :=
  Effect.reportSet (reportedPath asset.id) asset.updateId asset.changeTs
    (reportedStateLabel asset)

/-- Method `_updateReportedAssetsState` (lines 404-411). -/
def updateReportedAssetsState : List Asset → List Effect
  | [] => []
  | asset :: rest =>
    if asset.pendingChange.isSome then
      updateReportedAssetState asset :: updateReportedAssetsState rest
    else
      updateReportedAssetsState rest

/-- What a run of `_handleDeviceStateChange` leaves behind. -/
structure Handled where
  man : AssetManager
  effects : List Effect
  tick : Nat
  /-- Line 370 was reached: `_processPendingAssets()` is called next. -/
  drain : Bool
  /-- The exception with which the run ended, if it threw. -/
  error : Option String
  deriving DecidableEq, Repr

/-- Lines 308-365: the diff of the desired asset map against the collection; an
exception ends it. -/
def diffAssets (clock : Clock) (tick : Nat) (desiredAssets : List (String × DesiredAsset))
    (assets : List Asset) : Except String DiffAcc :=
  match diffEntries clock desiredAssets desiredAssets ⟨assets, [], tick, []⟩ with
  | Except.error e => Except.error e
  | Except.ok acc =>
    match stageRemoves clock desiredAssets acc.tick acc.assets with
    | Except.error e => Except.error e
    | Except.ok r => Except.ok { acc with assets := r.1 ++ acc.newAssets, tick := r.2 }

/-- Lines 308-365 for a desired asset map without a key `hasOwnProperty`: the calls of
lines 311 and 358 return, and every property that the loop of line 310 enumerates
passes the test of line 311. -/
def diffOwnAssets (clock : Clock) (tick : Nat) (desiredAssets : List (String × DesiredAsset))
    (assets : List Asset) : DiffAcc :=
  let acc := desiredAssets.foldl (diffOwnEntry clock) ⟨assets, [], tick, []⟩
  let r := stageOwnRemoves clock desiredAssets acc.tick acc.assets
  { acc with assets := r.1 ++ acc.newAssets, tick := r.2 }

/-- Method `_handleDeviceStateChange` (lines 290-371) up to, not including, the call of
`_processPendingAssets` on line 370.  `desiredState` is the value read on line
300 (`none` when it is falsy).  The only call that can throw is the one of lines 311
and 358; it throws, if at all, the first time line 311 is reached, when nothing has
been staged yet, so the run then ends with the manager as it was. -/
def handleDeviceStateChange (clock : Clock) (tick : Nat) (params : Params)
    (desiredState : Option DesiredState) (man : AssetManager) : Handled :=
  if ignoredEvent params then ⟨man, [], tick, false, none⟩
  else if !man.inited then ⟨man, [], tick, false, none⟩
  else
    match desiredState with
    | none => ⟨man, [], tick, false, none⟩
    | some ds =>
      match ds.assets with
      | none => ⟨man, [], tick, false, none⟩
      | some desiredAssets =>
        match diffAssets clock tick desiredAssets man.assets with
        | Except.error e => ⟨man, [], tick, false, some e⟩
        | Except.ok acc =>
          ⟨{ man with assets := acc.assets },
            acc.effects ++ updateReportedAssetsState acc.assets, acc.tick, true, none⟩

/-! ## `_processPendingAssets` -/

/-- Method `_saveAssetState` (lines 263-288): the snapshot that is handed to
`fs.writeFileSync` (a failing write is logged and changes nothing else). -/
def saveAssetState (assets : List Asset) : Effect :=
  Effect.saveAssetState
    ((assets.filter fun asset =>
        asset.state = AssetState.deployed ∨ asset.state = AssetState.deployFail ∨
          asset.state = AssetState.removeFail).map Asset.serialize)

/-- The test of lines 443-447. -/
def isSimpleRemove (asset : Asset) : Bool :=
  asset.pendingChange.isSome && asset.pendingChange = some PendingChange.remove &&
    asset.state = AssetState.notDeployed

/-- Lines 441-458: the assets with a pending remove that were never deployed are
taken off the reported state and filtered out of the collection
(`removeAssets.includes(asset)` holds of exactly the objects that passed the test
of lines 443-447). -/
def processSimpleRemoves (assets : List Asset) : List Asset × List Effect :=
  (assets.filter fun asset => !isSimpleRemove asset,
   (assets.filter isSimpleRemove).map fun asset => Effect.reportRemove (reportedPath asset.id))

/-- Method `_getFirstPendingChangeAsset` (lines 417-427), as the split of the collection
at the first asset with a truthy `pendingChange`: the assets before it, the asset,
the assets after it. -/
def getFirstPendingChangeAsset : List Asset → Option (List Asset × Asset × List Asset)
  | [] => none
  | asset :: rest =>
    if asset.pendingChange.isSome then some ([], asset, rest)
    else
      match getFirstPendingChangeAsset rest with
      | none => none
      | some (before, found, after) => some (asset :: before, found, after)

/-- Method `_pendingChangeAssetExists` (lines 429-431). -/
def pendingChangeAssetExists (assets : List Asset) : Bool :=
  (getFirstPendingChangeAsset assets).isSome

/-- Lines 479-487: promote the staged version, deploy it and record the result. -/
def deployStaged (o : Outcome) (asset : Asset) : Option Asset × List Effect :=
  let asset :=
    { asset with
      updateId := asset.pendingUpdateId
      config := asset.pendingConfig
      pendingConfig := none
      state := AssetState.deploying }
  let final :=
    { asset with state := if o.deployOk then AssetState.deployed else AssetState.deployFail }
  (some final,
    [updateReportedAssetState asset,
      Effect.callDeploy asset.id asset.updateId asset.config,
      updateReportedAssetState final])

/-- Lines 465-513 on the asset picked by the loop: the asset as it is left in the
collection (`none` when it was filtered out of it) and the effects. -/
def processPendingChange (o : Outcome) (asset : Asset) : Option Asset × List Effect :=
  let pendingChange := asset.pendingChange
  let asset := { asset with pendingChange := none }
  match pendingChange with
  | some PendingChange.deploy =>
    if asset.state = AssetState.deployed then
      let asset := { asset with state := AssetState.removing }
      if !o.removeOk then
        (some { asset with state := AssetState.removeFail },
          [updateReportedAssetState asset, Effect.callRemove asset.id])
      else
        let r := deployStaged o asset
        (r.1, [updateReportedAssetState asset, Effect.callRemove asset.id] ++ r.2)
    else
      deployStaged o asset
  | some PendingChange.remove =>
    if asset.state = AssetState.deployed then
      let asset := { asset with state := AssetState.removing }
      if !o.removeOk then
        (some { asset with state := AssetState.removeFail },
          [updateReportedAssetState asset, Effect.callRemove asset.id])
      else
        (none,
          [updateReportedAssetState asset, Effect.callRemove asset.id,
            Effect.reportRemove (reportedPath asset.id)])
    else
      (none, [Effect.reportRemove (reportedPath asset.id)])
  | _ =>
    (some asset, [Effect.logError "Unsupported pending change: "])

/-- One iteration of the `while` loop of `_processPendingAssets` (lines 439-518),
entered with `_pendingChangeAssetExists()` true. -/
def drainIteration (o : Outcome) (assets : List Asset) : List Asset × List Effect :=
  let swept := processSimpleRemoves assets
  match getFirstPendingChangeAsset swept.1 with
  | none => (swept.1, swept.2)
  | some (before, asset, after) =>
    let r := processPendingChange o asset
    let assets :=
      match r.1 with
      | some asset => before ++ asset :: after
      | none => before ++ after
    (assets, swept.2 ++ r.2 ++ [saveAssetState assets, Effect.delay 2000])

/-- The `while` loop of `_processPendingAssets` (lines 439-518).  The outcomes of the
calls awaited in the `k`-th iteration are `oracle k`; no desired-state event is handled
while the loop runs.  The result is `none` when `fuel` evaluations of the loop condition
do not reach the end of the loop. -/
def processPendingAssetsLoop (oracle : Nat → Outcome) :
    Nat → Nat → List Asset → Option (List Asset × List Effect)
  | 0, _, _ => none
  | fuel + 1, k, assets =>
    if pendingChangeAssetExists assets then
      let r := drainIteration (oracle k) assets
      match processPendingAssetsLoop oracle fuel (k + 1) r.1 with
      | none => none
      | some (final, effects) => some (final, r.2 ++ effects)
    else
      some (assets, [])

/-- Method `_processPendingAssets` (lines 433-521): nothing is done when the processing
flag is set; otherwise the flag is set, the loop runs and the flag is reset. -/
def processPendingAssets (oracle : Nat → Outcome) (fuel : Nat) (man : AssetManager) :
    Option (AssetManager × List Effect) :=
  if man.processingAssetState then some (man, [])
  else
    match processPendingAssetsLoop oracle fuel 0 man.assets with
    | none => none
    | some (assets, effects) =>
      some ({ man with assets := assets, processingAssetState := false }, effects)

/-! ## The durable snapshot -/

/-- Method `_deserializeAsset` (lines 242-261): an unsupported type throws; otherwise a
`FileAsset` is constructed (the constructor reads the clock for `changeTs`) and its
`changeTs` is then overwritten with the saved one. -/
def deserializeAsset (clock : Clock) (tick : Nat) (serializedAsset : SerializedAsset) :
    Except String Asset :=
  if serializedAsset.type = "file" then
    let asset : Asset :=
      { type := serializedAsset.type
        id := serializedAsset.id
        updateId := serializedAsset.updateId
        config := serializedAsset.config
        state := serializedAsset.state
        changeTs := clock tick
        pendingUpdateId := JsString.undefined
        pendingChange := none
        pendingConfig := none }
    Except.ok { asset with changeTs := serializedAsset.changeTs }
  else
    Except.error ("Unsupported asset type: " ++ serializedAsset.type)

/-- The loop of lines 236-239 of `_loadAssetState`: the collection, the number of clock
readings made and the error thrown, if any. -/
def loadSerializedAssets (clock : Clock) :
    Nat → List SerializedAsset → List Asset → List Asset × Nat × Option String
  | tick, [], assets => (assets, tick, none)
  | tick, serializedAsset :: rest, assets =>
    match deserializeAsset clock tick serializedAsset with
    | Except.ok asset => loadSerializedAssets clock (tick + 1) rest (assets ++ [asset])
    | Except.error e => (assets, tick, some e)

/-- Method `_loadAssetState` (lines 227-240).  The state file is absent (`none`) or holds
the JSON text of an array of serialized assets, which `JSON.parse` turns back into the
array that `JSON.stringify` was given. -/
def loadAssetState (clock : Clock) (tick : Nat) (stateFile : Option (List SerializedAsset))
    (assets : List Asset) : List Asset × Nat × Option String :=
  match stateFile with
  | none => (assets, tick, none)
  | some serializedAssets => loadSerializedAssets clock tick serializedAssets assets

/-! ## The file asset -/

/-- The files of the device: path and content. -/
abbrev FileSystem := List (String × String)

/-- The test `fs.existsSync(path)`. -/
def existsSync (files : FileSystem) (path : String) : Bool :=
  decide (path ∈ files.map Prod.fst)

/-- The call `fs.unlinkSync(path)`: throws when no file is at the path. -/
def unlinkSync (files : FileSystem) (path : String) : Except String FileSystem :=
  if existsSync files path then
    Except.ok (files.filter fun f => f.1 ≠ path)
  else
    Except.error ("ENOENT: no such file or directory, unlink '" ++ path ++ "'")

/-- Method `FileAsset._filePath` of `asset-manager.js` (lines 65-67 and 101-103):
`[[dataDir, config.destPath].join('/'), config.fileTypeConfig.filename].join('/')`;
`none` when `config` is `null` (the property access throws). -/
def filePath (dataDir : String) (asset : Asset) : Option String :=
  match asset.config with
  | none => none
  | some config =>
    some (dataDir ++ "/" ++ config.destPath ++ "/" ++ config.fileTypeConfig.filename)

/-- Method `FileAsset.remove` of `asset-manager.js` (lines 154-165): the result of the
call (`Except.error` when `_filePath()` throws, outside the `try`) and the files
afterwards. -/
def removeFileAsset (dataDir : String) (files : FileSystem) (asset : Asset) :
    Except String Bool × FileSystem :=
  match filePath dataDir asset with
  | none => (Except.error "TypeError", files)
  | some path =>
    match unlinkSync files path with
    | Except.ok files' => (Except.ok true, files')
    | Except.error _ => (Except.ok false, files)

/-- Method `FileAsset._delete` of `file-asset.js` (lines 218-224), `path` being the
value of `this._filePath()`. -/
def deleteFile (files : FileSystem) (path : String) : Except String FileSystem :=
  if existsSync files path then unlinkSync files path else Except.ok files

/-- What the outside world does during `FileAsset.deploy` of `asset-manager.js`. -/
structure DeployWorld where
  /-- The destination directory exists or `fs.mkdirSync` creates it. -/
  destDir : Except String Unit
  /-- The result of `getInternalFileAssetDataUrl(key)`. -/
  url : Except String String
  /-- The bytes that the request stream pipes into the file. -/
  received : String
  /-- The `'error'` event of the request stream, if it fires instead of `'end'`. -/
  streamError : Option String

/-- Method `FileAsset.deploy` of `asset-manager.js` (lines 110-151): every failure inside
the `try` gives `false`; when the stream ends the file holds what was received and the
result is `true`. -/
def deployFileAsset (dataDir : String) (w : DeployWorld) (files : FileSystem) (asset : Asset) :
    Bool × FileSystem :=
  match filePath dataDir asset with
  | none => (false, files)
  | some path =>
    match w.destDir with
    | Except.error _ => (false, files)
    | Except.ok _ =>
      match w.url with
      | Except.error _ => (false, files)
      | Except.ok _ =>
        let files' := (path, w.received) :: files.filter fun f => f.1 ≠ path
        match w.streamError with
        | some _ => (false, files')
        | none => (true, files')

/-- Method `FileAsset._verify` of `file-asset.js` (lines 138-150), `path` being the value
of `this._filePath()`, `integrity` the value of `config.fileTypeConfig.integrity` and
`sha256` the base64 SHA-256 digest computed by `_getIntegrity`. -/
def verifyFile (sha256 : String → String) (files : FileSystem) (path : String)
    (integrity : String) : Except String Unit :=
  match files.lookup path with
  | none => Except.error "ENOENT"
  | some content =>
    if sha256 content ≠ integrity then
      Except.error
        ("File integrity mismatch: expected:" ++ integrity ++ ", calculated:" ++ sha256 content)
    else
      Except.ok ()

/-! ## The Node-RED supervisor (`node-red-controller.js`) -/

/-- The constant `maxRetryCount` (line 21). -/
def maxRetryCount : Nat := 5

/-- The constant `maxRetryCountResetInterval` (line 22), in seconds. -/
def maxRetryCountResetInterval : Nat := 5

/-- Type `EditSession` (lines 31-34); an absent property is the empty string. -/
structure EditSession where
  ipAddress : String
  sessionToken : String
  deriving DecidableEq, Repr

/-- The object returned by `res.json()` (type `NodeRedFlowPackage`, lines 24-29, with
the alternative property names read by `_updatePackage`).  A part is `none` when it is
absent or falsy, and is otherwise given by its JSON text. -/
structure FlowPackage where
  flow : Option String
  flows : Option String
  cred : Option String
  creds : Option String
  packages : Option String
  editSession : Option EditSession
  deriving DecidableEq, Repr

/-- The child process held in `_cproc`, with the `editSession` that the exit handler
registered for it on line 308 has captured. -/
structure Child where
  pid : Option Nat
  editSession : Option EditSession
  deriving DecidableEq, Repr

/-- The fields of `NodeREDController` (lines 36-51) without the action queue.  `command`
and `args` are the words of `this._command.split(/\s+/)`; `env` holds what the
controller has assigned in `process.env`. -/
structure NodeREDController where
  dataDir : String
  command : String
  args : List String
  killSignal : String
  assetsDataPath : String
  cproc : Option Child
  exceptionRetryCount : Nat
  lastRetryTimestamp : Nat
  allowEditSessions : Bool
  env : List (String × String)
  deriving DecidableEq, Repr

/-- The content handed to `fs.writeFile` by `_updatePackage`. -/
inductive FileContent
  /-- The text `JSON.stringify(value)`. -/
  | json (value : String)
  /-- The text of `{name, version, dependencies}` (lines 215-223). -/
  | packageJSON (name version dependencies : String)
  deriving DecidableEq, Repr

/-- What the supervisor does to the outside world; a path is given by the arguments of
`path.join`. -/
inductive SupEffect
  /-- The call `fs.writeFile(path, content, ...)`. -/
  | writeFile (path : List String) (content : FileContent)
  /-- The call `spawn('npm', ['install', 'enebular-agent-dynamic-deps'], ...)`. -/
  | npmInstall (cwd : String)
  /-- The call `ProcessUtil.killProcessByPIDFile(this._pidFile)`. -/
  | killProcessByPIDFile
  /-- The call `spawn(command, args, {env, ...})` of the service. -/
  | spawn (command : String) (args : List String) (env : List (String × String))
  /-- The call `_createPIDFile(pid)`. -/
  | createPIDFile (pid : Nat)
  /-- The call `_removePIDFile()`. -/
  | removePIDFile
  /-- The call `cproc.kill(signal)`. -/
  | kill (signal : String)
  /-- The timer `setTimeout(() => this._startService(editSession), ms)`. -/
  | scheduleStart (editSession : Option EditSession) (ms : Nat)
  deriving DecidableEq, Repr

/-- Assignment `env[name] = value`. -/
def setEnv (env : List (String × String)) (name value : String) : List (String × String) :=
  (name, value) :: env.filter fun e => e.1 ≠ name

/-- The `'exit'` handler that `_startService` registers on the child (lines 308-338);
`code` is `none` when the child was ended by a signal and `now` is the value of
`Date.now()`. -/
def onExit (child : Child) (code : Option Nat) (now : Nat) (c : NodeREDController) :
    NodeREDController × List SupEffect :=
  let c := { c with cproc := none }
  if code ≠ some 0 then
    let exceptionRetryCount :=
      if c.lastRetryTimestamp + maxRetryCountResetInterval * 1000 > now then
        c.exceptionRetryCount + 1
      else 0
    let c := { c with exceptionRetryCount := exceptionRetryCount, lastRetryTimestamp := now }
    if c.exceptionRetryCount < maxRetryCount then
      (c, [SupEffect.scheduleStart child.editSession 1000, SupEffect.removePIDFile])
    else
      (c, [SupEffect.removePIDFile])
  else
    (c, [SupEffect.removePIDFile])

/-- Method `_shutdownService` (lines 353-369) when the child, if there is one, ends
after the kill with `exit = (code, now)`: the handler of line 308, registered first,
runs before the one of line 358. -/
def shutdownService (exit : Option Nat × Nat) (c : NodeREDController) :
    NodeREDController × List SupEffect :=
  match c.cproc with
  | some child =>
    let r := onExit child exit.1 exit.2 c
    ({ r.1 with cproc := none }, SupEffect.kill c.killSignal :: r.2)
  | none => (c, [])

/-- What the outside world does during `_startService`. -/
structure StartWorld where
  /-- The test `fs.existsSync(this._pidFile)`. -/
  pidFileExists : Bool
  /-- The `'error'` event of the spawned child, or its `pid` (which may be undefined). -/
  spawned : Except String (Option Nat)

/-- Method `_startService` (lines 269-347) up to the point where its promise settles:
rejected by the `'error'` event of the child, resolved by the timer of line 345
otherwise.  The events of the running child (output, exit) come later. -/
def startService (editSession : Option EditSession) (w : StartWorld) (c : NodeREDController) :
    NodeREDController × List SupEffect × Except String Unit :=
  let killed := if w.pidFileExists then [SupEffect.killProcessByPIDFile] else []
  let env := setEnv c.env "ENEBULAR_ASSETS_DATA_PATH" c.assetsDataPath
  let args :=
    match editSession with
    | some _ => ["-s", ".node-red-config/enebular-editor-settings.js"]
    | none => c.args
  let env :=
    match editSession with
    | some es =>
      setEnv (setEnv env "ENEBULAR_EDITOR_URL" ("http://" ++ es.ipAddress ++ ":9017"))
        "ENEBULAR_EDITOR_SESSION_TOKEN" es.sessionToken
    | none => env
  let c := { c with env := env }
  match w.spawned with
  | Except.error e =>
    ({ c with cproc := none }, killed ++ [SupEffect.spawn c.command args env], Except.error e)
  | Except.ok pid =>
    ({ c with cproc := some ⟨pid, editSession⟩ },
      killed ++ [SupEffect.spawn c.command args env] ++
        (match pid with
         | some p => [SupEffect.createPIDFile p]
         | none => []),
      Except.ok ())

/-- What the outside world does during a restart. -/
structure RestartWorld where
  /-- The exit `(code, now)` of the running child after the kill. -/
  exit : Option Nat × Nat
  start : StartWorld

/-- Methods `_restartService` (lines 396-400, `editSession = none`) and
`_restartInEditorMode` (lines 389-394). -/
def restartService (editSession : Option EditSession) (w : RestartWorld)
    (c : NodeREDController) : NodeREDController × List SupEffect × Except String Unit :=
  let r := shutdownService w.exit c
  let s := startService editSession w.start r.1
  (s.1, r.2 ++ s.2.1, s.2.2)

/-- Method `_flowPackageContainsEditSession` (lines 157-167); `none` is a falsy
`flowPackage`. -/
def flowPackageContainsEditSession (flowPackage : Option FlowPackage) : Bool :=
  match flowPackage with
  | none => false
  | some p =>
    match p.editSession with
    | none => false
    | some es => es.ipAddress != "" && es.sessionToken != ""

/-- The response of `fetch(downloadUrl)`: its status and the result of `res.json()`. -/
structure Response where
  status : Nat
  json : Except String (Option FlowPackage)

/-- Method `_downloadPackage` (lines 169-176); the argument is the outcome of
`fetch(downloadUrl)`. -/
def downloadPackage (res : Except String Response) : Except String (Option FlowPackage) :=
  match res with
  | Except.error e => Except.error e
  | Except.ok res =>
    if res.status ≥ 400 then Except.error "invalid url" else res.json

/-- The outcome of the `npm install` child of `_resolveDependency`. -/
inductive NpmResult
  /-- The `'error'` event. -/
  | error (e : String)
  /-- The `'exit'` event, with the exit code (`none` when ended by a signal). -/
  | exit (code : Option Nat)
  deriving DecidableEq, Repr

/-- Method `_resolveDependency` (lines 236-245): rejected by `'error'`, resolved by
`'exit'`. -/
def resolveDependency (c : NodeREDController) (npm : NpmResult) :
    List SupEffect × Except String Unit :=
  match npm with
  | NpmResult.error e => ([SupEffect.npmInstall c.dataDir], Except.error e)
  | NpmResult.exit _ => ([SupEffect.npmInstall c.dataDir], Except.ok ())

/-- What the outside world does during `_updatePackage`: the error, if any, of each of
the three `fs.writeFile` calls and the outcome of `npm install`. -/
structure UpdateWorld where
  writeFlows : Option String
  writeCreds : Option String
  writePackages : Option String
  npm : NpmResult

/-- The writes of `_updatePackage` (lines 180-231): each is issued when its part is
present; the result is the first error among the issued writes, as `Promise.all`
gives it. -/
def packageWrites (c : NodeREDController) (w : UpdateWorld) (p : FlowPackage) :
    List (SupEffect × Option String) :=
  (match (p.flow <|> p.flows) with
   | some flows => [(SupEffect.writeFile [c.dataDir, "flows.json"] (FileContent.json flows),
       w.writeFlows)]
   | none => []) ++
  (match (p.cred <|> p.creds) with
   | some creds => [(SupEffect.writeFile [c.dataDir, "flows_cred.json"]
       (FileContent.json creds), w.writeCreds)]
   | none => []) ++
  (match p.packages with
   | some packages =>
     [(SupEffect.writeFile [c.dataDir, "enebular-agent-dynamic-deps", "package.json"]
         (FileContent.packageJSON "enebular-agent-dynamic-deps" "0.0.1" packages),
       w.writePackages)]
   | none => [])

/-- Method `_updatePackage` (lines 178-234); a falsy `flowPackage` makes the first
property access throw. -/
def updatePackage (c : NodeREDController) (w : UpdateWorld) (flowPackage : Option FlowPackage) :
    List SupEffect × Except String Unit :=
  match flowPackage with
  | none => ([], Except.error "TypeError")
  | some p =>
    let writes := packageWrites c w p
    match writes.findSome? Prod.snd with
    | some e => (writes.map Prod.fst, Except.error e)
    | none =>
      let r := resolveDependency c w.npm
      (writes.map Prod.fst ++ r.1, r.2)

/-- What the outside world does during `_fetchAndUpdateFlow`. -/
structure FlowWorld where
  response : Except String Response
  update : UpdateWorld
  restart : RestartWorld

/-- Method `_fetchAndUpdateFlow` (lines 138-155). -/
def fetchAndUpdateFlow (w : FlowWorld) (c : NodeREDController) :
    NodeREDController × List SupEffect × Except String Unit :=
  match downloadPackage w.response with
  | Except.error e => (c, [], Except.error e)
  | Except.ok flowPackage =>
    let editSessionRequested := flowPackageContainsEditSession flowPackage
    if editSessionRequested && !c.allowEditSessions then
      (c, [], Except.ok ())
    else
      let u := updatePackage c w.update flowPackage
      match u.2 with
      | Except.error e => (c, u.1, Except.error e)
      | Except.ok _ =>
        let editSession :=
          if editSessionRequested then
            (match flowPackage with
             | some p => p.editSession
             | none => none)
          else none
        let r := restartService editSession w.restart c
        (r.1, u.1 ++ r.2.1, r.2.2)

/-! ### The action queue of the supervisor

The queue is followed from one `await` to the next: a call of `_queueAction`, the
settling of the promise of the action that a drain awaits on line 127, and the
continuation of `_processActions` after line 130 are the events between which nothing
else runs. -/

/-- The fields `_actions` and `_isProcessing` (`true` when it holds a promise), the
actions that have been called and whose promise has not settled, the number of drains
whose loop has ended and whose continuation on line 131 has not run yet, and the
records of the actions called and submitted so far, in order. -/
structure ActionQueue (α : Type) where
  actions : List α
  isProcessing : Bool
  running : List α
  ended : Nat
  started : List α
  submitted : List α
  deriving DecidableEq, Repr

/-- A controller as constructed: lines 44-45. -/
def ActionQueue.init (α : Type) : ActionQueue α :=
  { actions := [], isProcessing := false, running := [], ended := 0, started := [],
    submitted := [] }

/-- One evaluation of the loop of lines 125-128 by a drain: the action at the front of
`_actions` is shifted off and called, or the loop ends. -/
def loopStep {α : Type} (q : ActionQueue α) : ActionQueue α :=
  match q.actions with
  | [] => { q with ended := q.ended + 1 }
  | action :: rest =>
    { q with
      actions := rest
      running := q.running ++ [action]
      started := q.started ++ [action] }

/-- Method `_queueAction` (lines 112-120) up to its `await`: the action is pushed, and a
drain is started by `_processActions` (lines 122-129) when `_isProcessing` is not set. -/
def queueAction {α : Type} (fn : α) (q : ActionQueue α) : ActionQueue α :=
  let q := { q with actions := q.actions ++ [fn], submitted := q.submitted ++ [fn] }
  if q.isProcessing then q else loopStep { q with isProcessing := true }

/-- The events between which the queue does not change. -/
inductive QueueEvent (α : Type)
  /-- A call of a public operation, which calls `_queueAction(fn)`. -/
  | call (fn : α)
  /-- The promise of a running action resolves. -/
  | resolved (fn : α)
  /-- The promise of a running action rejects. -/
  | rejected (fn : α)
  /-- The continuation of `_processActions` after the `await` of line 130. -/
  | drained
  deriving DecidableEq, Repr

/-- The queue after an event; `none` when the event cannot happen in this state. -/
def queueStep {α : Type} [DecidableEq α] (q : ActionQueue α) :
    QueueEvent α → Option (ActionQueue α)
  | QueueEvent.call fn => some (queueAction fn q)
  | QueueEvent.resolved fn =>
    if fn ∈ q.running then some (loopStep { q with running := q.running.erase fn })
    else none
  | QueueEvent.rejected fn =>
    if fn ∈ q.running then some { q with running := q.running.erase fn } else none
  | QueueEvent.drained =>
    if 0 < q.ended then some { q with ended := q.ended - 1, isProcessing := false }
    else none

/-- The queue after a sequence of events. -/
def queueRun {α : Type} [DecidableEq α] :
    ActionQueue α → List (QueueEvent α) → Option (ActionQueue α)
  | q, [] => some q
  | q, e :: rest =>
    match queueStep q e with
    | none => none
    | some q' => queueRun q' rest

/-! ### The promises of the action queue -/

/-- The state of a promise. -/
inductive PromiseState
  | pending
  | fulfilled
  | rejected (reason : String)
  deriving DecidableEq, Repr

/-- The action queue together with the promises that `_processActions` creates on line
124.  `drains` holds the state of each of them, in order of creation; `current` is
the index of the one last assigned to `_isProcessing`, which holds it for as long as
`queue.isProcessing` is set; `awaited` records, for each call of `_queueAction` in order,
its action and the promise whose outcome is the outcome of the call: the one awaited on
line 116, or the one awaited on line 130 by the `_processActions()` of line 118. -/
structure QueuePromises (α : Type) where
  queue : ActionQueue α
  drains : List PromiseState
  current : Nat
  awaited : List (α × Nat)
  deriving DecidableEq, Repr

/-- A controller as constructed: no promise has been created. -/
def QueuePromises.init (α : Type) : QueuePromises α :=
  { queue := ActionQueue.init α, drains := [], current := 0, awaited := [] }

/-- The events of the queue, a rejection with its reason. -/
inductive PromiseEvent (α : Type)
  /-- A call of `_queueAction(fn)`. -/
  | call (fn : α)
  /-- The promise of a running action resolves. -/
  | resolved (fn : α)
  /-- The promise of a running action rejects with `reason`, or the action throws it. -/
  | rejected (fn : α) (reason : String)
  /-- The continuation of `_processActions` after the `await` of line 130. -/
  | drained
  deriving DecidableEq, Repr

/-- The event without the reason. -/
def PromiseEvent.toQueueEvent {α : Type} : PromiseEvent α → QueueEvent α
  | PromiseEvent.call fn => QueueEvent.call fn
  | PromiseEvent.resolved fn => QueueEvent.resolved fn
  | PromiseEvent.rejected fn _ => QueueEvent.rejected fn
  | PromiseEvent.drained => QueueEvent.drained

/-- The queue and its promises after an event.  A call made while `_isProcessing` is
set awaits the promise it holds (line 116); otherwise `_processActions` creates a
promise, assigns it to `_isProcessing` (line 124) and awaits it (line 130).  When the
awaited action resolves, the loop of lines 125-128 goes on, and the async function
returns, fulfilling its promise, once `_actions` is empty.  When the awaited action
rejects, the `await` of line 127 throws out of the async function and its promise is
rejected with the same reason; the `await` of line 130 then throws, so line 131 is not
reached. -/
def promiseStep {α : Type} [DecidableEq α] (s : QueuePromises α) (e : PromiseEvent α) :
    Option (QueuePromises α) :=
  match queueStep s.queue e.toQueueEvent with
  | none => none
  | some q =>
    match e with
    | PromiseEvent.call fn =>
      if s.queue.isProcessing then
        some { s with queue := q, awaited := s.awaited ++ [(fn, s.current)] }
      else
        some { queue := q, drains := s.drains ++ [PromiseState.pending],
               current := s.drains.length,
               awaited := s.awaited ++ [(fn, s.drains.length)] }
    | PromiseEvent.resolved _ =>
      if s.queue.actions.isEmpty then
        some { s with queue := q, drains := s.drains.set s.current PromiseState.fulfilled }
      else some { s with queue := q }
    | PromiseEvent.rejected _ reason =>
      some { s with queue := q,
                    drains := s.drains.set s.current (PromiseState.rejected reason) }
    | PromiseEvent.drained => some { s with queue := q }

/-- The queue and its promises after a sequence of events. -/
def promiseRun {α : Type} [DecidableEq α] :
    QueuePromises α → List (PromiseEvent α) → Option (QueuePromises α)
  | s, [] => some s
  | s, e :: rest =>
    match promiseStep s e with
    | none => none
    | some s' => promiseRun s' rest
/-! ## Notions used in the statements -/

/-- The committed part of an asset: what the diff must not touch. -/
def Asset.committed (asset : Asset) : String × String × AssetState × JsString × Option Config :=
  (asset.type, asset.id, asset.state, asset.updateId, asset.config)

/-- Asset `a'` is `a` with a deploy of `d` staged at a clock reading numbered in
`[lo, hi)`. -/
def DeployStaged (clock : Clock) (lo hi : Nat) (d : DesiredAsset) (a a' : Asset) : Prop :=
  ∃ t, lo ≤ t ∧ t < hi ∧ a' = stageDeploy clock t d a

/-- Asset `a'` is `a` with a remove staged at a clock reading numbered in `[lo, hi)`. -/
def RemoveStaged (clock : Clock) (lo hi : Nat) (a a' : Asset) : Prop :=
  ∃ t, lo ≤ t ∧ t < hi ∧ a' = stageRemove clock t a

/-- The effect is a call of `asset.deploy()`. -/
def Effect.isCallDeploy : Effect → Bool
  | Effect.callDeploy _ _ _ => true
  | _ => false

/-- The effect is a call of `asset.remove()`. -/
def Effect.isCallRemove : Effect → Bool
  | Effect.callRemove _ => true
  | _ => false

/-! ## Sample data -/

/-- A file asset configuration. -/
def sampleConfig : Config :=
  { type := "file", destPath := "bin",
    fileTypeConfig := { filename := "tool.sh", integrity := "c2hhMjU2", size := 12, key := "k1" } }

/-- A configuration of a type the engine does not support. -/
def sampleDirConfig : Config := { sampleConfig with type := "dir" }

/-- A clock: the `k`-th reading is `1000 + k`. -/
def sampleClock : Clock := fun k => 1000 + k

/-- Asset `a1`, deployed at version `v1`, nothing pending. -/
def sampleDeployed : Asset :=
  { type := "file", id := "a1", updateId := JsString.str "v1", config := some sampleConfig,
    state := AssetState.deployed, changeTs := 7, pendingUpdateId := JsString.undefined,
    pendingChange := none, pendingConfig := none }

/-- Asset `a1`, deployed at version `v1`, with a deploy of version `v2` pending. -/
def sampleStaged : Asset :=
  { sampleDeployed with
    pendingUpdateId := JsString.str "v2"
    pendingChange := some PendingChange.deploy
    pendingConfig := some sampleConfig }

/-- A `stateChange` event of the desired state under `assets`. -/
def sampleParams : Params := { type := "desired", path := some "assets.assets.a1" }

/-- The desired state `{assets: {a1: {updateId, config}}}`. -/
def sampleDesired (updateId : String) (config : Config) : DesiredState :=
  { assets := some [("a1", { updateId := JsString.str updateId, config := config })] }

/-- An initialised manager holding the given assets. -/
def sampleManager (assets : List Asset) : AssetManager :=
  { assets := assets, processingAssetState := false, inited := true }

/-- Asset `a1`, deployed at version `v1`, with a remove pending. -/
def sampleRemovePending : Asset :=
  { sampleDeployed with pendingChange := some PendingChange.remove }

/-- Asset `a1` in `deployFail` with a remove pending. -/
def sampleFailedRemovePending : Asset :=
  { sampleDeployed with
    state := AssetState.deployFail
    pendingChange := some PendingChange.remove }

/-- The number of assets with a pending change. -/
def pendingCount (assets : List Asset) : Nat :=
  assets.countP fun a => a.pendingChange.isSome

/-- The state label that the reported-state store holds at `path` after the effects,
when it held `cur` there before them: the label of the last `set` on the path, nothing
after a `remove` of the path. -/
def reportedLabelAfter (path : String) : Option String → List Effect → Option String
  | cur, [] => cur
  | cur, Effect.reportSet p _ _ label :: rest =>
    reportedLabelAfter path (if p = path then some label else cur) rest
  | cur, Effect.reportRemove p :: rest =>
    reportedLabelAfter path (if p = path then none else cur) rest
  | cur, _ :: rest => reportedLabelAfter path cur rest

/-- The effect is an update of the reported state at `path`. -/
def Effect.touches (path : String) : Effect → Bool
  | Effect.reportSet p _ _ _ => decide (p = path)
  | Effect.reportRemove p => decide (p = path)
  | _ => false

/-- The asset as it is after a restart: the saved fields, nothing pending. -/
def Asset.reloaded (asset : Asset) : Asset :=
  { asset with
    pendingUpdateId := JsString.undefined
    pendingChange := none
    pendingConfig := none }

/-- A digest function for the examples. -/
def sampleSha256 (content : String) : String := "sha256-of-" ++ content

/-- A download that completes with a file whose digest is not the declared one. -/
def sampleTamperedDownload : DeployWorld :=
  { destDir := Except.ok (), url := Except.ok "https://example.com/a1",
    received := "tampered", streamError := none }

/-- Asset `a1`, never deployed, with a deploy of version `v1` pending. -/
def sampleNew : Asset :=
  { type := "file", id := "a1", updateId := JsString.null, config := none,
    state := AssetState.notDeployed, changeTs := 7, pendingUpdateId := JsString.str "v1",
    pendingChange := some PendingChange.deploy, pendingConfig := some sampleConfig }

/-- The effect is the timer of an automatic restart. -/
def SupEffect.isScheduleStart : SupEffect → Bool
  | SupEffect.scheduleStart _ _ => true
  | _ => false

/-- Successive exits `(code, now)` of the service, each handled by the exit handler;
for each exit, whether an automatic restart was scheduled. -/
def crashes (child : Child) :
    NodeREDController → List (Option Nat × Nat) → NodeREDController × List Bool
  | c, [] => (c, [])
  | c, exit :: rest =>
    let r := onExit child exit.1 exit.2 c
    let rs := crashes child r.1 rest
    (rs.1, r.2.any SupEffect.isScheduleStart :: rs.2)

/-- Every exit of the sequence is unexpected and occurs less than 5000 ms after the
previous one, the first less than 5000 ms after `last`. -/
def withinWindow : Nat → List (Option Nat × Nat) → Bool
  | _, [] => true
  | last, exit :: rest =>
    decide (exit.1 ≠ some 0) && decide (exit.2 < last + 5000) && withinWindow exit.2 rest

/-- A supervisor as constructed at time 0, with the service running. -/
def sampleController : NodeREDController :=
  { dataDir := "/data", command := "node-red", args := ["-s", "settings.js"],
    killSignal := "SIGINT", assetsDataPath := "/assets",
    cproc := some { pid := some 41, editSession := none },
    exceptionRetryCount := 0, lastRetryTimestamp := 0, allowEditSessions := false, env := [] }

/-- A flow package with flows and a complete edit session. -/
def sampleEditPackage : FlowPackage :=
  { flow := none, flows := some "[]", cred := none, creds := none, packages := none,
    editSession := some { ipAddress := "10.0.0.2", sessionToken := "tok" } }

/-- A flow package with flows and no edit session. -/
def samplePackage : FlowPackage := { sampleEditPackage with editSession := none }

/-- A world in which the fetch answers with the given status and package, the writes
and `npm install` succeed, the running service ends with exit code 0 when killed and
the new service starts with pid 42. -/
def sampleFlowWorld (status : Nat) (p : FlowPackage) : FlowWorld :=
  { response := Except.ok { status := status, json := Except.ok (some p) }
    update := { writeFlows := none, writeCreds := none, writePackages := none,
                npm := NpmResult.exit (some 0) }
    restart := { exit := (some 0, 9000),
                 start := { pidFileExists := false, spawned := Except.ok (some 42) } } }

/-- At most one action is running and at most one drain is alive; without
`_isProcessing` there is neither; and the actions called so far followed by the queued
ones are the submitted ones, in order. -/
def QueueInv {α : Type} (q : ActionQueue α) : Prop :=
  q.running.length + q.ended ≤ 1 ∧
    (q.isProcessing = false → q.running = [] ∧ q.ended = 0) ∧
    q.started ++ q.actions = q.submitted

/-- The action that the event pushes onto the queue, if it is a call. -/
def QueueEvent.pushed {α : Type} : QueueEvent α → List α
  | QueueEvent.call fn => [fn]
  | _ => []

/-- The keys of the desired asset map, when the desired state has one. -/
def desiredKeys (desiredState : Option DesiredState) : List String :=
  match desiredState with
  | none => []
  | some ds =>
    match ds.assets with
    | none => []
    | some desiredAssets => desiredAssets.map Prod.fst

/-- The invariant of the queue, and `_isProcessing` holds a promise that has been
created. -/
def PromiseInv {α : Type} (s : QueuePromises α) : Prop :=
  QueueInv s.queue ∧ (s.queue.isProcessing = true → s.current < s.drains.length)

/-- The queue is wedged: `_isProcessing` holds a promise, no action is running and no
drain is about to reset `_isProcessing`. -/
def Wedged {α : Type} (s : QueuePromises α) : Prop :=
  s.queue.isProcessing = true ∧ s.queue.running = [] ∧ s.queue.ended = 0

/-- The world of `sampleFlowWorld 200 samplePackage`, except that `npm install` exits
with the given code. -/
def sampleNpmWorld (code : Option Nat) : FlowWorld :=
  { response := Except.ok { status := 200, json := Except.ok (some samplePackage) }
    update := { writeFlows := none, writeCreds := none, writePackages := none,
                npm := NpmResult.exit code }
    restart := { exit := (some 0, 9000),
                 start := { pidFileExists := false, spawned := Except.ok (some 42) } } }

/-- The desired state `{assets: {a1: {...}, a2: {...}}}`, both at version `v2`. -/
def sampleDesiredTwo : DesiredState :=
  { assets := some [("a1", { updateId := JsString.str "v2", config := sampleConfig }),
                    ("a2", { updateId := JsString.str "v2", config := sampleConfig })] }

/-- The desired state `{assets: {a1: {...}, hasOwnProperty: {...}}}`, both at version
`v2`: one asset has the id `hasOwnProperty`. -/
def sampleDesiredShadowed : DesiredState :=
  { assets := some [("a1", { updateId := JsString.str "v2", config := sampleConfig }),
                    ("hasOwnProperty",
                      { updateId := JsString.str "v2", config := sampleConfig })] }

/-! ## Auxiliary facts about lists -/

theorem forall₂_getElem? {α β : Type} {R : α → β → Prop} {l₁ : List α} {l₂ : List β}
    (h : List.Forall₂ R l₁ l₂) :
    ∀ (i : Nat) (a : α), l₁[i]? = some a → ∃ b, l₂[i]? = some b ∧ R a b := by
  induction h with
  | nil => intro i a hi; simp at hi
  | cons hab _ ih =>
    intro i a hi
    cases i with
    | zero =>
      simp only [List.getElem?_cons_zero, Option.some.injEq] at hi
      subst hi
      exact ⟨_, by simp, hab⟩
    | succ i =>
      simp only [List.getElem?_cons_succ] at hi
      obtain ⟨b, hb, hr⟩ := ih i a hi
      exact ⟨b, by simpa using hb, hr⟩

theorem forall₂_compose {α β γ : Type} {R : α → β → Prop} {S : β → γ → Prop}
    {T : α → γ → Prop} (hT : ∀ a b c, R a b → S b c → T a c) {l₁ : List α} {l₂ : List β}
    (h₁ : List.Forall₂ R l₁ l₂) :
    ∀ {l₃ : List γ}, List.Forall₂ S l₂ l₃ → List.Forall₂ T l₁ l₃ := by
  induction h₁ with
  | nil => intro l₃ h₂; cases h₂; exact List.Forall₂.nil
  | cons hab _ ih =>
    intro l₃ h₂
    cases h₂ with
    | cons hbc htl => exact List.Forall₂.cons (hT _ _ _ hab hbc) (ih htl)

theorem forall₂_map_eq {α β γ : Type} {R : α → β → Prop} (f : α → γ) (g : β → γ)
    (hR : ∀ a b, R a b → g b = f a) {l₁ : List α} {l₂ : List β}
    (h : List.Forall₂ R l₁ l₂) : l₂.map g = l₁.map f := by
  induction h with
  | nil => rfl
  | cons hab _ ih => simp [hR _ _ hab, ih]

/-! ## Staging -/

theorem DeployStaged_mono {clock : Clock} {lo hi lo' hi' : Nat} {d : DesiredAsset}
    {a a' : Asset} (h : DeployStaged clock lo hi d a a') (hlo : lo' ≤ lo) (hhi : hi ≤ hi') :
    DeployStaged clock lo' hi' d a a' := by
  obtain ⟨t, h1, h2, h3⟩ := h
  exact ⟨t, le_trans hlo h1, lt_of_lt_of_le h2 hhi, h3⟩

theorem RemoveStaged_mono {clock : Clock} {lo hi lo' hi' : Nat}
    {a a' : Asset} (h : RemoveStaged clock lo hi a a') (hlo : lo' ≤ lo) (hhi : hi ≤ hi') :
    RemoveStaged clock lo' hi' a a' := by
  obtain ⟨t, h1, h2, h3⟩ := h
  exact ⟨t, le_trans hlo h1, lt_of_lt_of_le h2 hhi, h3⟩

theorem stageDeploy_committed (clock : Clock) (t : Nat) (d : DesiredAsset) (a : Asset) :
    (stageDeploy clock t d a).committed = a.committed := rfl

theorem stageRemove_committed (clock : Clock) (t : Nat) (a : Asset) :
    (stageRemove clock t a).committed = a.committed := rfl

theorem stageDeploy_stageDeploy (clock : Clock) (t t' : Nat) (d d' : DesiredAsset) (a : Asset) :
    stageDeploy clock t' d' (stageDeploy clock t d a) = stageDeploy clock t' d' a := rfl

theorem committed_id {a b : Asset} (h : b.committed = a.committed) : b.id = a.id := by
  simp only [Asset.committed, Prod.mk.injEq] at h
  exact h.2.1

theorem committed_updateId {a b : Asset} (h : b.committed = a.committed) :
    b.updateId = a.updateId := by
  simp only [Asset.committed, Prod.mk.injEq] at h
  exact h.2.2.2.1

/-! ## The inner loop `findAndStage` -/

theorem findAndStage_tick (clock : Clock) (id : String) (d : DesiredAsset) (tick : Nat)
    (assets : List Asset) :
    tick ≤ (findAndStage clock id d tick assets).2.2 := by
  induction assets with
  | nil => simp [findAndStage]
  | cons a rest ih =>
    simp only [findAndStage]
    split_ifs <;> simp [ih]

theorem findAndStage_found (clock : Clock) (id : String) (d : DesiredAsset) (tick : Nat)
    (assets : List Asset) :
    (findAndStage clock id d tick assets).2.1 = true ↔ id ∈ assets.map Asset.id := by
  induction assets with
  | nil => simp [findAndStage]
  | cons a rest ih =>
    simp only [findAndStage]
    split_ifs with h1 h2
    · simp [h1]
    · simp [h1]
    · simp only [ih, List.map_cons, List.mem_cons]
      constructor
      · exact Or.inr
      · rintro (h | h)
        · exact absurd h.symm h1
        · exact h

/-- Without any assumption: every asset is left as it is or gets a deploy of the
entry staged, and only an asset with the id of the entry and another `updateId`
gets one. -/
theorem findAndStage_weak (clock : Clock) (id : String) (d : DesiredAsset) (tick : Nat)
    (assets : List Asset) :
    List.Forall₂
      (fun a a' => a' = a ∨ (a.id = id ∧ a.updateId ≠ d.updateId ∧
        DeployStaged clock tick (findAndStage clock id d tick assets).2.2 d a a'))
      assets (findAndStage clock id d tick assets).1 := by
  induction assets with
  | nil => simp [findAndStage]
  | cons a rest ih =>
    simp only [findAndStage]
    split_ifs with h1 h2
    · refine List.Forall₂.cons (Or.inr ⟨h1, h2, tick, le_refl _, Nat.lt_succ_self _, rfl⟩) ?_
      exact List.forall₂_same.mpr (fun _ _ => Or.inl rfl)
    · exact List.forall₂_same.mpr (fun _ _ => Or.inl rfl)
    · exact List.Forall₂.cons (Or.inl rfl) ih

/-- With pairwise distinct ids: the asset with the id of the entry gets the deploy
staged exactly when its `updateId` differs, and every other asset is left as it
is. -/
theorem findAndStage_precise (clock : Clock) (id : String) (d : DesiredAsset) (tick : Nat)
    (assets : List Asset) (hids : (assets.map Asset.id).Nodup) :
    List.Forall₂
      (fun a a' =>
        (a.id = id ∧ a.updateId ≠ d.updateId →
          DeployStaged clock tick (findAndStage clock id d tick assets).2.2 d a a') ∧
        (¬ (a.id = id ∧ a.updateId ≠ d.updateId) → a' = a))
      assets (findAndStage clock id d tick assets).1 := by
  induction assets with
  | nil => simp [findAndStage]
  | cons a rest ih =>
    simp only [List.map_cons, List.nodup_cons] at hids
    have hrest : ∀ b ∈ rest, ¬ (a.id = id ∧ b.id = id) := by
      intro b hb h
      exact hids.1 (List.mem_map.mpr ⟨b, hb, by rw [h.1, h.2]⟩)
    simp only [findAndStage]
    split_ifs with h1 h2
    · refine List.Forall₂.cons
        ⟨fun _ => ⟨tick, le_refl _, Nat.lt_succ_self _, rfl⟩, fun h => absurd ⟨h1, h2⟩ h⟩ ?_
      refine List.forall₂_same.mpr (fun b hb => ⟨fun h => ?_, fun _ => rfl⟩)
      exact absurd ⟨h1, h.1⟩ (hrest b hb)
    · refine List.Forall₂.cons ⟨fun h => absurd h.2 h2, fun _ => rfl⟩ ?_
      refine List.forall₂_same.mpr (fun b hb => ⟨fun h => ?_, fun _ => rfl⟩)
      exact absurd ⟨h1, h.1⟩ (hrest b hb)
    · exact List.Forall₂.cons ⟨fun h => absurd h.1 h1, fun _ => rfl⟩ (ih hids.2)

theorem findAndStage_committed (clock : Clock) (id : String) (d : DesiredAsset) (tick : Nat)
    (assets : List Asset) :
    (findAndStage clock id d tick assets).1.map Asset.committed = assets.map Asset.committed := by
  refine forall₂_map_eq Asset.committed Asset.committed ?_ (findAndStage_weak clock id d tick assets)
  rintro a b (h | ⟨_, _, t, _, _, h⟩)
  · rw [h]
  · rw [h]; rfl

theorem map_id_of_committed {l₁ l₂ : List Asset}
    (h : l₂.map Asset.committed = l₁.map Asset.committed) :
    l₂.map Asset.id = l₁.map Asset.id := by
  have e : Asset.id = (fun p : String × String × AssetState × JsString × Option Config => p.2.1) ∘
      Asset.committed := rfl
  rw [e, ← List.map_map, ← List.map_map, h]

/-! ## The loop over the desired asset map -/

theorem diffOwnEntry_assets (clock : Clock) (acc : DiffAcc) (e : String × DesiredAsset) :
    (diffOwnEntry clock acc e).assets = (findAndStage clock e.1 e.2 acc.tick acc.assets).1 := by
  simp only [diffOwnEntry]
  split_ifs <;> rfl

theorem diffOwnEntry_tick (clock : Clock) (acc : DiffAcc) (e : String × DesiredAsset) :
    (findAndStage clock e.1 e.2 acc.tick acc.assets).2.2 ≤ (diffOwnEntry clock acc e).tick := by
  simp only [diffOwnEntry]
  split_ifs <;> simp

theorem diffOwnEntry_tick_le (clock : Clock) (acc : DiffAcc) (e : String × DesiredAsset) :
    acc.tick ≤ (diffOwnEntry clock acc e).tick :=
  le_trans (findAndStage_tick clock e.1 e.2 acc.tick acc.assets) (diffOwnEntry_tick clock acc e)

theorem foldl_diffOwnEntry_tick (clock : Clock) (ds : List (String × DesiredAsset)) :
    ∀ acc : DiffAcc, acc.tick ≤ (ds.foldl (diffOwnEntry clock) acc).tick := by
  induction ds with
  | nil => intro acc; exact le_refl _
  | cons e rest ih =>
    intro acc
    exact le_trans (diffOwnEntry_tick_le clock acc e) (ih (diffOwnEntry clock acc e))

theorem foldl_diffOwnEntry_committed (clock : Clock) (ds : List (String × DesiredAsset)) :
    ∀ acc : DiffAcc,
      (ds.foldl (diffOwnEntry clock) acc).assets.map Asset.committed =
        acc.assets.map Asset.committed := by
  induction ds with
  | nil => intro acc; rfl
  | cons e rest ih =>
    intro acc
    rw [List.foldl_cons, ih, diffOwnEntry_assets, findAndStage_committed]

/-- Without any assumption: after the loop every asset is as it was or has a deploy
of an entry with its id and another `updateId` staged. -/
theorem foldl_diffOwnEntry_weak (clock : Clock) (ds : List (String × DesiredAsset)) :
    ∀ acc : DiffAcc,
      List.Forall₂
        (fun a a' => a' = a ∨ ∃ d, (a.id, d) ∈ ds ∧ a.updateId ≠ d.updateId ∧
          DeployStaged clock acc.tick (ds.foldl (diffOwnEntry clock) acc).tick d a a')
        acc.assets (ds.foldl (diffOwnEntry clock) acc).assets := by
  induction ds with
  | nil => intro acc; exact List.forall₂_same.mpr (fun _ _ => Or.inl rfl)
  | cons e rest ih =>
    intro acc
    rw [List.foldl_cons]
    have h1 := findAndStage_weak clock e.1 e.2 acc.tick acc.assets
    have h2 := ih (diffOwnEntry clock acc e)
    rw [diffOwnEntry_assets] at h2
    have hlo := diffOwnEntry_tick_le clock acc e
    have hmid := diffOwnEntry_tick clock acc e
    have hhi := foldl_diffOwnEntry_tick clock rest (diffOwnEntry clock acc e)
    refine forall₂_compose ?_ h1 h2
    rintro a b c (hab | ⟨hid, hne, hst⟩) (hbc | ⟨d, hd, hdne, hdst⟩)
    · left; rw [hbc, hab]
    · subst hab
      exact Or.inr ⟨d, List.mem_cons_of_mem _ hd, hdne, DeployStaged_mono hdst hlo (le_refl _)⟩
    · subst hbc
      refine Or.inr ⟨e.2, ?_, hne, DeployStaged_mono hst (le_refl _) (le_trans hmid hhi)⟩
      rw [hid]; exact List.mem_cons_self _ _
    · obtain ⟨t, _, _, hb⟩ := hst
      obtain ⟨t', ht1, ht2, hc⟩ := hdst
      subst hb
      refine Or.inr ⟨d, List.mem_cons_of_mem _ hd, hdne, t', le_trans hlo ht1, ht2, ?_⟩
      rw [hc]; rfl

/-- With pairwise distinct keys and pairwise distinct ids: after the loop an asset
whose id is a key has the deploy of that entry staged exactly when its `updateId`
differs from the entry's, and is left as it was otherwise. -/
theorem foldl_diffOwnEntry_precise (clock : Clock) (ds : List (String × DesiredAsset))
    (hkeys : (ds.map Prod.fst).Nodup) :
    ∀ acc : DiffAcc, (acc.assets.map Asset.id).Nodup →
      List.Forall₂
        (fun a a' =>
          (∀ d, (a.id, d) ∈ ds → a.updateId ≠ d.updateId →
            DeployStaged clock acc.tick (ds.foldl (diffOwnEntry clock) acc).tick d a a') ∧
          ((∀ d, (a.id, d) ∈ ds → a.updateId = d.updateId) → a' = a))
        acc.assets (ds.foldl (diffOwnEntry clock) acc).assets := by
  induction ds with
  | nil =>
    intro acc _
    exact List.forall₂_same.mpr (fun _ _ => ⟨fun d hd => absurd hd (List.not_mem_nil _),
      fun _ => rfl⟩)
  | cons e rest ih =>
    intro acc hids
    simp only [List.map_cons, List.nodup_cons] at hkeys
    rw [List.foldl_cons]
    have h1 := findAndStage_precise clock e.1 e.2 acc.tick acc.assets hids
    have hids' : ((diffOwnEntry clock acc e).assets.map Asset.id).Nodup := by
      rw [diffOwnEntry_assets, map_id_of_committed (findAndStage_committed _ _ _ _ _)]
      exact hids
    have h2 := ih hkeys.2 (diffOwnEntry clock acc e) hids'
    rw [diffOwnEntry_assets] at h2
    have hlo := diffOwnEntry_tick_le clock acc e
    have hmid := diffOwnEntry_tick clock acc e
    have hhi := foldl_diffOwnEntry_tick clock rest (diffOwnEntry clock acc e)
    have hkey : ∀ d, (e.1, d) ∉ rest := fun d hd =>
      hkeys.1 (List.mem_map.mpr ⟨(e.1, d), hd, rfl⟩)
    refine forall₂_compose ?_ h1 h2
    rintro a b c ⟨hab1, hab2⟩ ⟨hbc1, hbc2⟩
    by_cases hid : a.id = e.1
    · -- the asset of this entry: the remaining entries do not name it
      by_cases hne : a.updateId ≠ e.2.updateId
      · obtain ⟨t, ht1, ht2, hb⟩ := hab1 ⟨hid, hne⟩
        subst hb
        have hc : c = stageDeploy clock t e.2 a := by
          apply hbc2
          intro d hd
          exact absurd (show (e.1, d) ∈ rest by rw [← hid]; exact hd) (hkey d)
        subst hc
        constructor
        · intro d hd _
          rcases List.mem_cons.mp hd with h | h
          · have : d = e.2 := by rw [← h]
            subst this
            exact ⟨t, ht1, lt_of_lt_of_le ht2 (le_trans hmid hhi), rfl⟩
          · exact absurd (show (e.1, d) ∈ rest by rw [← hid]; exact h) (hkey d)
        · intro hall
          exact absurd (hall e.2 (by rw [hid]; exact List.mem_cons_self _ _)) hne
      · have hb : b = a := hab2 (fun h => hne h.2)
        subst hb
        have hc : c = b := by
          apply hbc2
          intro d hd
          exact absurd (show (e.1, d) ∈ rest by rw [← hid]; exact hd) (hkey d)
        subst hc
        refine ⟨?_, fun _ => rfl⟩
        intro d hd hdne
        rcases List.mem_cons.mp hd with h | h
        · have : d = e.2 := by rw [← h]
          subst this
          exact absurd hdne hne
        · exact absurd (show (e.1, d) ∈ rest by rw [← hid]; exact h) (hkey d)
    · have hb : b = a := hab2 (fun h => hid h.1)
      subst hb
      have hmem : ∀ d, (b.id, d) ∈ e :: rest ↔ (b.id, d) ∈ rest := by
        intro d
        constructor
        · intro h
          rcases List.mem_cons.mp h with h | h
          · exact absurd (by rw [← h]) hid
          · exact h
        · exact List.mem_cons_of_mem _
      constructor
      · intro d hd hdne
        exact DeployStaged_mono (hbc1 d ((hmem d).mp hd) hdne) hlo (le_refl _)
      · intro hall
        exact hbc2 (fun d hd => hall d ((hmem d).mpr hd))

/-- The assets created by the loop: one for each entry whose key is the id of no
asset of the collection and whose `config.type` is `'file'`, in the order of the
entries. -/
theorem foldl_diffOwnEntry_newAssets (clock : Clock) (ds : List (String × DesiredAsset)) :
    ∀ acc : DiffAcc, ∃ news : List Asset,
      (ds.foldl (diffOwnEntry clock) acc).newAssets = acc.newAssets ++ news ∧
      List.Forall₂
        (fun e a => ∃ t, acc.tick ≤ t ∧ t < (ds.foldl (diffOwnEntry clock) acc).tick ∧
          a = newFileAsset clock t e.1 e.2)
        (ds.filter fun e =>
          decide (e.1 ∉ acc.assets.map Asset.id) && decide (e.2.config.type = "file"))
        news := by
  induction ds with
  | nil => intro acc; exact ⟨[], by simp, by simp⟩
  | cons e rest ih =>
    intro acc
    obtain ⟨news, hnew, hrel⟩ := ih (diffOwnEntry clock acc e)
    have hids : (diffOwnEntry clock acc e).assets.map Asset.id = acc.assets.map Asset.id := by
      rw [diffOwnEntry_assets, map_id_of_committed (findAndStage_committed _ _ _ _ _)]
    rw [hids] at hrel
    have hlo := diffOwnEntry_tick_le clock acc e
    have hhi := foldl_diffOwnEntry_tick clock rest (diffOwnEntry clock acc e)
    have hrel' : List.Forall₂
        (fun (e' : String × DesiredAsset) (a : Asset) => ∃ t, acc.tick ≤ t ∧
          t < (rest.foldl (diffOwnEntry clock) (diffOwnEntry clock acc e)).tick ∧
          a = newFileAsset clock t e'.1 e'.2)
        (rest.filter fun e =>
          decide (e.1 ∉ acc.assets.map Asset.id) && decide (e.2.config.type = "file"))
        news := by
      refine hrel.imp ?_
      rintro e' a ⟨t, h1, h2, h3⟩
      exact ⟨t, le_trans hlo h1, h2, h3⟩
    have hfound := findAndStage_found clock e.1 e.2 acc.tick acc.assets
    have htick := findAndStage_tick clock e.1 e.2 acc.tick acc.assets
    rw [List.foldl_cons, hnew]
    by_cases hf : (findAndStage clock e.1 e.2 acc.tick acc.assets).2.1 = true
    · have hmem := hfound.mp hf
      refine ⟨news, ?_, ?_⟩
      · simp [diffOwnEntry, hf]
      · rw [List.filter_cons]
        have hcond : ¬ (decide (e.1 ∉ acc.assets.map Asset.id) &&
            decide (e.2.config.type = "file")) = true := by
          intro h
          rw [Bool.and_eq_true, decide_eq_true_eq] at h
          exact h.1 hmem
        rw [if_neg hcond]
        exact hrel'
    · have hmem : e.1 ∉ acc.assets.map Asset.id := fun h => hf (hfound.mpr h)
      by_cases hty : e.2.config.type = "file"
      · refine ⟨newFileAsset clock (findAndStage clock e.1 e.2 acc.tick acc.assets).2.2 e.1 e.2
          :: news, ?_, ?_⟩
        · simp [diffOwnEntry, hf, hty]
        · rw [List.filter_cons]
          have hcond : (decide (e.1 ∉ acc.assets.map Asset.id) &&
              decide (e.2.config.type = "file")) = true := by simp [hmem, hty]
          rw [if_pos hcond]
          refine List.Forall₂.cons ⟨_, htick, ?_, rfl⟩ hrel'
          refine lt_of_lt_of_le ?_ hhi
          simp [diffOwnEntry, hf, hty]
      · refine ⟨news, ?_, ?_⟩
        · simp [diffOwnEntry, hf, hty]
        · rw [List.filter_cons]
          have hcond : ¬ (decide (e.1 ∉ acc.assets.map Asset.id) &&
              decide (e.2.config.type = "file")) = true := by simp [hty]
          rw [if_neg hcond]
          exact hrel'

/-! ## The loop that stages removes -/

theorem stageOwnRemoves_tick (clock : Clock) (ds : List (String × DesiredAsset))
    (assets : List Asset) :
    ∀ tick, tick ≤ (stageOwnRemoves clock ds tick assets).2 := by
  induction assets with
  | nil => intro tick; simp [stageOwnRemoves]
  | cons a rest ih =>
    intro tick
    simp only [stageOwnRemoves]
    split_ifs
    · exact ih tick
    · exact le_trans (Nat.le_succ tick) (ih (tick + 1))

/-- An asset whose id is a key is left as it is and every other asset gets a remove
staged. -/
theorem stageOwnRemoves_spec (clock : Clock) (ds : List (String × DesiredAsset))
    (assets : List Asset) :
    ∀ tick, List.Forall₂
      (fun a a' =>
        (a.id ∈ ds.map Prod.fst → a' = a) ∧
        (a.id ∉ ds.map Prod.fst →
          RemoveStaged clock tick (stageOwnRemoves clock ds tick assets).2 a a'))
      assets (stageOwnRemoves clock ds tick assets).1 := by
  induction assets with
  | nil => intro tick; simp [stageOwnRemoves]
  | cons a rest ih =>
    intro tick
    simp only [stageOwnRemoves]
    split_ifs with h
    · have hmem : a.id ∈ ds.map Prod.fst := h
      exact List.Forall₂.cons ⟨fun _ => rfl, fun hn => absurd hmem hn⟩ (ih tick)
    · have hmem : a.id ∉ ds.map Prod.fst := h
      refine List.Forall₂.cons ⟨fun hn => absurd hn hmem, fun _ => ⟨tick, le_refl _, ?_, rfl⟩⟩ ?_
      · exact lt_of_lt_of_le (Nat.lt_succ_self tick) (stageOwnRemoves_tick clock ds rest (tick + 1))
      · exact (ih (tick + 1)).imp (fun b b' hb =>
          ⟨hb.1, fun hn => RemoveStaged_mono (hb.2 hn) (Nat.le_succ tick) (le_refl _)⟩)

theorem stageOwnRemoves_committed (clock : Clock) (ds : List (String × DesiredAsset))
    (assets : List Asset) (tick : Nat) :
    (stageOwnRemoves clock ds tick assets).1.map Asset.committed = assets.map Asset.committed := by
  refine forall₂_map_eq Asset.committed Asset.committed ?_ (stageOwnRemoves_spec clock ds assets tick)
  rintro a b ⟨h1, h2⟩
  by_cases hmem : a.id ∈ ds.map Prod.fst
  · rw [h1 hmem]
  · obtain ⟨t, _, _, h⟩ := h2 hmem
    rw [h]; rfl

/-! ## The diff as a whole -/

theorem diffOwnAssets_tick (clock : Clock) (tick : Nat) (ds : List (String × DesiredAsset))
    (assets : List Asset) : tick ≤ (diffOwnAssets clock tick ds assets).tick := by
  simp only [diffOwnAssets]
  exact le_trans (foldl_diffOwnEntry_tick clock ds ⟨assets, [], tick, []⟩) (stageOwnRemoves_tick _ _ _ _)

/-- The collection after the diff is the old collection, asset by asset, followed
by the created assets.  Without any assumption on ids: an asset whose id is not a
key has a remove staged, and an asset whose id is a key is as it was or has a
deploy of an entry with its id and another `updateId` staged. -/
theorem diffOwnAssets_weak (clock : Clock) (tick : Nat) (ds : List (String × DesiredAsset))
    (assets : List Asset) :
    ∃ existing news : List Asset,
      (diffOwnAssets clock tick ds assets).assets = existing ++ news ∧
      List.Forall₂
        (fun a a' =>
          (a.id ∉ ds.map Prod.fst →
            RemoveStaged clock tick (diffOwnAssets clock tick ds assets).tick a a') ∧
          (a.id ∈ ds.map Prod.fst → a' = a ∨ ∃ d, (a.id, d) ∈ ds ∧ a.updateId ≠ d.updateId ∧
            DeployStaged clock tick (diffOwnAssets clock tick ds assets).tick d a a'))
        assets existing ∧
      List.Forall₂
        (fun e a => ∃ t, tick ≤ t ∧ t < (diffOwnAssets clock tick ds assets).tick ∧
          a = newFileAsset clock t e.1 e.2)
        (ds.filter fun e =>
          decide (e.1 ∉ assets.map Asset.id) && decide (e.2.config.type = "file"))
        news := by
  obtain ⟨news, hnew, hrel⟩ := foldl_diffOwnEntry_newAssets clock ds ⟨assets, [], tick, []⟩
  have h1 := foldl_diffOwnEntry_weak clock ds ⟨assets, [], tick, []⟩
  have h2 := stageOwnRemoves_spec clock ds (ds.foldl (diffOwnEntry clock) ⟨assets, [], tick, []⟩).assets
    (ds.foldl (diffOwnEntry clock) ⟨assets, [], tick, []⟩).tick
  have hlo := foldl_diffOwnEntry_tick clock ds ⟨assets, [], tick, []⟩
  have hhi := stageOwnRemoves_tick clock ds (ds.foldl (diffOwnEntry clock) ⟨assets, [], tick, []⟩).assets
    (ds.foldl (diffOwnEntry clock) ⟨assets, [], tick, []⟩).tick
  refine ⟨_, news, ?_, forall₂_compose ?_ h1 h2, ?_⟩
  · simp only [diffOwnAssets, hnew, List.nil_append]
  · rintro a b c hab ⟨hbc1, hbc2⟩
    simp only [diffOwnAssets]
    rcases hab with hab | ⟨d, hd, hne, hst⟩
    · subst hab
      refine ⟨fun hn => RemoveStaged_mono (hbc2 hn) hlo (le_refl _), fun hm => Or.inl (hbc1 hm)⟩
    · have hmem : a.id ∈ ds.map Prod.fst := List.mem_map.mpr ⟨(a.id, d), hd, rfl⟩
      obtain ⟨t, ht1, ht2, hb⟩ := hst
      subst hb
      refine ⟨fun hn => absurd hmem hn, fun _ => Or.inr ⟨d, hd, hne, t, ht1, ?_, ?_⟩⟩
      · exact lt_of_lt_of_le ht2 hhi
      · exact hbc1 hmem
  · simp only [diffOwnAssets]
    refine hrel.imp ?_
    rintro e a ⟨t, ht1, ht2, ha⟩
    exact ⟨t, ht1, lt_of_lt_of_le ht2 hhi, ha⟩

/-- With pairwise distinct keys and ids: an existing asset whose id is a key has the
deploy of that entry staged exactly when its `updateId` differs from the entry's. -/
theorem diffOwnAssets_precise (clock : Clock) (tick : Nat) (ds : List (String × DesiredAsset))
    (assets : List Asset) (hkeys : (ds.map Prod.fst).Nodup)
    (hids : (assets.map Asset.id).Nodup) :
    ∃ existing news : List Asset,
      (diffOwnAssets clock tick ds assets).assets = existing ++ news ∧
      List.Forall₂
        (fun a a' => ∀ d, (a.id, d) ∈ ds →
          (a.updateId ≠ d.updateId →
            DeployStaged clock tick (diffOwnAssets clock tick ds assets).tick d a a') ∧
          (a.updateId = d.updateId → a' = a))
        assets existing := by
  have h1 := foldl_diffOwnEntry_precise clock ds hkeys ⟨assets, [], tick, []⟩ hids
  have h2 := stageOwnRemoves_spec clock ds (ds.foldl (diffOwnEntry clock) ⟨assets, [], tick, []⟩).assets
    (ds.foldl (diffOwnEntry clock) ⟨assets, [], tick, []⟩).tick
  have hhi := stageOwnRemoves_tick clock ds (ds.foldl (diffOwnEntry clock) ⟨assets, [], tick, []⟩).assets
    (ds.foldl (diffOwnEntry clock) ⟨assets, [], tick, []⟩).tick
  refine ⟨_, _, rfl, forall₂_compose ?_ h1 h2⟩
  rintro a b c ⟨hab1, hab2⟩ ⟨hbc1, _⟩ d hd
  have hmem : a.id ∈ ds.map Prod.fst := List.mem_map.mpr ⟨(a.id, d), hd, rfl⟩
  have huniq : ∀ d', (a.id, d') ∈ ds → d' = d := by
    intro d' hd'
    have := List.inj_on_of_nodup_map hkeys hd' hd rfl
    exact (Prod.mk.inj this).2
  constructor
  · intro hne
    obtain ⟨t, ht1, ht2, hb⟩ := hab1 d hd hne
    subst hb
    exact ⟨t, ht1, lt_of_lt_of_le ht2 hhi, hbc1 hmem⟩
  · intro heq
    have hb : b = a := hab2 (fun d' hd' => by rw [huniq d' hd']; exact heq)
    subst hb
    exact hbc1 hmem

/-! ### The call of `hasOwnProperty` on the desired asset map -/

theorem hasOwnProperty_ok (ds : List (String × DesiredAsset)) (id : String)
    (hown : "hasOwnProperty" ∉ ds.map Prod.fst) :
    hasOwnProperty ds id = Except.ok (decide (id ∈ ds.map Prod.fst)) := by
  simp only [hasOwnProperty, if_neg hown]

theorem hasOwnProperty_throws (ds : List (String × DesiredAsset)) (id : String)
    (hown : "hasOwnProperty" ∈ ds.map Prod.fst) :
    hasOwnProperty ds id = Except.error hasOwnPropertyTypeError := by
  simp only [hasOwnProperty, if_pos hown]

/-- Without a key `hasOwnProperty` every enumerated property passes the test of line
311 and the loop is the fold of the rest of its body. -/
theorem diffEntries_ok (clock : Clock) (ds : List (String × DesiredAsset))
    (hown : "hasOwnProperty" ∉ ds.map Prod.fst) :
    ∀ (entries : List (String × DesiredAsset)) (acc : DiffAcc),
      (∀ e ∈ entries, e.1 ∈ ds.map Prod.fst) →
      diffEntries clock ds entries acc = Except.ok (entries.foldl (diffOwnEntry clock) acc) := by
  intro entries
  induction entries with
  | nil => intro acc _; rfl
  | cons e rest ih =>
    intro acc hmem
    have he : e.1 ∈ ds.map Prod.fst := hmem e (List.mem_cons_self _ _)
    simp only [diffEntries, diffEntry, hasOwnProperty_ok ds e.1 hown, decide_eq_true he,
      List.foldl_cons]
    exact ih _ (fun e' he' => hmem e' (List.mem_cons_of_mem _ he'))

theorem stageRemoves_ok (clock : Clock) (ds : List (String × DesiredAsset))
    (hown : "hasOwnProperty" ∉ ds.map Prod.fst) :
    ∀ (assets : List Asset) (tick : Nat),
      stageRemoves clock ds tick assets = Except.ok (stageOwnRemoves clock ds tick assets) := by
  intro assets
  induction assets with
  | nil => intro tick; rfl
  | cons a rest ih =>
    intro tick
    simp only [stageRemoves, stageOwnRemoves, hasOwnProperty_ok ds a.id hown]
    by_cases h : a.id ∈ ds.map Prod.fst
    · simp only [decide_eq_true h, if_pos h, ih tick]
    · simp only [decide_eq_false h, if_neg h, ih (tick + 1)]

/-- Without a key `hasOwnProperty` in the desired asset map nothing throws. -/
theorem diffAssets_ok (clock : Clock) (tick : Nat) (ds : List (String × DesiredAsset))
    (assets : List Asset) (hown : "hasOwnProperty" ∉ ds.map Prod.fst) :
    diffAssets clock tick ds assets = Except.ok (diffOwnAssets clock tick ds assets) := by
  have h1 := diffEntries_ok clock ds hown ds ⟨assets, [], tick, []⟩
    (fun e he => List.mem_map_of_mem Prod.fst he)
  simp only [diffAssets, h1, stageRemoves_ok clock ds hown, diffOwnAssets]

/-- With a key `hasOwnProperty` in the desired asset map the first evaluation of line
311 throws. -/
theorem diffAssets_throws (clock : Clock) (tick : Nat) (ds : List (String × DesiredAsset))
    (assets : List Asset) (hown : "hasOwnProperty" ∈ ds.map Prod.fst) :
    diffAssets clock tick ds assets = Except.error hasOwnPropertyTypeError := by
  cases hds : ds with
  | nil => rw [hds] at hown; simp at hown
  | cons e rest =>
    rw [← hds]
    have h : diffEntries clock ds ds ⟨assets, [], tick, []⟩ =
        Except.error hasOwnPropertyTypeError := by
      rw [hds]
      simp only [diffEntries, diffEntry]
      rw [← hds, hasOwnProperty_throws ds e.1 hown]
    simp only [diffAssets, h]

theorem handleDeviceStateChange_eq (clock : Clock) (tick : Nat) (params : Params)
    (ds : DesiredState) (desiredAssets : List (String × DesiredAsset)) (man : AssetManager)
    (hevent : ignoredEvent params = false) (hinited : man.inited = true)
    (hmap : ds.assets = some desiredAssets)
    (hown : "hasOwnProperty" ∉ desiredAssets.map Prod.fst) :
    handleDeviceStateChange clock tick params (some ds) man =
      ⟨{ man with assets := (diffOwnAssets clock tick desiredAssets man.assets).assets },
        (diffOwnAssets clock tick desiredAssets man.assets).effects ++
          updateReportedAssetsState (diffOwnAssets clock tick desiredAssets man.assets).assets,
        (diffOwnAssets clock tick desiredAssets man.assets).tick, true, none⟩ := by
  simp [handleDeviceStateChange, hevent, hinited, hmap,
    diffAssets_ok clock tick desiredAssets man.assets hown]

/-- With a key `hasOwnProperty` in the desired asset map the handler throws and leaves
everything as it was. -/
theorem handleDeviceStateChange_throws (clock : Clock) (tick : Nat) (params : Params)
    (ds : DesiredState) (desiredAssets : List (String × DesiredAsset)) (man : AssetManager)
    (hevent : ignoredEvent params = false) (hinited : man.inited = true)
    (hmap : ds.assets = some desiredAssets)
    (hown : "hasOwnProperty" ∈ desiredAssets.map Prod.fst) :
    handleDeviceStateChange clock tick params (some ds) man =
      ⟨man, [], tick, false, some hasOwnPropertyTypeError⟩ := by
  simp [handleDeviceStateChange, hevent, hinited, hmap,
    diffAssets_throws clock tick desiredAssets man.assets hown]

theorem updateReportedAssetsState_eq (assets : List Asset) :
    updateReportedAssetsState assets =
      (assets.filter fun a => a.pendingChange.isSome).map updateReportedAssetState := by
  induction assets with
  | nil => rfl
  | cons a rest ih =>
    simp only [updateReportedAssetsState, List.filter_cons]
    split_ifs <;> simp [ih]

theorem forall₂_mem_left {α β : Type} {R : α → β → Prop} {l₁ : List α} {l₂ : List β}
    (h : List.Forall₂ R l₁ l₂) {a : α} (ha : a ∈ l₁) : ∃ b ∈ l₂, R a b := by
  obtain ⟨i, hi⟩ := List.mem_iff_getElem?.mp ha
  obtain ⟨b, hb, hr⟩ := forall₂_getElem? h i a hi
  exact ⟨b, List.getElem?_mem hb, hr⟩

theorem filter_eq_singleton_of_nodup_map {α β : Type} [DecidableEq β] (f : α → β) :
    ∀ (l : List α), (l.map f).Nodup → ∀ x ∈ l, l.filter (fun a => decide (f a = f x)) = [x] := by
  intro l
  induction l with
  | nil => intro _ x hx; simp at hx
  | cons a rest ih =>
    intro hnd x hx
    simp only [List.map_cons, List.nodup_cons] at hnd
    rcases List.mem_cons.mp hx with h | h
    · subst h
      rw [List.filter_cons, if_pos (by simp)]
      congr 1
      rw [List.filter_eq_nil_iff]
      intro b hb hfb
      exact hnd.1 (List.mem_map.mpr ⟨b, hb, by simpa using hfb⟩)
    · have hne : f a ≠ f x := fun e => hnd.1 (List.mem_map.mpr ⟨x, h, e.symm⟩)
      rw [List.filter_cons, if_neg (by simpa using hne)]
      exact ih hnd.2 x h

theorem filter_id_eq_nil {assets : List Asset} {id : String}
    (h : id ∉ assets.map Asset.id) : assets.filter (fun a => decide (a.id = id)) = [] := by
  rw [List.filter_eq_nil_iff]
  intro a ha hid
  exact h (List.mem_map.mpr ⟨a, ha, by simpa using hid⟩)

/-! ## The drain loop -/

theorem getFirstPendingChangeAsset_some :
    ∀ (assets before after : List Asset) (asset : Asset),
      getFirstPendingChangeAsset assets = some (before, asset, after) →
        assets = before ++ asset :: after ∧ asset.pendingChange.isSome = true ∧
          ∀ b ∈ before, b.pendingChange = none := by
  intro assets
  induction assets with
  | nil => intro before after asset h; simp [getFirstPendingChangeAsset] at h
  | cons a rest ih =>
    intro before after asset h
    simp only [getFirstPendingChangeAsset] at h
    split_ifs at h with hp
    · simp only [Option.some.injEq, Prod.mk.injEq] at h
      obtain ⟨h1, h2, h3⟩ := h
      subst h1 h2 h3
      exact ⟨rfl, hp, fun b hb => absurd hb (List.not_mem_nil _)⟩
    · cases hrec : getFirstPendingChangeAsset rest with
      | none => rw [hrec] at h; simp at h
      | some r =>
        obtain ⟨before', asset', after'⟩ := r
        rw [hrec] at h
        simp only [Option.some.injEq, Prod.mk.injEq] at h
        obtain ⟨h1, h2, h3⟩ := h
        subst h1 h2 h3
        obtain ⟨e1, e2, e3⟩ := ih before' after' asset' hrec
        refine ⟨by rw [e1]; rfl, e2, ?_⟩
        intro b hb
        rcases List.mem_cons.mp hb with hb | hb
        · rw [hb]
          simpa using hp
        · exact e3 b hb

theorem getFirstPendingChangeAsset_none :
    ∀ (assets : List Asset), getFirstPendingChangeAsset assets = none →
      ∀ b ∈ assets, b.pendingChange = none := by
  intro assets
  induction assets with
  | nil => intro _ b hb; simp at hb
  | cons a rest ih =>
    intro h b hb
    simp only [getFirstPendingChangeAsset] at h
    split_ifs at h with hp
    cases hrec : getFirstPendingChangeAsset rest with
    | none =>
      rcases List.mem_cons.mp hb with hb | hb
      · rw [hb]
        simpa using hp
      · exact ih hrec b hb
    | some r =>
      obtain ⟨before', asset', after'⟩ := r
      rw [hrec] at h
      simp at h

/-- Lines 470-477: a deploy on a deployed asset whose removal fails. -/
theorem processPendingChange_deploy_removeFail (o : Outcome) (asset : Asset)
    (hpending : asset.pendingChange = some PendingChange.deploy)
    (hstate : asset.state = AssetState.deployed) (hremove : o.removeOk = false) :
    processPendingChange o asset =
      (some { asset with pendingChange := none, state := AssetState.removeFail },
        [Effect.reportSet (reportedPath asset.id) asset.updateId asset.changeTs "removing",
          Effect.callRemove asset.id]) := by
  obtain ⟨ty, id, uid, cfg, st, ts, puid, pc, pcfg⟩ := asset
  obtain ⟨rm, dp⟩ := o
  simp only at hpending hstate hremove
  subst hpending hstate hremove
  rfl

/-- Lines 470-487: a deploy on a deployed asset whose removal succeeds. -/
theorem processPendingChange_deploy_redeploy (o : Outcome) (asset : Asset)
    (hpending : asset.pendingChange = some PendingChange.deploy)
    (hstate : asset.state = AssetState.deployed) (hremove : o.removeOk = true) :
    processPendingChange o asset =
      (some { asset with
          pendingChange := none
          updateId := asset.pendingUpdateId
          config := asset.pendingConfig
          pendingConfig := none
          state := if o.deployOk then AssetState.deployed else AssetState.deployFail },
        [Effect.reportSet (reportedPath asset.id) asset.updateId asset.changeTs "removing",
          Effect.callRemove asset.id,
          Effect.reportSet (reportedPath asset.id) asset.pendingUpdateId asset.changeTs
            "deploying",
          Effect.callDeploy asset.id asset.pendingUpdateId asset.pendingConfig,
          Effect.reportSet (reportedPath asset.id) asset.pendingUpdateId asset.changeTs
            (if o.deployOk then "deployed" else "deployFail")]) := by
  obtain ⟨ty, id, uid, cfg, st, ts, puid, pc, pcfg⟩ := asset
  obtain ⟨rm, dp⟩ := o
  simp only at hpending hstate hremove
  subst hpending hstate hremove
  cases dp <;> rfl

/-- Lines 479-487: a deploy on an asset that is not deployed. -/
theorem processPendingChange_deploy_fresh (o : Outcome) (asset : Asset)
    (hpending : asset.pendingChange = some PendingChange.deploy)
    (hstate : asset.state ≠ AssetState.deployed) :
    processPendingChange o asset =
      (some { asset with
          pendingChange := none
          updateId := asset.pendingUpdateId
          config := asset.pendingConfig
          pendingConfig := none
          state := if o.deployOk then AssetState.deployed else AssetState.deployFail },
        [Effect.reportSet (reportedPath asset.id) asset.pendingUpdateId asset.changeTs
            "deploying",
          Effect.callDeploy asset.id asset.pendingUpdateId asset.pendingConfig,
          Effect.reportSet (reportedPath asset.id) asset.pendingUpdateId asset.changeTs
            (if o.deployOk then "deployed" else "deployFail")]) := by
  obtain ⟨ty, id, uid, cfg, st, ts, puid, pc, pcfg⟩ := asset
  obtain ⟨rm, dp⟩ := o
  simp only at hpending hstate
  subst hpending
  cases dp <;> cases st <;> first | rfl | exact absurd rfl hstate

/-- Lines 491-498: a remove on a deployed asset whose removal fails. -/
theorem processPendingChange_remove_removeFail (o : Outcome) (asset : Asset)
    (hpending : asset.pendingChange = some PendingChange.remove)
    (hstate : asset.state = AssetState.deployed) (hremove : o.removeOk = false) :
    processPendingChange o asset =
      (some { asset with pendingChange := none, state := AssetState.removeFail },
        [Effect.reportSet (reportedPath asset.id) asset.updateId asset.changeTs "removing",
          Effect.callRemove asset.id]) := by
  obtain ⟨ty, id, uid, cfg, st, ts, puid, pc, pcfg⟩ := asset
  obtain ⟨rm, dp⟩ := o
  simp only at hpending hstate hremove
  subst hpending hstate hremove
  rfl

/-- Lines 491-507: a remove on a deployed asset whose removal succeeds. -/
theorem processPendingChange_remove_removed (o : Outcome) (asset : Asset)
    (hpending : asset.pendingChange = some PendingChange.remove)
    (hstate : asset.state = AssetState.deployed) (hremove : o.removeOk = true) :
    processPendingChange o asset =
      (none,
        [Effect.reportSet (reportedPath asset.id) asset.updateId asset.changeTs "removing",
          Effect.callRemove asset.id,
          Effect.reportRemove (reportedPath asset.id)]) := by
  obtain ⟨ty, id, uid, cfg, st, ts, puid, pc, pcfg⟩ := asset
  obtain ⟨rm, dp⟩ := o
  simp only at hpending hstate hremove
  subst hpending hstate hremove
  rfl

/-- Lines 500-507: a remove on an asset that is not deployed. -/
theorem processPendingChange_remove_notDeployed (o : Outcome) (asset : Asset)
    (hpending : asset.pendingChange = some PendingChange.remove)
    (hstate : asset.state ≠ AssetState.deployed) :
    processPendingChange o asset = (none, [Effect.reportRemove (reportedPath asset.id)]) := by
  obtain ⟨ty, id, uid, cfg, st, ts, puid, pc, pcfg⟩ := asset
  simp only at hpending hstate
  subst hpending
  cases st <;> first | rfl | exact absurd rfl hstate

/-- What the processing of one pending change does to the committed version of the
asset: it keeps `updateId` and `config`, or it is a deploy and they become the staged
ones, and `deploy()` is called with them. -/
theorem processPendingChange_version (o : Outcome) (asset asset' : Asset)
    (h : (processPendingChange o asset).1 = some asset') :
    asset'.id = asset.id ∧
      ((asset'.updateId = asset.updateId ∧ asset'.config = asset.config) ∨
        (asset.pendingChange = some PendingChange.deploy ∧
          asset'.updateId = asset.pendingUpdateId ∧ asset'.config = asset.pendingConfig ∧
          Effect.callDeploy asset.id asset.pendingUpdateId asset.pendingConfig ∈
            (processPendingChange o asset).2)) := by
  rcases hpc : asset.pendingChange with _ | pc
  · have e : processPendingChange o asset =
        (some asset, [Effect.logError "Unsupported pending change: "]) := by
      obtain ⟨ty, id, uid, cfg, st, ts, puid, pc, pcfg⟩ := asset
      simp only at hpc
      subst hpc
      rfl
    rw [e] at h
    simp only [Option.some.injEq] at h
    subst h
    exact ⟨rfl, Or.inl ⟨rfl, rfl⟩⟩
  · cases pc
    · by_cases hst : asset.state = AssetState.deployed
      · cases hrm : o.removeOk
        · rw [processPendingChange_deploy_removeFail o asset hpc hst hrm] at h
          simp only [Option.some.injEq] at h
          subst h
          exact ⟨rfl, Or.inl ⟨rfl, rfl⟩⟩
        · rw [processPendingChange_deploy_redeploy o asset hpc hst hrm] at h ⊢
          simp only [Option.some.injEq] at h
          subst h
          exact ⟨rfl, Or.inr ⟨rfl, rfl, rfl, by simp⟩⟩
      · rw [processPendingChange_deploy_fresh o asset hpc hst] at h ⊢
        simp only [Option.some.injEq] at h
        subst h
        exact ⟨rfl, Or.inr ⟨rfl, rfl, rfl, by simp⟩⟩
    · by_cases hst : asset.state = AssetState.deployed
      · cases hrm : o.removeOk
        · rw [processPendingChange_remove_removeFail o asset hpc hst hrm] at h
          simp only [Option.some.injEq] at h
          subst h
          exact ⟨rfl, Or.inl ⟨rfl, rfl⟩⟩
        · rw [processPendingChange_remove_removed o asset hpc hst hrm] at h
          simp at h
      · rw [processPendingChange_remove_notDeployed o asset hpc hst] at h
        simp at h
    · have e : processPendingChange o asset =
          (some { asset with pendingChange := none },
            [Effect.logError "Unsupported pending change: "]) := by
        obtain ⟨ty, id, uid, cfg, st, ts, puid, pc, pcfg⟩ := asset
        simp only at hpc
        subst hpc
        rfl
      rw [e] at h
      simp only [Option.some.injEq] at h
      subst h
      exact ⟨rfl, Or.inl ⟨rfl, rfl⟩⟩

theorem diffOwnAssets_committed (clock : Clock) (tick : Nat) (ds : List (String × DesiredAsset))
    (assets : List Asset) :
    ((diffOwnAssets clock tick ds assets).assets.take assets.length).map Asset.committed =
      assets.map Asset.committed := by
  have h := stageOwnRemoves_committed clock ds
    (ds.foldl (diffOwnEntry clock) ⟨assets, [], tick, []⟩).assets
    (ds.foldl (diffOwnEntry clock) ⟨assets, [], tick, []⟩).tick
  rw [foldl_diffOwnEntry_committed] at h
  have hlen := congrArg List.length h
  simp only [List.length_map] at hlen
  simp only [diffOwnAssets]
  rw [List.take_left' hlen, h]

theorem foldl_diffOwnEntry_effects (clock : Clock) (ds : List (String × DesiredAsset)) :
    ∀ acc : DiffAcc, (∀ e ∈ acc.effects, ∃ msg, e = Effect.logError msg) →
      ∀ e ∈ (ds.foldl (diffOwnEntry clock) acc).effects, ∃ msg, e = Effect.logError msg := by
  induction ds with
  | nil => intro acc h; exact h
  | cons d rest ih =>
    intro acc h
    rw [List.foldl_cons]
    apply ih
    intro e he
    simp only [diffOwnEntry] at he
    split_ifs at he
    · exact h e he
    · exact h e he
    · rcases List.mem_append.mp he with he | he
      · exact h e he
      · exact ⟨_, List.mem_singleton.mp he⟩

theorem drainIteration_mem (o : Outcome) (assets : List Asset) (a' : Asset)
    (h : a' ∈ (drainIteration o assets).1) :
    a' ∈ assets ∨ ∃ a ∈ assets, (processPendingChange o a).1 = some a' ∧
      ∀ e ∈ (processPendingChange o a).2, e ∈ (drainIteration o assets).2 := by
  have hsub : ∀ b ∈ (processSimpleRemoves assets).1, b ∈ assets := fun b hb =>
    (List.mem_filter.mp hb).1
  simp only [drainIteration] at h ⊢
  cases hpick : getFirstPendingChangeAsset (processSimpleRemoves assets).1 with
  | none =>
    rw [hpick] at h
    exact Or.inl (hsub a' h)
  | some r =>
    obtain ⟨before, x, after⟩ := r
    rw [hpick] at h
    obtain ⟨hsplit, _, _⟩ := getFirstPendingChangeAsset_some _ _ _ _ hpick
    have hx : x ∈ assets := hsub x (by rw [hsplit]; simp)
    have hb : ∀ b ∈ before, b ∈ assets := fun b hb => hsub b (by rw [hsplit]; simp [hb])
    have ha : ∀ b ∈ after, b ∈ assets := fun b hb => hsub b (by rw [hsplit]; simp [hb])
    simp only at h
    cases hr : (processPendingChange o x).1 with
    | none =>
      rw [hr] at h
      rcases List.mem_append.mp h with h | h
      · exact Or.inl (hb a' h)
      · exact Or.inl (ha a' h)
    | some y =>
      rw [hr] at h
      simp only [List.mem_append, List.mem_cons] at h
      rcases h with h | h | h
      · exact Or.inl (hb a' h)
      · subst h
        refine Or.inr ⟨x, hx, hr, ?_⟩
        intro e he
        simp [he]
      · exact Or.inl (ha a' h)

/-- The handler returns early or throws and changes nothing, or it makes the diff
against the asset map of the desired state. -/
theorem handleDeviceStateChange_cases (clock : Clock) (tick : Nat) (params : Params)
    (desiredState : Option DesiredState) (man : AssetManager) :
    (∃ error, handleDeviceStateChange clock tick params desiredState man =
        ⟨man, [], tick, false, error⟩) ∨
      ∃ desiredAssets : List (String × DesiredAsset),
        handleDeviceStateChange clock tick params desiredState man =
          ⟨{ man with assets := (diffOwnAssets clock tick desiredAssets man.assets).assets },
            (diffOwnAssets clock tick desiredAssets man.assets).effects ++
              updateReportedAssetsState (diffOwnAssets clock tick desiredAssets man.assets).assets,
            (diffOwnAssets clock tick desiredAssets man.assets).tick, true, none⟩ := by
  by_cases hevent : ignoredEvent params = true
  · left; exact ⟨none, by simp [handleDeviceStateChange, hevent]⟩
  · by_cases hinited : man.inited = true
    · cases desiredState with
      | none => left; exact ⟨none, by simp [handleDeviceStateChange]⟩
      | some ds =>
        cases hmap : ds.assets with
        | none => left; exact ⟨none, by simp [handleDeviceStateChange, hmap]⟩
        | some desiredAssets =>
          by_cases hown : "hasOwnProperty" ∈ desiredAssets.map Prod.fst
          · left
            exact ⟨_, handleDeviceStateChange_throws clock tick params ds desiredAssets man
              (by simpa using hevent) hinited hmap hown⟩
          · right
            exact ⟨desiredAssets, handleDeviceStateChange_eq clock tick params ds
              desiredAssets man (by simpa using hevent) hinited hmap hown⟩
    · left; exact ⟨none, by simp [handleDeviceStateChange, hinited]⟩

theorem drainIteration_pick (o : Outcome) (assets before after : List Asset) (asset : Asset)
    (hpick : getFirstPendingChangeAsset (processSimpleRemoves assets).1 =
      some (before, asset, after)) :
    drainIteration o assets =
      ((match (processPendingChange o asset).1 with
          | some a => before ++ a :: after
          | none => before ++ after),
        (processSimpleRemoves assets).2 ++ (processPendingChange o asset).2 ++
          [saveAssetState
              (match (processPendingChange o asset).1 with
                | some a => before ++ a :: after
                | none => before ++ after),
            Effect.delay 2000]) := by
  simp [drainIteration, hpick]

theorem processSimpleRemoves_effects (assets : List Asset) :
    ∀ e ∈ (processSimpleRemoves assets).2, ∃ a ∈ assets,
      isSimpleRemove a = true ∧ e = Effect.reportRemove (reportedPath a.id) := by
  intro e he
  simp only [processSimpleRemoves, List.mem_map, List.mem_filter] at he
  obtain ⟨a, ⟨ha, hs⟩, rfl⟩ := he
  exact ⟨a, ha, hs, rfl⟩

theorem processSimpleRemoves_no_deploy (assets : List Asset) :
    (processSimpleRemoves assets).2.filter Effect.isCallDeploy = [] := by
  rw [List.filter_eq_nil_iff]
  intro e he
  obtain ⟨a, _, _, rfl⟩ := processSimpleRemoves_effects assets e he
  simp [Effect.isCallDeploy]

/-- An asset whose processing takes it out of the collection had a pending remove,
and either was not deployed or `remove()` was called on it and returned true; its
reported-state path is removed. -/
theorem processPendingChange_none (o : Outcome) (asset : Asset)
    (h : (processPendingChange o asset).1 = none) :
    asset.pendingChange = some PendingChange.remove ∧
      (asset.state ≠ AssetState.deployed ∨
        (o.removeOk = true ∧ Effect.callRemove asset.id ∈ (processPendingChange o asset).2)) ∧
      Effect.reportRemove (reportedPath asset.id) ∈ (processPendingChange o asset).2 := by
  rcases hpc : asset.pendingChange with _ | pc
  · obtain ⟨ty, id, uid, cfg, st, ts, puid, pc, pcfg⟩ := asset
    simp only at hpc
    subst hpc
    simp [processPendingChange] at h
  · cases pc
    · by_cases hst : asset.state = AssetState.deployed
      · cases hrm : o.removeOk
        · rw [processPendingChange_deploy_removeFail o asset hpc hst hrm] at h
          simp at h
        · rw [processPendingChange_deploy_redeploy o asset hpc hst hrm] at h
          simp at h
      · rw [processPendingChange_deploy_fresh o asset hpc hst] at h
        simp at h
    · by_cases hst : asset.state = AssetState.deployed
      · cases hrm : o.removeOk
        · rw [processPendingChange_remove_removeFail o asset hpc hst hrm] at h
          simp at h
        · rw [processPendingChange_remove_removed o asset hpc hst hrm]
          exact ⟨rfl, Or.inr ⟨rfl, by simp⟩, by simp⟩
      · rw [processPendingChange_remove_notDeployed o asset hpc hst]
        exact ⟨rfl, Or.inl hst, by simp⟩
    · obtain ⟨ty, id, uid, cfg, st, ts, puid, pc, pcfg⟩ := asset
      simp only at hpc
      subst hpc
      simp [processPendingChange] at h

/-- An asset of the collection whose id is the id of no asset after the iteration was
taken out by the sweep (pending remove, never deployed) or is the asset picked by the
iteration and its processing took it out. -/
theorem drainIteration_dropped (o : Outcome) (assets : List Asset) (a : Asset)
    (ha : a ∈ assets) (hdropped : a.id ∉ (drainIteration o assets).1.map Asset.id) :
    (a.pendingChange = some PendingChange.remove ∧ a.state = AssetState.notDeployed ∧
        Effect.reportRemove (reportedPath a.id) ∈ (drainIteration o assets).2) ∨
      ((processPendingChange o a).1 = none ∧
        ∀ e ∈ (processPendingChange o a).2, e ∈ (drainIteration o assets).2) := by
  by_cases hs : isSimpleRemove a = true
  · left
    have hs' := hs
    simp only [isSimpleRemove, Bool.and_eq_true, decide_eq_true_eq] at hs'
    refine ⟨hs'.1.2, hs'.2, ?_⟩
    have hmem : Effect.reportRemove (reportedPath a.id) ∈ (processSimpleRemoves assets).2 := by
      simp only [processSimpleRemoves, List.mem_map, List.mem_filter]
      exact ⟨a, ⟨ha, hs⟩, rfl⟩
    simp only [drainIteration]
    split
    · exact hmem
    · simp [hmem]
  · right
    have hswept : a ∈ (processSimpleRemoves assets).1 := by
      simp only [processSimpleRemoves, List.mem_filter]
      exact ⟨ha, by simpa using hs⟩
    cases hpick : getFirstPendingChangeAsset (processSimpleRemoves assets).1 with
    | none =>
      exfalso
      apply hdropped
      simp only [drainIteration, hpick]
      exact List.mem_map.mpr ⟨a, hswept, rfl⟩
    | some r =>
      obtain ⟨before, x, after⟩ := r
      obtain ⟨hsplit, _, _⟩ := getFirstPendingChangeAsset_some _ _ _ _ hpick
      rw [drainIteration_pick o assets before after x hpick] at hdropped ⊢
      rw [hsplit] at hswept
      have hin : ∀ l : List Asset, (a ∈ before ∨ a ∈ after) →
          (l = before ++ after ∨ ∃ y, l = before ++ y :: after) → a.id ∈ l.map Asset.id := by
        intro l hmem hl
        rcases hl with hl | ⟨y, hl⟩ <;> rw [hl] <;> refine List.mem_map.mpr ⟨a, ?_, rfl⟩
        · simpa using hmem
        · rcases hmem with hmem | hmem <;> simp [hmem]
      cases hr : (processPendingChange o x).1 with
      | none =>
        rw [hr] at hdropped
        simp only at hdropped
        have hax : a = x := by
          simp only [List.mem_append, List.mem_cons] at hswept
          rcases hswept with h | h | h
          · exact absurd (hin _ (Or.inl h) (Or.inl rfl)) hdropped
          · exact h
          · exact absurd (hin _ (Or.inr h) (Or.inl rfl)) hdropped
        subst hax
        exact ⟨hr, fun e he => by simp [he]⟩
      | some y =>
        exfalso
        rw [hr] at hdropped
        simp only at hdropped
        simp only [List.mem_append, List.mem_cons] at hswept
        rcases hswept with h | h | h
        · exact hdropped (hin _ (Or.inl h) (Or.inr ⟨y, rfl⟩))
        · subst h
          have hid := (processPendingChange_version o a y hr).1
          apply hdropped
          rw [← hid]
          simp
        · exact hdropped (hin _ (Or.inr h) (Or.inr ⟨y, rfl⟩))
/-! ## The whole drain loop -/

theorem reportedLabelAfter_append (path : String) (e₁ e₂ : List Effect) :
    ∀ cur, reportedLabelAfter path cur (e₁ ++ e₂) =
      reportedLabelAfter path (reportedLabelAfter path cur e₁) e₂ := by
  induction e₁ with
  | nil => intro cur; rfl
  | cons e rest ih =>
    intro cur
    cases e <;> exact ih _

theorem reportedLabelAfter_untouched (path : String) (effects : List Effect)
    (h : ∀ e ∈ effects, e.touches path = false) :
    ∀ cur, reportedLabelAfter path cur effects = cur := by
  induction effects with
  | nil => intro cur; rfl
  | cons e rest ih =>
    intro cur
    have he := h e (List.mem_cons_self _ _)
    have hrest := ih (fun e' he' => h e' (List.mem_cons_of_mem _ he'))
    cases e <;> simp only [reportedLabelAfter, Effect.touches, decide_eq_false_iff_not] at he ⊢
    · rw [if_neg he, hrest]
    · rw [if_neg he, hrest]
    all_goals exact hrest cur

theorem reportedPath_injective {a b : String} (h : reportedPath a = reportedPath b) : a = b := by
  simp only [reportedPath] at h
  have h' := congrArg String.data h
  simp only [String.data_append] at h'
  exact String.ext (List.append_cancel_left h')

theorem pendingChangeAssetExists_iff (assets : List Asset) :
    pendingChangeAssetExists assets = true ↔ ∃ a ∈ assets, a.pendingChange.isSome = true := by
  simp only [pendingChangeAssetExists]
  constructor
  · intro h
    cases hpick : getFirstPendingChangeAsset assets with
    | none => rw [hpick] at h; simp at h
    | some r =>
      obtain ⟨before, x, after⟩ := r
      obtain ⟨hsplit, hx, _⟩ := getFirstPendingChangeAsset_some _ _ _ _ hpick
      exact ⟨x, by rw [hsplit]; simp, hx⟩
  · rintro ⟨a, ha, hp⟩
    cases hpick : getFirstPendingChangeAsset assets with
    | none =>
      have := getFirstPendingChangeAsset_none assets hpick a ha
      rw [this] at hp
      simp at hp
    | some r => rfl

theorem processPendingChange_some (o : Outcome) (asset asset' : Asset)
    (h : (processPendingChange o asset).1 = some asset') :
    asset'.id = asset.id ∧ asset'.pendingChange = none := by
  refine ⟨(processPendingChange_version o asset asset' h).1, ?_⟩
  rcases hpc : asset.pendingChange with _ | pc
  · have e : processPendingChange o asset =
        (some asset, [Effect.logError "Unsupported pending change: "]) := by
      obtain ⟨ty, id, uid, cfg, st, ts, puid, pc, pcfg⟩ := asset
      simp only at hpc
      subst hpc
      rfl
    rw [e] at h
    simp only [Option.some.injEq] at h
    rw [← h, hpc]
  · cases pc
    · by_cases hst : asset.state = AssetState.deployed
      · cases hrm : o.removeOk
        · rw [processPendingChange_deploy_removeFail o asset hpc hst hrm] at h
          simp only [Option.some.injEq] at h
          rw [← h]
        · rw [processPendingChange_deploy_redeploy o asset hpc hst hrm] at h
          simp only [Option.some.injEq] at h
          rw [← h]
      · rw [processPendingChange_deploy_fresh o asset hpc hst] at h
        simp only [Option.some.injEq] at h
        rw [← h]
    · by_cases hst : asset.state = AssetState.deployed
      · cases hrm : o.removeOk
        · rw [processPendingChange_remove_removeFail o asset hpc hst hrm] at h
          simp only [Option.some.injEq] at h
          rw [← h]
        · rw [processPendingChange_remove_removed o asset hpc hst hrm] at h
          simp at h
      · rw [processPendingChange_remove_notDeployed o asset hpc hst] at h
        simp at h
    · have e : processPendingChange o asset =
          (some { asset with pendingChange := none },
            [Effect.logError "Unsupported pending change: "]) := by
        obtain ⟨ty, id, uid, cfg, st, ts, puid, pc, pcfg⟩ := asset
        simp only at hpc
        subst hpc
        rfl
      rw [e] at h
      simp only [Option.some.injEq] at h
      rw [← h]

/-- The two shapes of a loop iteration: after the sweep no asset has a pending change
and nothing else is done, or the first asset with a pending change is processed. -/
theorem drainIteration_cases (o : Outcome) (assets : List Asset) :
    (getFirstPendingChangeAsset (processSimpleRemoves assets).1 = none ∧
        drainIteration o assets = processSimpleRemoves assets) ∨
      ∃ before asset after,
        getFirstPendingChangeAsset (processSimpleRemoves assets).1 =
          some (before, asset, after) ∧
        (processSimpleRemoves assets).1 = before ++ asset :: after ∧
        asset.pendingChange.isSome = true ∧ (∀ b ∈ before, b.pendingChange = none) := by
  cases hpick : getFirstPendingChangeAsset (processSimpleRemoves assets).1 with
  | none =>
    left
    exact ⟨rfl, by simp [drainIteration, hpick]⟩
  | some r =>
    obtain ⟨before, x, after⟩ := r
    obtain ⟨h1, h2, h3⟩ := getFirstPendingChangeAsset_some _ _ _ _ hpick
    exact Or.inr ⟨before, x, after, rfl, h1, h2, h3⟩

theorem processSimpleRemoves_sublist (assets : List Asset) :
    List.Sublist (processSimpleRemoves assets).1 assets :=
  List.filter_sublist _

/-- A loop iteration only takes assets out of the collection: the ids afterwards are a
sublist of the ids before. -/
theorem drainIteration_ids_sublist (o : Outcome) (assets : List Asset) :
    List.Sublist ((drainIteration o assets).1.map Asset.id) (assets.map Asset.id) := by
  have hsw := (processSimpleRemoves_sublist assets).map Asset.id
  rcases drainIteration_cases o assets with ⟨_, h⟩ | ⟨before, x, after, hpick, hsplit, _, _⟩
  · rw [h]; exact hsw
  · rw [drainIteration_pick o assets before after x hpick]
    rw [hsplit] at hsw
    cases hr : (processPendingChange o x).1 with
    | none =>
      refine List.Sublist.trans ?_ hsw
      simp only [List.map_append, List.map_cons]
      exact List.Sublist.append_left (List.sublist_cons_self _ _) _
    | some y =>
      have hid := (processPendingChange_some o x y hr).1
      simp only [List.map_append, List.map_cons, hid]
      simpa using hsw

theorem drainIteration_nodup (o : Outcome) (assets : List Asset)
    (h : (assets.map Asset.id).Nodup) : ((drainIteration o assets).1.map Asset.id).Nodup :=
  h.sublist (drainIteration_ids_sublist o assets)

theorem drainIteration_pendingCount (o : Outcome) (assets : List Asset)
    (h : pendingChangeAssetExists assets = true) :
    pendingCount (drainIteration o assets).1 < pendingCount assets := by
  have hpos : 0 < pendingCount assets := by
    obtain ⟨a, ha, hp⟩ := (pendingChangeAssetExists_iff assets).mp h
    exact List.countP_pos_iff.mpr ⟨a, ha, hp⟩
  have hle : pendingCount (processSimpleRemoves assets).1 ≤ pendingCount assets :=
    (processSimpleRemoves_sublist assets).countP_le _
  rcases drainIteration_cases o assets with ⟨hnone, h'⟩ | ⟨before, x, after, hpick, hsplit, hx, hb⟩
  · rw [h']
    have hz : pendingCount (processSimpleRemoves assets).1 = 0 := by
      refine List.countP_eq_zero.mpr ?_
      intro a ha
      rw [getFirstPendingChangeAsset_none _ hnone a ha]
      simp
    rw [hz]
    exact hpos
  · rw [drainIteration_pick o assets before after x hpick]
    refine lt_of_lt_of_le ?_ hle
    rw [hsplit]
    simp only [pendingCount, List.countP_append, List.countP_cons, hx, if_true]
    cases hr : (processPendingChange o x).1 with
    | none => simp only [List.countP_append]; omega
    | some y =>
      have hy := (processPendingChange_some o x y hr).2
      simp only [List.countP_append, List.countP_cons, hy, Option.isSome_none]
      simp only [Bool.false_eq_true, if_false]
      omega

/-- The loop ends: one evaluation of the loop condition more than there are assets with
a pending change is enough. -/
theorem processPendingAssetsLoop_terminates (oracle : Nat → Outcome) :
    ∀ (fuel k : Nat) (assets : List Asset), pendingCount assets < fuel →
      ∃ r, processPendingAssetsLoop oracle fuel k assets = some r := by
  intro fuel
  induction fuel with
  | zero => intro k assets h; exact absurd h (Nat.not_lt_zero _)
  | succ fuel ih =>
    intro k assets h
    simp only [processPendingAssetsLoop]
    by_cases hex : pendingChangeAssetExists assets = true
    · rw [if_pos hex]
      have hlt := drainIteration_pendingCount (oracle k) assets hex
      obtain ⟨r, hr⟩ := ih (k + 1) (drainIteration (oracle k) assets).1 (by omega)
      rw [hr]
      exact ⟨_, rfl⟩
    · rw [if_neg hex]
      exact ⟨_, rfl⟩

theorem processPendingAssetsLoop_no_pending (oracle : Nat → Outcome) :
    ∀ (fuel k : Nat) (assets final : List Asset) (effects : List Effect),
      processPendingAssetsLoop oracle fuel k assets = some (final, effects) →
        ∀ a ∈ final, a.pendingChange = none := by
  intro fuel
  induction fuel with
  | zero => intro k assets final effects h; simp [processPendingAssetsLoop] at h
  | succ fuel ih =>
    intro k assets final effects h
    simp only [processPendingAssetsLoop] at h
    by_cases hex : pendingChangeAssetExists assets = true
    · rw [if_pos hex] at h
      cases hrec : processPendingAssetsLoop oracle fuel (k + 1)
          (drainIteration (oracle k) assets).1 with
      | none => rw [hrec] at h; simp at h
      | some r =>
        obtain ⟨final', effects'⟩ := r
        rw [hrec] at h
        simp only [Option.some.injEq, Prod.mk.injEq] at h
        rw [← h.1]
        exact ih _ _ _ _ hrec
    · rw [if_neg hex] at h
      simp only [Option.some.injEq, Prod.mk.injEq] at h
      rw [← h.1]
      intro a ha
      by_contra hne
      apply hex
      refine (pendingChangeAssetExists_iff assets).mpr ⟨a, ha, ?_⟩
      cases hp : a.pendingChange with
      | none => exact absurd hp hne
      | some _ => rfl

theorem eq_of_id_eq {assets : List Asset} (h : (assets.map Asset.id).Nodup) {a b : Asset}
    (ha : a ∈ assets) (hb : b ∈ assets) (hid : a.id = b.id) : a = b :=
  List.inj_on_of_nodup_map h ha hb hid

/-- A pending asset that the sweep leaves in the collection is the asset picked by the
iteration or is still in the collection, as it was, after the iteration. -/
theorem drainIteration_follow (o : Outcome) (assets : List Asset) (a : Asset)
    (ha : a ∈ assets) (hsimple : isSimpleRemove a = false)
    (hpending : a.pendingChange.isSome = true) :
    (∃ before after, getFirstPendingChangeAsset (processSimpleRemoves assets).1 =
        some (before, a, after)) ∨ a ∈ (drainIteration o assets).1 := by
  have hswept : a ∈ (processSimpleRemoves assets).1 := by
    simp only [processSimpleRemoves, List.mem_filter]
    exact ⟨ha, by simp [hsimple]⟩
  rcases drainIteration_cases o assets with ⟨_, h⟩ | ⟨before, x, after, hpick, hsplit, _, hb⟩
  · right; rw [h]; exact hswept
  · rw [hsplit] at hswept
    simp only [List.mem_append, List.mem_cons] at hswept
    rcases hswept with h | h | h
    · rw [hb a h] at hpending
      simp at hpending
    · left; subst h; exact ⟨before, after, hpick⟩
    · right
      rw [drainIteration_pick o assets before after x hpick]
      cases (processPendingChange o x).1 <;> simp [h]

theorem drainIteration_keeps_settled (o : Outcome) (assets : List Asset) (a : Asset)
    (ha : a ∈ assets) (hsettled : a.pendingChange = none) :
    a ∈ (drainIteration o assets).1 := by
  have hswept : a ∈ (processSimpleRemoves assets).1 := by
    simp only [processSimpleRemoves, List.mem_filter]
    exact ⟨ha, by simp [isSimpleRemove, hsettled]⟩
  rcases drainIteration_cases o assets with ⟨_, h⟩ | ⟨before, x, after, hpick, hsplit, hx, _⟩
  · rw [h]; exact hswept
  · rw [hsplit] at hswept
    simp only [List.mem_append, List.mem_cons] at hswept
    rw [drainIteration_pick o assets before after x hpick]
    rcases hswept with h | h | h
    · cases (processPendingChange o x).1 <;> simp [h]
    · subst h
      rw [hsettled] at hx
      simp at hx
    · cases (processPendingChange o x).1 <;> simp [h]

/-- The reported-state updates made while one asset is processed are on its own path,
and the labels they carry are state labels. -/
theorem processPendingChange_effects (o : Outcome) (asset : Asset) :
    ∀ e ∈ (processPendingChange o asset).2,
      (∀ path, e.touches path = true → path = reportedPath asset.id) ∧
      (∀ p u ts label, e = Effect.reportSet p u ts label →
        label = "removing" ∨ label = "deploying" ∨ label = "deployed" ∨
          label = "deployFail") := by
  intro e he
  rcases hpc : asset.pendingChange with _ | pc
  · have heq : processPendingChange o asset =
        (some asset, [Effect.logError "Unsupported pending change: "]) := by
      obtain ⟨ty, id, uid, cfg, st, ts, puid, pc, pcfg⟩ := asset
      simp only at hpc
      subst hpc
      rfl
    rw [heq] at he
    simp only [List.mem_singleton] at he
    subst he
    simp [Effect.touches]
  · cases pc
    · by_cases hst : asset.state = AssetState.deployed
      · cases hrm : o.removeOk
        · rw [processPendingChange_deploy_removeFail o asset hpc hst hrm] at he
          simp only [List.mem_cons, List.mem_singleton, List.mem_nil_iff, or_false] at he
          rcases he with rfl | rfl <;>
            (first
              | (simp [Effect.touches, eq_comm]; done)
              | (simp [Effect.touches, eq_comm]; intro p u ts label _ _ _ h; simp [h]))
        · rw [processPendingChange_deploy_redeploy o asset hpc hst hrm] at he
          simp only [List.mem_cons, List.mem_singleton, List.mem_nil_iff, or_false] at he
          rcases he with rfl | rfl | rfl | rfl | rfl <;>
            cases o.deployOk <;>
            (first
              | (simp [Effect.touches, eq_comm]; done)
              | (simp [Effect.touches, eq_comm]; intro p u ts label _ _ _ h; simp [h]))
      · rw [processPendingChange_deploy_fresh o asset hpc hst] at he
        simp only [List.mem_cons, List.mem_singleton, List.mem_nil_iff, or_false] at he
        rcases he with rfl | rfl | rfl <;>
            cases o.deployOk <;>
            (first
              | (simp [Effect.touches, eq_comm]; done)
              | (simp [Effect.touches, eq_comm]; intro p u ts label _ _ _ h; simp [h]))
    · by_cases hst : asset.state = AssetState.deployed
      · cases hrm : o.removeOk
        · rw [processPendingChange_remove_removeFail o asset hpc hst hrm] at he
          simp only [List.mem_cons, List.mem_singleton, List.mem_nil_iff, or_false] at he
          rcases he with rfl | rfl <;>
            (first
              | (simp [Effect.touches, eq_comm]; done)
              | (simp [Effect.touches, eq_comm]; intro p u ts label _ _ _ h; simp [h]))
        · rw [processPendingChange_remove_removed o asset hpc hst hrm] at he
          simp only [List.mem_cons, List.mem_singleton, List.mem_nil_iff, or_false] at he
          rcases he with rfl | rfl | rfl <;>
            (first
              | (simp [Effect.touches, eq_comm]; done)
              | (simp [Effect.touches, eq_comm]; intro p u ts label _ _ _ h; simp [h]))
      · rw [processPendingChange_remove_notDeployed o asset hpc hst] at he
        simp only [List.mem_singleton] at he
        subst he
        simp [Effect.touches, eq_comm]
    · have heq : processPendingChange o asset =
          (some { asset with pendingChange := none },
            [Effect.logError "Unsupported pending change: "]) := by
        obtain ⟨ty, id, uid, cfg, st, ts, puid, pc, pcfg⟩ := asset
        simp only at hpc
        subst hpc
        rfl
      rw [heq] at he
      simp only [List.mem_singleton] at he
      subst he
      simp [Effect.touches]

/-- The reported-state updates of a loop iteration are on the paths of assets that had a
pending change, and the labels they carry are state labels. -/
theorem drainIteration_effects (o : Outcome) (assets : List Asset) :
    ∀ e ∈ (drainIteration o assets).2,
      (∀ path, e.touches path = true →
        ∃ b ∈ assets, b.pendingChange.isSome = true ∧ path = reportedPath b.id) ∧
      (∀ p u ts label, e = Effect.reportSet p u ts label →
        label = "removing" ∨ label = "deploying" ∨ label = "deployed" ∨
          label = "deployFail") := by
  have hsweep : ∀ e ∈ (processSimpleRemoves assets).2,
      (∀ path, e.touches path = true →
        ∃ b ∈ assets, b.pendingChange.isSome = true ∧ path = reportedPath b.id) ∧
      (∀ p u ts label, e = Effect.reportSet p u ts label →
        label = "removing" ∨ label = "deploying" ∨ label = "deployed" ∨
          label = "deployFail") := by
    intro e he
    obtain ⟨b, hb, hs, rfl⟩ := processSimpleRemoves_effects assets e he
    simp only [isSimpleRemove, Bool.and_eq_true, decide_eq_true_eq] at hs
    refine ⟨fun path hp => ⟨b, hb, hs.1.1, ?_⟩, fun p u ts label h => by simp at h⟩
    simpa [Effect.touches, eq_comm] using hp
  rcases drainIteration_cases o assets with ⟨_, h⟩ | ⟨before, x, after, hpick, hsplit, hx, _⟩
  · rw [h]; exact hsweep
  · rw [drainIteration_pick o assets before after x hpick]
    have hxmem : x ∈ assets :=
      (processSimpleRemoves_sublist assets).subset (by rw [hsplit]; simp)
    intro e he
    simp only [List.mem_append, List.mem_cons, List.mem_singleton, List.mem_nil_iff,
      or_false] at he
    rcases he with (he | he) | he | he
    · exact hsweep e he
    · obtain ⟨h1, h2⟩ := processPendingChange_effects o x e he
      exact ⟨fun path hp => ⟨x, hxmem, hx, h1 path hp⟩, h2⟩
    · subst he
      simp [saveAssetState, Effect.touches]
    · subst he
      simp [Effect.touches]

theorem processPendingAssetsLoop_succ (oracle : Nat → Outcome) (fuel k : Nat)
    (assets final : List Asset) (effects : List Effect)
    (h : processPendingAssetsLoop oracle (fuel + 1) k assets = some (final, effects)) :
    (pendingChangeAssetExists assets = false ∧ final = assets ∧ effects = []) ∨
      (pendingChangeAssetExists assets = true ∧ ∃ effects',
        processPendingAssetsLoop oracle fuel (k + 1) (drainIteration (oracle k) assets).1 =
          some (final, effects') ∧
        effects = (drainIteration (oracle k) assets).2 ++ effects') := by
  simp only [processPendingAssetsLoop] at h
  by_cases hex : pendingChangeAssetExists assets = true
  · rw [if_pos hex] at h
    right
    cases hrec : processPendingAssetsLoop oracle fuel (k + 1)
        (drainIteration (oracle k) assets).1 with
    | none => rw [hrec] at h; simp at h
    | some r =>
      obtain ⟨final', effects'⟩ := r
      rw [hrec] at h
      simp only [Option.some.injEq, Prod.mk.injEq] at h
      exact ⟨hex, effects', by rw [h.1], h.2.symm⟩
  · rw [if_neg hex] at h
    simp only [Option.some.injEq, Prod.mk.injEq] at h
    exact Or.inl ⟨by simpa using hex, h.1.symm, h.2.symm⟩

/-- The labels set by the loop are state labels. -/
theorem processPendingAssetsLoop_labels (oracle : Nat → Outcome) :
    ∀ (fuel k : Nat) (assets final : List Asset) (effects : List Effect),
      processPendingAssetsLoop oracle fuel k assets = some (final, effects) →
        ∀ p u ts label, Effect.reportSet p u ts label ∈ effects →
          label = "removing" ∨ label = "deploying" ∨ label = "deployed" ∨
            label = "deployFail" := by
  intro fuel
  induction fuel with
  | zero => intro k assets final effects h; simp [processPendingAssetsLoop] at h
  | succ fuel ih =>
    intro k assets final effects h p u ts label he
    rcases processPendingAssetsLoop_succ oracle fuel k assets final effects h with
      ⟨_, _, h3⟩ | ⟨_, effects', hrec, heff⟩
    · rw [h3] at he; simp at he
    · rw [heff] at he
      rcases List.mem_append.mp he with he | he
      · exact (drainIteration_effects (oracle k) assets _ he).2 p u ts label rfl
      · exact ih _ _ _ _ hrec p u ts label he

/-- An asset without a pending change is not touched by the loop, and, ids being
pairwise distinct, neither is its reported-state path. -/
theorem processPendingAssetsLoop_settled (oracle : Nat → Outcome) :
    ∀ (fuel k : Nat) (assets final : List Asset) (effects : List Effect),
      processPendingAssetsLoop oracle fuel k assets = some (final, effects) →
      (assets.map Asset.id).Nodup →
        ∀ a ∈ assets, a.pendingChange = none →
          a ∈ final ∧ ∀ e ∈ effects, e.touches (reportedPath a.id) = false := by
  intro fuel
  induction fuel with
  | zero => intro k assets final effects h; simp [processPendingAssetsLoop] at h
  | succ fuel ih =>
    intro k assets final effects h hnd a ha hsettled
    rcases processPendingAssetsLoop_succ oracle fuel k assets final effects h with
      ⟨_, h2, h3⟩ | ⟨_, effects', hrec, heff⟩
    · rw [h2, h3]
      exact ⟨ha, fun e he => absurd he (List.not_mem_nil _)⟩
    · have hkeep := drainIteration_keeps_settled (oracle k) assets a ha hsettled
      obtain ⟨hfin, hrest⟩ := ih _ _ _ _ hrec (drainIteration_nodup _ _ hnd) a hkeep hsettled
      refine ⟨hfin, ?_⟩
      intro e he
      rw [heff] at he
      rcases List.mem_append.mp he with he | he
      · by_contra htouch
        have htouch' : e.touches (reportedPath a.id) = true := by
          cases h' : e.touches (reportedPath a.id)
          · exact absurd h' htouch
          · rfl
        obtain ⟨b, hb, hbp, hpath⟩ :=
          (drainIteration_effects (oracle k) assets e he).1 _ htouch'
        have hab : a = b := eq_of_id_eq hnd ha hb (reportedPath_injective hpath)
        rw [← hab, hsettled] at hbp
        simp at hbp
      · exact hrest e he

/-- Every asset with a pending deploy or remove has its reported-state path updated by
the loop. -/
theorem processPendingAssetsLoop_touches (oracle : Nat → Outcome) :
    ∀ (fuel k : Nat) (assets final : List Asset) (effects : List Effect),
      processPendingAssetsLoop oracle fuel k assets = some (final, effects) →
        ∀ a ∈ assets,
          a.pendingChange = some PendingChange.deploy ∨
            a.pendingChange = some PendingChange.remove →
          ∃ e ∈ effects, e.touches (reportedPath a.id) = true := by
  intro fuel
  induction fuel with
  | zero => intro k assets final effects h; simp [processPendingAssetsLoop] at h
  | succ fuel ih =>
    intro k assets final effects h a ha hp
    have hsome : a.pendingChange.isSome = true := by
      rcases hp with hp | hp <;> rw [hp] <;> rfl
    rcases processPendingAssetsLoop_succ oracle fuel k assets final effects h with
      ⟨h1, _, _⟩ | ⟨_, effects', hrec, heff⟩
    · have := (pendingChangeAssetExists_iff assets).mpr ⟨a, ha, hsome⟩
      rw [h1] at this
      exact absurd this (by simp)
    · rw [heff]
      by_cases hs : isSimpleRemove a = true
      · refine ⟨Effect.reportRemove (reportedPath a.id), List.mem_append_left _ ?_, by
          simp [Effect.touches]⟩
        have hmem : Effect.reportRemove (reportedPath a.id) ∈
            (processSimpleRemoves assets).2 := by
          simp only [processSimpleRemoves, List.mem_map, List.mem_filter]
          exact ⟨a, ⟨ha, hs⟩, rfl⟩
        rcases drainIteration_cases (oracle k) assets with ⟨_, h'⟩ | ⟨b, x, af, hpick, _, _, _⟩
        · rw [h']; exact hmem
        · rw [drainIteration_pick _ assets b af x hpick]
          simp [hmem]
      · rcases drainIteration_follow (oracle k) assets a ha (by simpa using hs) hsome with
          ⟨before, after, hpick⟩ | hkeep
        · rw [drainIteration_pick _ assets before after a hpick]
          have hself : ∃ e ∈ (processPendingChange (oracle k) a).2,
              e.touches (reportedPath a.id) = true := by
            rcases hp with hp | hp
            · by_cases hst : a.state = AssetState.deployed
              · cases hrm : (oracle k).removeOk
                · rw [processPendingChange_deploy_removeFail _ a hp hst hrm]
                  exact ⟨_, List.mem_cons_self _ _, by simp [Effect.touches]⟩
                · rw [processPendingChange_deploy_redeploy _ a hp hst hrm]
                  exact ⟨_, List.mem_cons_self _ _, by simp [Effect.touches]⟩
              · rw [processPendingChange_deploy_fresh _ a hp hst]
                exact ⟨_, List.mem_cons_self _ _, by simp [Effect.touches]⟩
            · by_cases hst : a.state = AssetState.deployed
              · cases hrm : (oracle k).removeOk
                · rw [processPendingChange_remove_removeFail _ a hp hst hrm]
                  exact ⟨_, List.mem_cons_self _ _, by simp [Effect.touches]⟩
                · rw [processPendingChange_remove_removed _ a hp hst hrm]
                  exact ⟨_, List.mem_cons_self _ _, by simp [Effect.touches]⟩
              · rw [processPendingChange_remove_notDeployed _ a hp hst]
                exact ⟨_, List.mem_cons_self _ _, by simp [Effect.touches]⟩
          obtain ⟨e, he, ht⟩ := hself
          exact ⟨e, by simp [he], ht⟩
        · obtain ⟨e, he, ht⟩ := ih _ _ _ _ hrec a hkeep hp
          exact ⟨e, List.mem_append_right _ he, ht⟩

theorem drainIteration_pick_effects (o : Outcome) (assets before after : List Asset)
    (asset : Asset)
    (hpick : getFirstPendingChangeAsset (processSimpleRemoves assets).1 =
      some (before, asset, after)) :
    (drainIteration o assets).2 =
      (processSimpleRemoves assets).2 ++ (processPendingChange o asset).2 ++
        [saveAssetState (drainIteration o assets).1, Effect.delay 2000] := by
  rw [drainIteration_pick o assets before after asset hpick]

theorem reportedLabelAfter_last_set (path : String) (pre post : List Effect) (u : JsString)
    (ts : Nat) (label : String) (h : ∀ e ∈ post, e.touches path = false)
    (cur : Option String) :
    reportedLabelAfter path cur (pre ++ Effect.reportSet path u ts label :: post) =
      some label := by
  rw [reportedLabelAfter_append]
  simp only [reportedLabelAfter, if_true]
  exact reportedLabelAfter_untouched path post h _

theorem untouched_cons {path : String} {e : Effect} {rest : List Effect}
    (he : e.touches path = false) (h : ∀ e' ∈ rest, e'.touches path = false) :
    ∀ e' ∈ e :: rest, e'.touches path = false := by
  intro e' he'
  rcases List.mem_cons.mp he' with h' | h'
  · rw [h']; exact he
  · exact h e' h'

/-- What the loop makes of an asset with a pending deploy (ids pairwise distinct): the
asset stays in the collection; it ends `deployed` or `deployFail` with the staged
version committed and that state as the last label set on its path, or it was deployed,
the removal of the old version failed, and it ends `removeFail` with its old version
and `'removing'` as the last label set on its path. -/
theorem processPendingAssetsLoop_deploy (oracle : Nat → Outcome) :
    ∀ (fuel k : Nat) (assets final : List Asset) (effects : List Effect),
      processPendingAssetsLoop oracle fuel k assets = some (final, effects) →
      (assets.map Asset.id).Nodup →
        ∀ a ∈ assets, a.pendingChange = some PendingChange.deploy → ∀ cur,
          ∃ a' ∈ final, a'.id = a.id ∧ a'.pendingChange = none ∧
            (((a'.state = AssetState.deployed ∨ a'.state = AssetState.deployFail) ∧
                a'.updateId = a.pendingUpdateId ∧ a'.config = a.pendingConfig ∧
                reportedLabelAfter (reportedPath a.id) cur effects = some a'.state.str) ∨
              (a.state = AssetState.deployed ∧ a'.state = AssetState.removeFail ∧
                a'.updateId = a.updateId ∧ a'.config = a.config ∧
                reportedLabelAfter (reportedPath a.id) cur effects = some "removing")) := by
  intro fuel
  induction fuel with
  | zero => intro k assets final effects h; simp [processPendingAssetsLoop] at h
  | succ fuel ih =>
    intro k assets final effects h hnd a ha hp cur
    have hsome : a.pendingChange.isSome = true := by rw [hp]; rfl
    have hsimple : isSimpleRemove a = false := by simp [isSimpleRemove, hp]
    rcases processPendingAssetsLoop_succ oracle fuel k assets final effects h with
      ⟨h1, _, _⟩ | ⟨_, effects', hrec, heff⟩
    · have := (pendingChangeAssetExists_iff assets).mpr ⟨a, ha, hsome⟩
      rw [h1] at this
      exact absurd this (by simp)
    · have hnd' := drainIteration_nodup (oracle k) assets hnd
      rcases drainIteration_follow (oracle k) assets a ha hsimple hsome with
        ⟨before, after, hpick⟩ | hkeep
      · -- the asset is processed in this iteration
        have hiter := drainIteration_pick (oracle k) assets before after a hpick
        have hclose : ∀ (y : Asset) (pre : List Effect) (u : JsString) (ts : Nat)
            (label : String) (post : List Effect),
            (processPendingChange (oracle k) a).1 = some y →
            (processPendingChange (oracle k) a).2 =
              pre ++ Effect.reportSet (reportedPath a.id) u ts label :: post →
            (∀ e ∈ post, e.touches (reportedPath a.id) = false) →
            y ∈ final ∧ reportedLabelAfter (reportedPath a.id) cur effects = some label := by
          intro y pre u ts label post hy heffs hpost
          have hyid := (processPendingChange_some _ a y hy)
          have hymem : y ∈ (drainIteration (oracle k) assets).1 := by
            rw [hiter, hy]; simp
          obtain ⟨hfin, hrest⟩ := processPendingAssetsLoop_settled oracle _ _ _ _ _ hrec hnd'
            y hymem hyid.2
          rw [hyid.1] at hrest
          refine ⟨hfin, ?_⟩
          rw [heff, drainIteration_pick_effects (oracle k) assets before after a hpick, heffs]
          have hshape : ((processSimpleRemoves assets).2 ++
              (pre ++ Effect.reportSet (reportedPath a.id) u ts label :: post) ++
              [saveAssetState (drainIteration (oracle k) assets).1, Effect.delay 2000]) ++
                effects' =
              ((processSimpleRemoves assets).2 ++ pre) ++
                Effect.reportSet (reportedPath a.id) u ts label ::
                  (post ++ ([saveAssetState (drainIteration (oracle k) assets).1,
                    Effect.delay 2000] ++ effects')) := by
            simp only [List.append_assoc, List.cons_append]
          rw [hshape]
          apply reportedLabelAfter_last_set
          intro e he
          rcases List.mem_append.mp he with he | he
          · exact hpost e he
          · rcases List.mem_append.mp he with he | he
            · simp only [List.mem_cons, List.mem_singleton, List.mem_nil_iff, or_false] at he
              rcases he with rfl | rfl <;> simp [saveAssetState, Effect.touches]
            · exact hrest e he
        by_cases hst : a.state = AssetState.deployed
        · cases hrm : (oracle k).removeOk
          · have hpc := processPendingChange_deploy_removeFail (oracle k) a hp hst hrm
            obtain ⟨hfin, hlabel⟩ := hclose _ [] _ _ _ [Effect.callRemove a.id]
              (by rw [hpc]) (by rw [hpc]; rfl) (by simp [Effect.touches])
            exact ⟨_, hfin, rfl, rfl, Or.inr ⟨hst, rfl, rfl, rfl, hlabel⟩⟩
          · have hpc := processPendingChange_deploy_redeploy (oracle k) a hp hst hrm
            obtain ⟨hfin, hlabel⟩ := hclose _
              [Effect.reportSet (reportedPath a.id) a.updateId a.changeTs "removing",
                Effect.callRemove a.id,
                Effect.reportSet (reportedPath a.id) a.pendingUpdateId a.changeTs "deploying",
                Effect.callDeploy a.id a.pendingUpdateId a.pendingConfig] _ _ _ []
              (by rw [hpc]) (by rw [hpc]; rfl) (by simp)
            refine ⟨_, hfin, rfl, rfl, Or.inl ⟨?_, rfl, rfl, ?_⟩⟩
            · cases (oracle k).deployOk <;> simp
            · rw [hlabel]
              cases (oracle k).deployOk <;> rfl
        · have hpc := processPendingChange_deploy_fresh (oracle k) a hp hst
          obtain ⟨hfin, hlabel⟩ := hclose _
            [Effect.reportSet (reportedPath a.id) a.pendingUpdateId a.changeTs "deploying",
              Effect.callDeploy a.id a.pendingUpdateId a.pendingConfig] _ _ _ []
            (by rw [hpc]) (by rw [hpc]; rfl) (by simp)
          refine ⟨_, hfin, rfl, rfl, Or.inl ⟨?_, rfl, rfl, ?_⟩⟩
          · cases (oracle k).deployOk <;> simp
          · rw [hlabel]
            cases (oracle k).deployOk <;> rfl
      · -- the asset waits for a later iteration
        obtain ⟨a', hfin, hid, hpn, hres⟩ := ih _ _ _ _ hrec hnd' a hkeep hp
          (reportedLabelAfter (reportedPath a.id) cur (drainIteration (oracle k) assets).2)
        refine ⟨a', hfin, hid, hpn, ?_⟩
        rw [heff, reportedLabelAfter_append]
        exact hres

/-- After some update of the path, with every label set by the effects satisfying `P`,
the path holds nothing or a label that satisfies `P`. -/
theorem reportedLabelAfter_of_touched (path : String) (P : String → Prop)
    (effects : List Effect)
    (hlabels : ∀ p u ts label, Effect.reportSet p u ts label ∈ effects → P label) :
    (∀ cur, (cur = none ∨ ∃ label, cur = some label ∧ P label) →
      (reportedLabelAfter path cur effects = none ∨
        ∃ label, reportedLabelAfter path cur effects = some label ∧ P label)) ∧
    ((∃ e ∈ effects, e.touches path = true) → ∀ cur,
      (reportedLabelAfter path cur effects = none ∨
        ∃ label, reportedLabelAfter path cur effects = some label ∧ P label)) := by
  induction effects with
  | nil =>
    refine ⟨fun cur h => h, ?_⟩
    rintro ⟨e, he, _⟩
    exact absurd he (List.not_mem_nil _)
  | cons e rest ih =>
    obtain ⟨ih1, ih2⟩ := ih (fun p u ts label h => hlabels p u ts label
      (List.mem_cons_of_mem _ h))
    constructor
    · intro cur hcur
      cases e with
      | reportSet p u ts label =>
        simp only [reportedLabelAfter]
        apply ih1
        split_ifs
        · exact Or.inr ⟨label, rfl, hlabels p u ts label (List.mem_cons_self _ _)⟩
        · exact hcur
      | reportRemove p =>
        simp only [reportedLabelAfter]
        apply ih1
        split_ifs
        · exact Or.inl rfl
        · exact hcur
      | callRemove _ => exact ih1 cur hcur
      | callDeploy _ _ _ => exact ih1 cur hcur
      | saveAssetState _ => exact ih1 cur hcur
      | delay _ => exact ih1 cur hcur
      | logError _ => exact ih1 cur hcur
    · rintro ⟨e', he', ht⟩ cur
      rcases List.mem_cons.mp he' with h | h
      · subst h
        cases e' with
        | reportSet p u ts label =>
          simp only [Effect.touches, decide_eq_true_eq] at ht
          simp only [reportedLabelAfter, ht, if_true]
          exact ih1 _ (Or.inr ⟨label, rfl, hlabels p u ts label (List.mem_cons_self _ _)⟩)
        | reportRemove p =>
          simp only [Effect.touches, decide_eq_true_eq] at ht
          simp only [reportedLabelAfter, ht, if_true]
          exact ih1 _ (Or.inl rfl)
        | callRemove _ => simp [Effect.touches] at ht
        | callDeploy _ _ _ => simp [Effect.touches] at ht
        | saveAssetState _ => simp [Effect.touches] at ht
        | delay _ => simp [Effect.touches] at ht
        | logError _ => simp [Effect.touches] at ht
      · have hrest := ih2 ⟨e', h, ht⟩
        cases e with
        | reportSet p u ts label => exact hrest _
        | reportRemove p => exact hrest _
        | callRemove _ => exact hrest cur
        | callDeploy _ _ _ => exact hrest cur
        | saveAssetState _ => exact hrest cur
        | delay _ => exact hrest cur
        | logError _ => exact hrest cur

/-- The diff keeps the ids of the collection pairwise distinct. -/
theorem diffOwnAssets_nodup (clock : Clock) (tick : Nat) (ds : List (String × DesiredAsset))
    (assets : List Asset) (hkeys : (ds.map Prod.fst).Nodup)
    (hids : (assets.map Asset.id).Nodup) :
    ((diffOwnAssets clock tick ds assets).assets.map Asset.id).Nodup := by
  obtain ⟨existing, news, hout, hrel, hrelN⟩ := diffOwnAssets_weak clock tick ds assets
  have hidsE : existing.map Asset.id = assets.map Asset.id := by
    refine forall₂_map_eq Asset.id Asset.id ?_ hrel
    rintro a b ⟨h1, h2⟩
    by_cases hmem : a.id ∈ ds.map Prod.fst
    · rcases h2 hmem with h | ⟨d, _, _, t, _, _, h⟩
      · rw [h]
      · rw [h]; rfl
    · obtain ⟨t, _, _, h⟩ := h1 hmem
      rw [h]; rfl
  have hidsN : news.map Asset.id =
      (ds.filter fun e =>
        decide (e.1 ∉ assets.map Asset.id) && decide (e.2.config.type = "file")).map
        Prod.fst := by
    refine forall₂_map_eq Prod.fst Asset.id ?_ hrelN
    rintro e a ⟨t, _, _, h⟩
    rw [h]; rfl
  rw [hout, List.map_append, hidsE, hidsN]
  refine List.Nodup.append hids (hkeys.sublist ((List.filter_sublist _).map _)) ?_
  intro id h1 h2
  obtain ⟨e, he, rfl⟩ := List.mem_map.mp h2
  have := (List.mem_filter.mp he).2
  simp only [Bool.and_eq_true, decide_eq_true_eq] at this
  exact this.1 h1

/-- The assets on which the diff stages a deploy, by id: a key that is the id of no
asset and has `config.type` `'file'`, or the id of an asset with another `updateId`. -/
theorem diffOwnAssets_staged (clock : Clock) (tick : Nat) (ds : List (String × DesiredAsset))
    (assets : List Asset) (hkeys : (ds.map Prod.fst).Nodup)
    (hids : (assets.map Asset.id).Nodup) (id : String) (d : DesiredAsset)
    (hd : (id, d) ∈ ds)
    (hstaged : (id ∉ assets.map Asset.id ∧ d.config.type = "file") ∨
      ∃ a ∈ assets, a.id = id ∧ a.updateId ≠ d.updateId) :
    ∃ a ∈ (diffOwnAssets clock tick ds assets).assets, a.id = id ∧
      a.pendingChange = some PendingChange.deploy ∧ a.pendingUpdateId = d.updateId ∧
      a.pendingConfig = some d.config ∧
      (a.state = AssetState.deployed → ∃ a₀ ∈ assets, a₀.id = id ∧
        a₀.state = AssetState.deployed) := by
  rcases hstaged with ⟨hnew, hfile⟩ | ⟨a₀, ha₀, hid, hne⟩
  · obtain ⟨existing, news, hout, _, hrelN⟩ := diffOwnAssets_weak clock tick ds assets
    have hq : (id, d) ∈ ds.filter fun e =>
        decide (e.1 ∉ assets.map Asset.id) && decide (e.2.config.type = "file") := by
      rw [List.mem_filter]
      exact ⟨hd, by simp only [Bool.and_eq_true, decide_eq_true_eq]; exact ⟨hnew, hfile⟩⟩
    obtain ⟨a, haN, t, _, _, ha⟩ := forall₂_mem_left hrelN hq
    refine ⟨a, by rw [hout]; exact List.mem_append_right _ haN, ?_⟩
    subst ha
    exact ⟨rfl, rfl, rfl, rfl, fun h => by simp [newFileAsset] at h⟩
  · obtain ⟨existing, news, hout, hrel⟩ := diffOwnAssets_precise clock tick ds assets hkeys hids
    obtain ⟨a, haE, hr⟩ := forall₂_mem_left hrel ha₀
    rw [hid] at hr
    obtain ⟨t, _, _, ha⟩ := (hr d hd).1 hne
    refine ⟨a, by rw [hout]; exact List.mem_append_left _ haE, ?_⟩
    subst ha
    exact ⟨hid, rfl, rfl, rfl, fun h => ⟨a₀, ha₀, hid, h⟩⟩

/-! ## The durable snapshot -/

theorem loadSerializedAssets_serialize (clock : Clock) (saved : List Asset)
    (hfile : ∀ a ∈ saved, a.type = "file") :
    ∀ (tick : Nat) (assets : List Asset),
      loadSerializedAssets clock tick (saved.map Asset.serialize) assets =
        (assets ++ saved.map Asset.reloaded, tick + saved.length, none) := by
  induction saved with
  | nil => intro tick assets; simp [loadSerializedAssets]
  | cons a rest ih =>
    intro tick assets
    have ha : a.type = "file" := hfile a (List.mem_cons_self _ _)
    have hrest := ih (fun b hb => hfile b (List.mem_cons_of_mem _ hb)) (tick + 1)
      (assets ++ [a.reloaded])
    have hde : deserializeAsset clock tick a.serialize = Except.ok a.reloaded := by
      simp [deserializeAsset, Asset.serialize, Asset.reloaded, ha]
    simp only [List.map_cons, loadSerializedAssets, hde, hrest, List.length_cons,
      List.append_assoc, List.singleton_append]
    congr 2
    omega

/-! ## The Node-RED supervisor -/

theorem onExit_unexpected (child : Child) (code : Option Nat) (now : Nat)
    (c : NodeREDController) (hcode : code ≠ some 0) :
    onExit child code now c =
      ({ c with
          cproc := none
          exceptionRetryCount :=
            if now < c.lastRetryTimestamp + 5000 then c.exceptionRetryCount + 1 else 0
          lastRetryTimestamp := now },
        if (if now < c.lastRetryTimestamp + 5000 then c.exceptionRetryCount + 1 else 0) < 5
        then [SupEffect.scheduleStart child.editSession 1000, SupEffect.removePIDFile]
        else [SupEffect.removePIDFile]) := by
  simp only [onExit, if_pos hcode, maxRetryCount, maxRetryCountResetInterval, gt_iff_lt]
  split_ifs <;> rfl

theorem onExit_clean (child : Child) (now : Nat) (c : NodeREDController) :
    onExit child (some 0) now c = ({ c with cproc := none }, [SupEffect.removePIDFile]) := by
  simp [onExit]

theorem crashes_within_window (child : Child) (exits : List (Option Nat × Nat)) :
    ∀ c : NodeREDController, withinWindow c.lastRetryTimestamp exits = true →
      (crashes child c exits).1.exceptionRetryCount = c.exceptionRetryCount + exits.length ∧
      (crashes child c exits).2 =
        (List.range exits.length).map fun i => decide (c.exceptionRetryCount + i + 1 < 5) := by
  induction exits with
  | nil => intro c _; simp [crashes]
  | cons e rest ih =>
    intro c h
    simp only [withinWindow, Bool.and_eq_true, decide_eq_true_eq] at h
    obtain ⟨⟨hcode, hnow⟩, hrest⟩ := h
    have hstep := onExit_unexpected child e.1 e.2 c hcode
    rw [if_pos hnow] at hstep
    have ih' := ih (onExit child e.1 e.2 c).1 (by rw [hstep]; exact hrest)
    simp only [crashes, List.length_cons, List.range_succ_eq_map, List.map_cons, List.map_map]
    rw [ih'.1, ih'.2, hstep]
    refine ⟨by simp only; omega, ?_⟩
    congr 1
    · by_cases hlt : c.exceptionRetryCount + 1 < 5
      · simp [hlt, SupEffect.isScheduleStart]
      · simp [hlt, SupEffect.isScheduleStart]
    · apply List.map_congr_left
      intro i _
      simp only [Function.comp, Nat.succ_eq_add_one]
      congr 1
      apply propext
      constructor <;> intro h' <;> omega

/-! ### The action queue -/

theorem loopStep_inv {α : Type} (q : ActionQueue α) (hrun : q.running = [])
    (hended : q.ended = 0) (hproc : q.isProcessing = true)
    (hfifo : q.started ++ q.actions = q.submitted) : QueueInv (loopStep q) := by
  obtain ⟨actions, isProcessing, running, ended, started, submitted⟩ := q
  simp only at hrun hended hproc hfifo
  subst hrun hended hproc
  cases actions with
  | nil => exact ⟨by simp [loopStep], by simp [loopStep], by simpa [loopStep] using hfifo⟩
  | cons a rest =>
    exact ⟨by simp [loopStep], by simp [loopStep], by simpa [loopStep] using hfifo⟩

theorem running_eq_singleton {α : Type} {q : ActionQueue α} (h : QueueInv q) {fn : α}
    (hfn : fn ∈ q.running) : q.running = [fn] ∧ q.ended = 0 ∧ q.isProcessing = true := by
  obtain ⟨h1, h2, _⟩ := h
  have hlen : q.running.length = 1 := by
    have : 0 < q.running.length := List.length_pos_of_mem hfn
    omega
  obtain ⟨a, ha⟩ := List.length_eq_one.mp hlen
  rw [ha] at hfn
  simp only [List.mem_singleton] at hfn
  refine ⟨by rw [ha, hfn], by omega, ?_⟩
  cases hp : q.isProcessing
  · have := (h2 hp).1
    rw [this] at hlen
    simp at hlen
  · rfl

theorem queueStep_inv {α : Type} [DecidableEq α] (q q' : ActionQueue α) (e : QueueEvent α)
    (h : QueueInv q) (hstep : queueStep q e = some q') : QueueInv q' := by
  cases e with
  | call fn =>
    simp only [queueStep, Option.some.injEq] at hstep
    subst hstep
    obtain ⟨h1, h2, h3⟩ := h
    simp only [queueAction]
    cases hp : q.isProcessing
    · simp only [Bool.false_eq_true, if_false]
      refine loopStep_inv _ (h2 hp).1 (h2 hp).2 rfl ?_
      simp only [← h3, List.append_assoc]
    · simp only [if_true]
      exact ⟨h1, fun hf => by simp [hp] at hf, by simp only [← h3, List.append_assoc]⟩
  | resolved fn =>
    simp only [queueStep] at hstep
    split_ifs at hstep with hfn
    simp only [Option.some.injEq] at hstep
    subst hstep
    obtain ⟨hr, he, hp⟩ := running_eq_singleton h hfn
    refine loopStep_inv _ ?_ he hp h.2.2
    simp [hr]
  | rejected fn =>
    simp only [queueStep] at hstep
    split_ifs at hstep with hfn
    simp only [Option.some.injEq] at hstep
    subst hstep
    obtain ⟨hr, he, hp⟩ := running_eq_singleton h hfn
    exact ⟨by simp [hr, he], fun hf => by simp [hp] at hf, h.2.2⟩
  | drained =>
    simp only [queueStep] at hstep
    split_ifs at hstep with hpos
    simp only [Option.some.injEq] at hstep
    subst hstep
    obtain ⟨h1, _, h3⟩ := h
    have hr : q.running = [] := List.length_eq_zero.mp (by omega)
    exact ⟨by simp only [hr, List.length_nil]; omega, fun _ => ⟨hr, by simp only; omega⟩, h3⟩

theorem queueRun_inv {α : Type} [DecidableEq α] (events : List (QueueEvent α)) :
    ∀ q q' : ActionQueue α, QueueInv q → queueRun q events = some q' → QueueInv q' := by
  induction events with
  | nil =>
    intro q q' h hrun
    simp only [queueRun, Option.some.injEq] at hrun
    rw [← hrun]; exact h
  | cons e rest ih =>
    intro q q' h hrun
    simp only [queueRun] at hrun
    cases hstep : queueStep q e with
    | none => rw [hstep] at hrun; simp at hrun
    | some q₁ =>
      rw [hstep] at hrun
      exact ih q₁ q' (queueStep_inv q q₁ e h hstep) hrun

/-- A drain that evaluates its loop calls the action at the front of the queue, or ends
when the queue is empty. -/
theorem loopStep_front {α : Type} (q : ActionQueue α) :
    ((loopStep q).started = q.started ∧ q.actions = []) ∨
      ∃ fn rest, q.actions = fn :: rest ∧ (loopStep q).actions = rest ∧
        (loopStep q).started = q.started ++ [fn] ∧ fn ∈ (loopStep q).running := by
  cases hq : q.actions with
  | nil => left; simp [loopStep, hq]
  | cons a rest => right; exact ⟨a, rest, rfl, by simp [loopStep, hq], by simp [loopStep, hq],
      by simp [loopStep, hq]⟩

/-- A step calls no action, or it calls the action at the front of the queue (a call
pushes its action first). -/
theorem queueStep_front {α : Type} [DecidableEq α] (q q' : ActionQueue α)
    (e : QueueEvent α) (hstep : queueStep q e = some q') :
    q'.started = q.started ∨
      ∃ fn, q'.started = q.started ++ [fn] ∧ fn ∈ q'.running ∧
        (q.actions ++ e.pushed).head? = some fn := by
  cases e with
  | call f =>
    simp only [queueStep, Option.some.injEq] at hstep
    subst hstep
    simp only [queueAction]
    cases hp : q.isProcessing
    · simp only [Bool.false_eq_true, if_false]
      have hl := loopStep_front
        (⟨q.actions ++ [f], true, q.running, q.ended, q.started, q.submitted ++ [f]⟩ :
          ActionQueue α)
      rcases hl with ⟨h1, _⟩ | ⟨fn, rest, h1, _, h3, h4⟩
      · exact Or.inl h1
      · exact Or.inr ⟨fn, h3, h4, by simp only at h1; simp [QueueEvent.pushed, h1]⟩
    · left
      simp
  | resolved f =>
    simp only [queueStep] at hstep
    split_ifs at hstep with hfn
    simp only [Option.some.injEq] at hstep
    subst hstep
    have hl := loopStep_front
      (⟨q.actions, q.isProcessing, q.running.erase f, q.ended, q.started, q.submitted⟩ :
        ActionQueue α)
    rcases hl with ⟨h1, _⟩ | ⟨fn, rest, h1, _, h3, h4⟩
    · exact Or.inl h1
    · exact Or.inr ⟨fn, h3, h4, by simp only at h1; simp [QueueEvent.pushed, h1]⟩
  | rejected f =>
    simp only [queueStep] at hstep
    split_ifs at hstep with hfn
    simp only [Option.some.injEq] at hstep
    subst hstep
    exact Or.inl rfl
  | drained =>
    simp only [queueStep] at hstep
    split_ifs at hstep with hpos
    simp only [Option.some.injEq] at hstep
    subst hstep
    exact Or.inl rfl

/-! ### The flow deployment -/

theorem shutdownService_static (exit : Option Nat × Nat) (c : NodeREDController) :
    (shutdownService exit c).1.command = c.command ∧
      (shutdownService exit c).1.args = c.args ∧
      (shutdownService exit c).1.env = c.env ∧
      (shutdownService exit c).1.assetsDataPath = c.assetsDataPath := by
  cases hc : c.cproc with
  | none => simp [shutdownService, hc]
  | some child =>
    simp only [shutdownService, hc, onExit]
    split_ifs <;> exact ⟨rfl, rfl, rfl, rfl⟩

theorem startService_spawn (editSession : Option EditSession) (w : StartWorld)
    (c : NodeREDController) :
    SupEffect.spawn c.command
        (match editSession with
          | some _ => ["-s", ".node-red-config/enebular-editor-settings.js"]
          | none => c.args)
        (match editSession with
          | some es =>
            setEnv
              (setEnv (setEnv c.env "ENEBULAR_ASSETS_DATA_PATH" c.assetsDataPath)
                "ENEBULAR_EDITOR_URL" ("http://" ++ es.ipAddress ++ ":9017"))
              "ENEBULAR_EDITOR_SESSION_TOKEN" es.sessionToken
          | none => setEnv c.env "ENEBULAR_ASSETS_DATA_PATH" c.assetsDataPath) ∈
      (startService editSession w c).2.1 := by
  simp only [startService]
  cases w.spawned <;> cases editSession <;> simp

theorem restartService_spawn (editSession : Option EditSession) (w : RestartWorld)
    (c : NodeREDController) :
    SupEffect.spawn c.command
        (match editSession with
          | some _ => ["-s", ".node-red-config/enebular-editor-settings.js"]
          | none => c.args)
        (match editSession with
          | some es =>
            setEnv
              (setEnv (setEnv c.env "ENEBULAR_ASSETS_DATA_PATH" c.assetsDataPath)
                "ENEBULAR_EDITOR_URL" ("http://" ++ es.ipAddress ++ ":9017"))
              "ENEBULAR_EDITOR_SESSION_TOKEN" es.sessionToken
          | none => setEnv c.env "ENEBULAR_ASSETS_DATA_PATH" c.assetsDataPath) ∈
      (restartService editSession w c).2.1 := by
  obtain ⟨h1, h2, h3, h4⟩ := shutdownService_static w.exit c
  have h := startService_spawn editSession w.start (shutdownService w.exit c).1
  rw [h1, h2, h3, h4] at h
  simp only [restartService]
  exact List.mem_append_right _ h

theorem updatePackage_ok (c : NodeREDController) (w : UpdateWorld) (p : FlowPackage)
    (h : (updatePackage c w (some p)).2 = Except.ok ()) :
    (updatePackage c w (some p)).1 =
      (packageWrites c w p).map Prod.fst ++ [SupEffect.npmInstall c.dataDir] := by
  simp only [updatePackage] at h ⊢
  cases hf : (packageWrites c w p).findSome? Prod.snd with
  | some e => rw [hf] at h; simp at h
  | none =>
    simp only [resolveDependency]
    cases w.npm <;> rfl

theorem fetchAndUpdateFlow_apply (w : FlowWorld) (c : NodeREDController) (p : FlowPackage)
    (hdownload : downloadPackage w.response = Except.ok (some p))
    (hallowed : (flowPackageContainsEditSession (some p) && !c.allowEditSessions) = false)
    (hupdate : (updatePackage c w.update (some p)).2 = Except.ok ()) :
    fetchAndUpdateFlow w c =
      ((restartService
          (if flowPackageContainsEditSession (some p) then p.editSession else none)
          w.restart c).1,
        (updatePackage c w.update (some p)).1 ++
          (restartService
            (if flowPackageContainsEditSession (some p) then p.editSession else none)
            w.restart c).2.1,
        (restartService
          (if flowPackageContainsEditSession (some p) then p.editSession else none)
          w.restart c).2.2) := by
  simp only [fetchAndUpdateFlow, hdownload, hallowed, hupdate, Bool.false_eq_true, if_false]

/-! ### The promises of the action queue -/

theorem promiseStep_queue {α : Type} [DecidableEq α] (s s' : QueuePromises α)
    (e : PromiseEvent α) (h : promiseStep s e = some s') :
    queueStep s.queue e.toQueueEvent = some s'.queue := by
  simp only [promiseStep] at h
  cases hq : queueStep s.queue e.toQueueEvent with
  | none => rw [hq] at h; simp at h
  | some q =>
    rw [hq] at h
    cases e with
    | call fn =>
      simp only at h
      split_ifs at h <;> (simp only [Option.some.injEq] at h; subst h; rfl)
    | resolved fn =>
      simp only at h
      split_ifs at h <;> (simp only [Option.some.injEq] at h; subst h; rfl)
    | rejected fn reason =>
      simp only [Option.some.injEq] at h; subst h; rfl
    | drained =>
      simp only [Option.some.injEq] at h; subst h; rfl

theorem promiseStep_inv {α : Type} [DecidableEq α] (s s' : QueuePromises α)
    (e : PromiseEvent α) (hinv : PromiseInv s) (h : promiseStep s e = some s') :
    PromiseInv s' := by
  refine ⟨queueStep_inv _ _ _ hinv.1 (promiseStep_queue s s' e h), ?_⟩
  simp only [promiseStep] at h
  cases hq : queueStep s.queue e.toQueueEvent with
  | none => rw [hq] at h; simp at h
  | some q =>
    rw [hq] at h
    cases e with
    | call fn =>
      simp only at h
      split_ifs at h with hp
      · simp only [Option.some.injEq] at h; subst h
        intro _; exact hinv.2 hp
      · simp only [Option.some.injEq] at h; subst h
        intro _; simp
    | resolved fn =>
      simp only [PromiseEvent.toQueueEvent, queueStep] at hq
      split_ifs at hq with hfn
      have hp := (running_eq_singleton hinv.1 hfn).2.2
      simp only at h
      split_ifs at h
      · simp only [Option.some.injEq] at h; subst h; intro _
        simp only [List.length_set]; exact hinv.2 hp
      · simp only [Option.some.injEq] at h; subst h; intro _
        exact hinv.2 hp
    | rejected fn reason =>
      simp only [PromiseEvent.toQueueEvent, queueStep] at hq
      split_ifs at hq with hfn
      have hp := (running_eq_singleton hinv.1 hfn).2.2
      simp only [Option.some.injEq] at h; subst h; intro _
      simp only [List.length_set]; exact hinv.2 hp
    | drained =>
      simp only [PromiseEvent.toQueueEvent, queueStep] at hq
      split_ifs at hq with hpos
      simp only [Option.some.injEq] at hq h
      subst h
      intro hp
      rw [← hq] at hp
      simp at hp

theorem promiseRun_inv {α : Type} [DecidableEq α] (events : List (PromiseEvent α)) :
    ∀ s s' : QueuePromises α, PromiseInv s → promiseRun s events = some s' →
      PromiseInv s' := by
  induction events with
  | nil =>
    intro s s' h hrun
    simp only [promiseRun, Option.some.injEq] at hrun
    rw [← hrun]; exact h
  | cons e rest ih =>
    intro s s' h hrun
    simp only [promiseRun] at hrun
    cases hstep : promiseStep s e with
    | none => rw [hstep] at hrun; simp at hrun
    | some s₁ =>
      rw [hstep] at hrun
      exact ih s₁ s' (promiseStep_inv s s₁ e h hstep) hrun

theorem promiseInv_init (α : Type) : PromiseInv (QueuePromises.init α) :=
  ⟨⟨by simp [QueuePromises.init, ActionQueue.init],
      by simp [QueuePromises.init, ActionQueue.init],
      by simp [QueuePromises.init, ActionQueue.init]⟩,
    by simp [QueuePromises.init, ActionQueue.init]⟩

/-- The rejection of the running action leaves the queue wedged, with the promise in
`_isProcessing` rejected. -/
theorem promiseStep_rejected {α : Type} [DecidableEq α] (s s' : QueuePromises α) (fn : α)
    (reason : String) (hinv : PromiseInv s)
    (h : promiseStep s (PromiseEvent.rejected fn reason) = some s') :
    Wedged s' ∧ s'.drains[s'.current]? = some (PromiseState.rejected reason) ∧
      s'.queue.actions = s.queue.actions ∧ s'.queue.started = s.queue.started ∧
      s'.awaited = s.awaited ∧ s'.current = s.current := by
  simp only [promiseStep] at h
  cases hq : queueStep s.queue (PromiseEvent.rejected fn reason).toQueueEvent with
  | none => rw [hq] at h; simp at h
  | some q =>
    rw [hq] at h
    simp only [PromiseEvent.toQueueEvent, queueStep] at hq
    split_ifs at hq with hfn
    obtain ⟨hr, he, hp⟩ := running_eq_singleton hinv.1 hfn
    have hlt := hinv.2 hp
    simp only [Option.some.injEq] at hq h
    subst h
    subst hq
    refine ⟨⟨hp, by simp [hr], he⟩, ?_, rfl, rfl, rfl, rfl⟩
    simp [List.getElem?_set, hlt]

/-- In a wedged queue the only event is a call, and it only appends its action and
awaits the promise in `_isProcessing`. -/
theorem promiseStep_wedged {α : Type} [DecidableEq α] (s s' : QueuePromises α)
    (e : PromiseEvent α) (hw : Wedged s) (h : promiseStep s e = some s') :
    (∃ fn, e = PromiseEvent.call fn) ∧ Wedged s' ∧
      s'.queue.actions = s.queue.actions ++ e.toQueueEvent.pushed ∧
      s'.queue.started = s.queue.started ∧ s'.drains = s.drains ∧
      s'.current = s.current ∧
      s'.awaited = s.awaited ++ e.toQueueEvent.pushed.map fun f => (f, s.current) := by
  obtain ⟨hp, hr, he⟩ := hw
  cases e with
  | call fn =>
    simp only [promiseStep, PromiseEvent.toQueueEvent, queueStep, queueAction, hp, if_true,
      Option.some.injEq] at h
    subst h
    exact ⟨⟨fn, rfl⟩, ⟨rfl, hr, he⟩, rfl, rfl, rfl, rfl, rfl⟩
  | resolved fn =>
    simp [promiseStep, PromiseEvent.toQueueEvent, queueStep, hr] at h
  | rejected fn reason =>
    simp [promiseStep, PromiseEvent.toQueueEvent, queueStep, hr] at h
  | drained =>
    simp [promiseStep, PromiseEvent.toQueueEvent, queueStep, he] at h

theorem promiseRun_wedged {α : Type} [DecidableEq α] (events : List (PromiseEvent α)) :
    ∀ s s' : QueuePromises α, Wedged s → promiseRun s events = some s' →
      (∀ e ∈ events, ∃ fn, e = PromiseEvent.call fn) ∧ Wedged s' ∧
        s'.queue.actions =
          s.queue.actions ++ (events.flatMap fun e => e.toQueueEvent.pushed) ∧
        s'.queue.started = s.queue.started ∧ s'.drains = s.drains ∧
        s'.current = s.current ∧
        s'.awaited = s.awaited ++
          (events.flatMap fun e => e.toQueueEvent.pushed).map fun f => (f, s.current) := by
  induction events with
  | nil =>
    intro s s' hw hrun
    simp only [promiseRun, Option.some.injEq] at hrun
    subst hrun
    simp [hw]
  | cons e rest ih =>
    intro s s' hw hrun
    simp only [promiseRun] at hrun
    cases hstep : promiseStep s e with
    | none => rw [hstep] at hrun; simp at hrun
    | some s₁ =>
      rw [hstep] at hrun
      obtain ⟨h1, h2, h3, h4, h5, h6, h7⟩ := promiseStep_wedged s s₁ e hw hstep
      obtain ⟨g1, g2, g3, g4, g5, g6, g7⟩ := ih s₁ s' h2 hrun
      refine ⟨?_, g2, ?_, by rw [g4, h4], by rw [g5, h5], by rw [g6, h6], ?_⟩
      · intro e' he'
        rcases List.mem_cons.mp he' with rfl | hmem
        · exact h1
        · exact g1 e' hmem
      · rw [g3, h3]; simp [List.flatMap_cons]
      · rw [g7, h7, h6]; simp [List.flatMap_cons]

/-! ### The ids of the collection -/

theorem processPendingAssetsLoop_ids_sublist (oracle : Nat → Outcome) :
    ∀ (fuel k : Nat) (assets final : List Asset) (effects : List Effect),
      processPendingAssetsLoop oracle fuel k assets = some (final, effects) →
      List.Sublist (final.map Asset.id) (assets.map Asset.id) := by
  intro fuel
  induction fuel with
  | zero => intro k assets final effects h; simp [processPendingAssetsLoop] at h
  | succ fuel ih =>
    intro k assets final effects h
    simp only [processPendingAssetsLoop] at h
    split_ifs at h with hex
    · cases hr : processPendingAssetsLoop oracle fuel (k + 1)
          (drainIteration (oracle k) assets).1 with
      | none => rw [hr] at h; simp at h
      | some r =>
        obtain ⟨final', effects'⟩ := r
        rw [hr] at h
        simp only [Option.some.injEq, Prod.mk.injEq] at h
        obtain ⟨rfl, _⟩ := h
        exact (ih (k + 1) _ _ _ hr).trans (drainIteration_ids_sublist (oracle k) assets)
    · simp only [Option.some.injEq, Prod.mk.injEq] at h
      obtain ⟨rfl, _⟩ := h
      exact List.Sublist.refl _

/-- The ids after the diff are the ids before, followed by the keys that are the id of
no asset and have `config.type` `'file'`. -/
theorem diffOwnAssets_ids (clock : Clock) (tick : Nat) (ds : List (String × DesiredAsset))
    (assets : List Asset) :
    (diffOwnAssets clock tick ds assets).assets.map Asset.id =
      assets.map Asset.id ++
        (ds.filter fun e =>
          decide (e.1 ∉ assets.map Asset.id) && decide (e.2.config.type = "file")).map
          Prod.fst := by
  obtain ⟨existing, news, hout, hrel, hrelN⟩ := diffOwnAssets_weak clock tick ds assets
  have hidsE : existing.map Asset.id = assets.map Asset.id := by
    refine forall₂_map_eq Asset.id Asset.id ?_ hrel
    rintro a b ⟨h1, h2⟩
    by_cases hmem : a.id ∈ ds.map Prod.fst
    · rcases h2 hmem with h | ⟨d, _, _, t, _, _, h⟩
      · rw [h]
      · rw [h]; rfl
    · obtain ⟨t, _, _, h⟩ := h1 hmem
      rw [h]; rfl
  have hidsN : news.map Asset.id =
      (ds.filter fun e =>
        decide (e.1 ∉ assets.map Asset.id) && decide (e.2.config.type = "file")).map
        Prod.fst := by
    refine forall₂_map_eq Prod.fst Asset.id ?_ hrelN
    rintro e a ⟨t, _, _, h⟩
    rw [h]; rfl
  rw [hout, List.map_append, hidsE, hidsN]

/-! ### Unsupported asset types -/

theorem foldl_diffOwnEntry_effects_mono (clock : Clock) (ds : List (String × DesiredAsset)) :
    ∀ (acc : DiffAcc) (e : Effect), e ∈ acc.effects →
      e ∈ (ds.foldl (diffOwnEntry clock) acc).effects := by
  induction ds with
  | nil => intro acc e h; exact h
  | cons d rest ih =>
    intro acc e h
    rw [List.foldl_cons]
    apply ih
    simp only [diffOwnEntry]
    split_ifs
    · exact h
    · exact h
    · exact List.mem_append_left _ h

/-- The loop logs the unsupported type of every property that is the id of no asset and
whose `config.type` is not `'file'`. -/
theorem foldl_diffOwnEntry_logs (clock : Clock) (ds : List (String × DesiredAsset)) :
    ∀ (acc : DiffAcc) (id : String) (d : DesiredAsset), (id, d) ∈ ds →
      id ∉ acc.assets.map Asset.id → d.config.type ≠ "file" →
      Effect.logError ("Unsupported asset type: " ++ d.config.type) ∈
        (ds.foldl (diffOwnEntry clock) acc).effects := by
  induction ds with
  | nil => intro acc id d h; simp at h
  | cons e rest ih =>
    intro acc id d hd hnew htype
    rw [List.foldl_cons]
    rcases List.mem_cons.mp hd with heq | hmem
    · apply foldl_diffOwnEntry_effects_mono
      subst heq
      have hfound : (findAndStage clock id d acc.tick acc.assets).2.1 = false := by
        cases hf : (findAndStage clock id d acc.tick acc.assets).2.1
        · rfl
        · exact absurd ((findAndStage_found clock id d acc.tick acc.assets).mp hf) hnew
      simp only [diffOwnEntry, hfound, Bool.false_eq_true, if_false, if_neg htype]
      exact List.mem_append_right _ (List.mem_singleton_self _)
    · apply ih _ id d hmem _ htype
      rw [diffOwnEntry_assets,
        map_id_of_committed (findAndStage_committed clock e.1 e.2 acc.tick acc.assets)]
      exact hnew

/-- A key that is the id of no asset and whose `config.type` is not `'file'` gets no
asset, and its type is logged. -/
theorem diffOwnAssets_unsupported (clock : Clock) (tick : Nat)
    (ds : List (String × DesiredAsset)) (assets : List Asset)
    (hkeys : (ds.map Prod.fst).Nodup) (id : String) (d : DesiredAsset) (hd : (id, d) ∈ ds)
    (hnew : id ∉ assets.map Asset.id) (htype : d.config.type ≠ "file") :
    id ∉ (diffOwnAssets clock tick ds assets).assets.map Asset.id ∧
      Effect.logError ("Unsupported asset type: " ++ d.config.type) ∈
        (diffOwnAssets clock tick ds assets).effects := by
  constructor
  · rw [diffOwnAssets_ids]
    intro h
    rcases List.mem_append.mp h with h | h
    · exact hnew h
    · obtain ⟨e, he, heq⟩ := List.mem_map.mp h
      have hmem := (List.mem_filter.mp he).1
      have hcond := (List.mem_filter.mp he).2
      simp only [Bool.and_eq_true, decide_eq_true_eq] at hcond
      have : e = (id, d) := List.inj_on_of_nodup_map hkeys hmem hd heq
      rw [this] at hcond
      exact htype hcond.2
  · simp only [diffOwnAssets]
    exact foldl_diffOwnEntry_logs clock ds ⟨assets, [], tick, []⟩ id d hd hnew htype

/-! ## The claims about `_handleDeviceStateChange` -/

/-- C1, as the code has it.  In `_handleDeviceStateChange`, for a desired asset map
that has no key named `hasOwnProperty` and an asset of the collection (ids pairwise
distinct, as are the keys of a JavaScript object) whose id is a key of that map: if the
desired `updateId` differs from the asset's `updateId`, the asset afterwards is the old
asset with `pendingChange = 'deploy'`, `pendingUpdateId` the
desired `updateId`, `pendingConfig` the desired `config` and `changeTs` a clock
reading made during this run; if the two `updateId`s are equal, the asset is left
exactly as it was. -/
theorem handleDeviceStateChange_existing_asset (clock : Clock) (tick : Nat) (params : Params)
    (ds : DesiredState) (desiredAssets : List (String × DesiredAsset)) (man : AssetManager)
    (hevent : ignoredEvent params = false) (hinited : man.inited = true)
    (hmap : ds.assets = some desiredAssets)
    (hown : "hasOwnProperty" ∉ desiredAssets.map Prod.fst)
    (hkeys : (desiredAssets.map Prod.fst).Nodup)
    (hids : (man.assets.map Asset.id).Nodup)
    (i : Nat) (asset : Asset) (desiredAsset : DesiredAsset)
    (hasset : man.assets[i]? = some asset)
    (hdesired : (asset.id, desiredAsset) ∈ desiredAssets) :
    (asset.updateId ≠ desiredAsset.updateId →
      ∃ t, tick ≤ t ∧ t < (handleDeviceStateChange clock tick params (some ds) man).tick ∧
        (handleDeviceStateChange clock tick params (some ds) man).man.assets[i]? =
          some { asset with
            pendingChange := some PendingChange.deploy
            pendingUpdateId := desiredAsset.updateId
            pendingConfig := some desiredAsset.config
            changeTs := clock t }) ∧
    (asset.updateId = desiredAsset.updateId →
      (handleDeviceStateChange clock tick params (some ds) man).man.assets[i]? = some asset) := by
  rw [handleDeviceStateChange_eq clock tick params ds desiredAssets man hevent hinited hmap
    hown]
  obtain ⟨existing, news, hout, hrel⟩ :=
    diffOwnAssets_precise clock tick desiredAssets man.assets hkeys hids
  obtain ⟨a', ha', hr⟩ := forall₂_getElem? hrel i asset hasset
  have hget : (diffOwnAssets clock tick desiredAssets man.assets).assets[i]? = some a' := by
    rw [hout, List.getElem?_append_left, ha']
    by_contra hlt
    rw [List.getElem?_eq_none (not_lt.mp hlt)] at ha'
    exact absurd ha' (by simp)
  simp only [hget]
  constructor
  · intro hne
    obtain ⟨t, ht1, ht2, h⟩ := (hr desiredAsset hdesired).1 hne
    exact ⟨t, ht1, ht2, by rw [h]; rfl⟩
  · intro heq
    rw [(hr desiredAsset hdesired).2 heq]

/-- Witness of C1: `a1` deployed at `v1`, desired state names `a1` at `v2`. -/
theorem handleDeviceStateChange_existing_asset_witness :
    ∃ t, 0 ≤ t ∧
      t < (handleDeviceStateChange sampleClock 0 sampleParams
        (some (sampleDesired "v2" sampleConfig)) (sampleManager [sampleDeployed])).tick ∧
      (handleDeviceStateChange sampleClock 0 sampleParams
        (some (sampleDesired "v2" sampleConfig)) (sampleManager [sampleDeployed])).man.assets[0]? =
        some { sampleDeployed with
          pendingChange := some PendingChange.deploy
          pendingUpdateId := JsString.str "v2"
          pendingConfig := some sampleConfig
          changeTs := sampleClock t } :=
  (handleDeviceStateChange_existing_asset sampleClock 0 sampleParams
    (sampleDesired "v2" sampleConfig) [("a1", ⟨JsString.str "v2", sampleConfig⟩)]
    (sampleManager [sampleDeployed]) (by decide) (by decide) rfl (by decide) (by decide)
    (by decide) 0 sampleDeployed ⟨JsString.str "v2", sampleConfig⟩ rfl (by decide)).1
    (by decide)

/-- Counterexample to C1 as stated: `a1` is deployed at `v1` and the desired asset map
names `a1` at `v2`, next to an asset whose id is `hasOwnProperty`.  The call of line
311 finds that entry instead of the method and throws a `TypeError`: the handler ends
with nothing staged, `a1` has no pending deploy and nothing is reported. -/
theorem handleDeviceStateChange_shadowed_counterexample :
    sampleDesiredShadowed.assets =
        some [("a1", ⟨JsString.str "v2", sampleConfig⟩),
          ("hasOwnProperty", ⟨JsString.str "v2", sampleConfig⟩)] ∧
      sampleDeployed.id = "a1" ∧ sampleDeployed.updateId ≠ JsString.str "v2" ∧
      handleDeviceStateChange sampleClock 0 sampleParams (some sampleDesiredShadowed)
          (sampleManager [sampleDeployed]) =
        ⟨sampleManager [sampleDeployed], [], 0, false, some hasOwnPropertyTypeError⟩ ∧
      sampleDeployed.pendingChange = none := by
  decide

/-- C2, as the code has it.  In `_handleDeviceStateChange`, for a desired asset map
that has no key named `hasOwnProperty` and every key `id` of it that is the id of no
asset in the collection.  If the desired `config.type` is `'file'`: the collection
afterwards is the old collection (same ids, in place) followed by the created assets,
the only asset with that id is the new asset `{type, id, updateId: null, config: null,
state: 'notDeployed', pendingChange: 'deploy', pendingUpdateId, pendingConfig}` with
`changeTs` a clock reading of this run, it lies after the existing assets, and it is
reported as `deployPending`.  For any other `config.type`: the handler logs
`'Unsupported asset type: <type>'` and the collection afterwards has no asset with that
id. -/
theorem handleDeviceStateChange_new_file_asset (clock : Clock) (tick : Nat) (params : Params)
    (ds : DesiredState) (desiredAssets : List (String × DesiredAsset)) (man : AssetManager)
    (hevent : ignoredEvent params = false) (hinited : man.inited = true)
    (hmap : ds.assets = some desiredAssets)
    (hown : "hasOwnProperty" ∉ desiredAssets.map Prod.fst)
    (hkeys : (desiredAssets.map Prod.fst).Nodup)
    (id : String) (desiredAsset : DesiredAsset)
    (hdesired : (id, desiredAsset) ∈ desiredAssets)
    (hnew : id ∉ man.assets.map Asset.id) :
    (desiredAsset.config.type = "file" →
      ∃ t, tick ≤ t ∧ t < (handleDeviceStateChange clock tick params (some ds) man).tick ∧
        ((handleDeviceStateChange clock tick params (some ds) man).man.assets.take
          man.assets.length).map Asset.id = man.assets.map Asset.id ∧
        ({ type := desiredAsset.config.type, id := id, updateId := JsString.null,
           config := none, state := AssetState.notDeployed, changeTs := clock t,
           pendingUpdateId := desiredAsset.updateId,
           pendingChange := some PendingChange.deploy,
           pendingConfig := some desiredAsset.config } : Asset) ∈
          (handleDeviceStateChange clock tick params (some ds) man).man.assets.drop
            man.assets.length ∧
        (handleDeviceStateChange clock tick params (some ds) man).man.assets.filter
            (fun a => decide (a.id = id)) =
          [{ type := desiredAsset.config.type, id := id, updateId := JsString.null,
             config := none, state := AssetState.notDeployed, changeTs := clock t,
             pendingUpdateId := desiredAsset.updateId,
             pendingChange := some PendingChange.deploy,
             pendingConfig := some desiredAsset.config }] ∧
        Effect.reportSet (reportedPath id) JsString.null (clock t) "deployPending" ∈
          (handleDeviceStateChange clock tick params (some ds) man).effects) ∧
    (desiredAsset.config.type ≠ "file" →
      Effect.logError ("Unsupported asset type: " ++ desiredAsset.config.type) ∈
          (handleDeviceStateChange clock tick params (some ds) man).effects ∧
        (∀ a ∈ (handleDeviceStateChange clock tick params (some ds) man).man.assets,
          a.id ≠ id) ∧
        (handleDeviceStateChange clock tick params (some ds) man).man.assets.length =
          man.assets.length +
            (desiredAssets.filter fun e =>
              decide (e.1 ∉ man.assets.map Asset.id) &&
                decide (e.2.config.type = "file")).length) := by
  rw [handleDeviceStateChange_eq clock tick params ds desiredAssets man hevent hinited hmap
    hown]
  obtain ⟨existing, news, hout, hrel, hrelN⟩ :=
    diffOwnAssets_weak clock tick desiredAssets man.assets
  have hlen : existing.length = man.assets.length := hrel.length_eq.symm
  have hidsE : existing.map Asset.id = man.assets.map Asset.id := by
    refine forall₂_map_eq Asset.id Asset.id ?_ hrel
    rintro a b ⟨h1, h2⟩
    by_cases hmem : a.id ∈ desiredAssets.map Prod.fst
    · rcases h2 hmem with h | ⟨d, _, _, t, _, _, h⟩
      · rw [h]
      · rw [h]; rfl
    · obtain ⟨t, _, _, h⟩ := h1 hmem
      rw [h]; rfl
  have hidsN : news.map Asset.id =
      (desiredAssets.filter fun e =>
        decide (e.1 ∉ man.assets.map Asset.id) && decide (e.2.config.type = "file")).map
        Prod.fst := by
    refine forall₂_map_eq Prod.fst Asset.id ?_ hrelN
    rintro e a ⟨t, _, _, h⟩
    rw [h]; rfl
  constructor
  · intro hfile
    have hndN : (news.map Asset.id).Nodup := by
      rw [hidsN]
      exact hkeys.sublist ((List.filter_sublist _).map _)
    have hq : (id, desiredAsset) ∈ desiredAssets.filter fun e =>
        decide (e.1 ∉ man.assets.map Asset.id) && decide (e.2.config.type = "file") := by
      rw [List.mem_filter]
      exact ⟨hdesired, by simp only [Bool.and_eq_true, decide_eq_true_eq]; exact ⟨hnew, hfile⟩⟩
    obtain ⟨a, haN, t, ht1, ht2, ha⟩ := forall₂_mem_left hrelN hq
    have hfilter := filter_eq_singleton_of_nodup_map Asset.id news hndN a haN
    have haid : a.id = id := by rw [ha]; rfl
    rw [haid] at hfilter
    have ha' : a = newFileAsset clock t id desiredAsset := ha
    rw [ha'] at haN hfilter
    refine ⟨t, ht1, ht2, ?_, ?_, ?_, ?_⟩
    · simp only [hout, List.take_left' hlen, hidsE]
    · simp only [hout, List.drop_left' hlen]
      exact haN
    · simp only [hout, List.filter_append, hfilter]
      rw [filter_id_eq_nil (by rw [hidsE]; exact hnew), List.nil_append]
      rfl
    · refine List.mem_append_right _ ?_
      rw [updateReportedAssetsState_eq, hout]
      refine List.mem_map.mpr ⟨_, List.mem_filter.mpr ⟨List.mem_append_right _ haN, rfl⟩, rfl⟩
  · intro htype
    obtain ⟨hno, hlog⟩ := diffOwnAssets_unsupported clock tick desiredAssets man.assets hkeys
      id desiredAsset hdesired hnew htype
    refine ⟨List.mem_append_left _ hlog, ?_, ?_⟩
    · intro a ha heq
      exact hno (heq ▸ List.mem_map_of_mem Asset.id ha)
    · simp only [hout, List.length_append, hlen]
      rw [← hrelN.length_eq]

/-- Witness of C2: the scenario `{a1: {updateId: 'v1', config: {type: 'file', ...}}}`
on an empty collection. -/
theorem handleDeviceStateChange_new_file_asset_witness :
    ∃ t, 0 ≤ t ∧
      t < (handleDeviceStateChange sampleClock 0 sampleParams
        (some (sampleDesired "v1" sampleConfig)) (sampleManager [])).tick ∧
      ((handleDeviceStateChange sampleClock 0 sampleParams
        (some (sampleDesired "v1" sampleConfig)) (sampleManager [])).man.assets.take 0).map
          Asset.id = [] ∧
      ({ type := "file", id := "a1", updateId := JsString.null, config := none,
         state := AssetState.notDeployed, changeTs := sampleClock t,
         pendingUpdateId := JsString.str "v1",
         pendingChange := some PendingChange.deploy,
         pendingConfig := some sampleConfig } : Asset) ∈
        (handleDeviceStateChange sampleClock 0 sampleParams
          (some (sampleDesired "v1" sampleConfig)) (sampleManager [])).man.assets.drop 0 ∧
      (handleDeviceStateChange sampleClock 0 sampleParams
          (some (sampleDesired "v1" sampleConfig)) (sampleManager [])).man.assets.filter
          (fun a => decide (a.id = "a1")) =
        [{ type := "file", id := "a1", updateId := JsString.null, config := none,
           state := AssetState.notDeployed, changeTs := sampleClock t,
           pendingUpdateId := JsString.str "v1",
           pendingChange := some PendingChange.deploy,
           pendingConfig := some sampleConfig }] ∧
      Effect.reportSet (reportedPath "a1") JsString.null (sampleClock t) "deployPending" ∈
        (handleDeviceStateChange sampleClock 0 sampleParams
          (some (sampleDesired "v1" sampleConfig)) (sampleManager [])).effects :=
  (handleDeviceStateChange_new_file_asset sampleClock 0 sampleParams
    (sampleDesired "v1" sampleConfig) [("a1", ⟨JsString.str "v1", sampleConfig⟩)]
    (sampleManager []) (by decide) (by decide) rfl (by decide) (by decide)
    "a1" ⟨JsString.str "v1", sampleConfig⟩ (by decide) (by decide)).1 (by decide)

/-- Counterexample to C2 as stated: `a1` is a key of the desired asset map and the id
of no asset, but its `config.type` is `'dir'`; the handler logs the unsupported type
and creates no asset. -/
theorem handleDeviceStateChange_new_asset_counterexample :
    (sampleDesired "v1" sampleDirConfig).assets =
        some [("a1", ⟨JsString.str "v1", sampleDirConfig⟩)] ∧
      "a1" ∉ (sampleManager []).assets.map Asset.id ∧
      (handleDeviceStateChange sampleClock 0 sampleParams
        (some (sampleDesired "v1" sampleDirConfig)) (sampleManager [])).man.assets = [] ∧
      (handleDeviceStateChange sampleClock 0 sampleParams
        (some (sampleDesired "v1" sampleDirConfig)) (sampleManager [])).effects =
        [Effect.logError "Unsupported asset type: dir"] := by
  decide

/-- C3, as the code has it.  In `_handleDeviceStateChange`, for every desired state
that has an asset map (empty or not) without a key named `hasOwnProperty` and every
asset of the collection whose id is not a key of that map, the asset afterwards is the
old asset with
`pendingChange = 'remove'` and `changeTs` a clock reading made during this run. -/
theorem handleDeviceStateChange_missing_asset (clock : Clock) (tick : Nat) (params : Params)
    (ds : DesiredState) (desiredAssets : List (String × DesiredAsset)) (man : AssetManager)
    (hevent : ignoredEvent params = false) (hinited : man.inited = true)
    (hmap : ds.assets = some desiredAssets)
    (hown : "hasOwnProperty" ∉ desiredAssets.map Prod.fst)
    (i : Nat) (asset : Asset)
    (hasset : man.assets[i]? = some asset)
    (hmissing : asset.id ∉ desiredAssets.map Prod.fst) :
    ∃ t, tick ≤ t ∧ t < (handleDeviceStateChange clock tick params (some ds) man).tick ∧
      (handleDeviceStateChange clock tick params (some ds) man).man.assets[i]? =
        some { asset with pendingChange := some PendingChange.remove, changeTs := clock t } := by
  rw [handleDeviceStateChange_eq clock tick params ds desiredAssets man hevent hinited hmap
    hown]
  obtain ⟨existing, news, hout, hrel, _⟩ := diffOwnAssets_weak clock tick desiredAssets man.assets
  obtain ⟨a', ha', hr⟩ := forall₂_getElem? hrel i asset hasset
  have hget : (diffOwnAssets clock tick desiredAssets man.assets).assets[i]? = some a' := by
    rw [hout, List.getElem?_append_left, ha']
    by_contra hlt
    rw [List.getElem?_eq_none (not_lt.mp hlt)] at ha'
    exact absurd ha' (by simp)
  obtain ⟨t, ht1, ht2, h⟩ := hr.1 hmissing
  exact ⟨t, ht1, ht2, by simp only [hget, h]; rfl⟩

/-- Witness of C3: `a1` deployed, the desired asset map is empty. -/
theorem handleDeviceStateChange_missing_asset_witness :
    ∃ t, 0 ≤ t ∧
      t < (handleDeviceStateChange sampleClock 0 sampleParams (some ⟨some []⟩)
        (sampleManager [sampleDeployed])).tick ∧
      (handleDeviceStateChange sampleClock 0 sampleParams (some ⟨some []⟩)
        (sampleManager [sampleDeployed])).man.assets[0]? =
        some { sampleDeployed with
          pendingChange := some PendingChange.remove, changeTs := sampleClock t } :=
  handleDeviceStateChange_missing_asset sampleClock 0 sampleParams ⟨some []⟩ []
    (sampleManager [sampleDeployed]) (by decide) (by decide) rfl (by decide) 0
    sampleDeployed rfl (by decide)

/-- Counterexample to C3 as stated: the desired state read by the handler has no
asset map (line 304 returns); the asset `a1`, whose id is in no asset map, is left
without a pending remove. -/
theorem handleDeviceStateChange_absent_map_counterexample :
    (handleDeviceStateChange sampleClock 0 sampleParams (some ⟨none⟩)
        (sampleManager [sampleDeployed])).man.assets = [sampleDeployed] ∧
      sampleDeployed.pendingChange ≠ some PendingChange.remove := by
  decide

/-- C4, as the code has it.  For an asset with a pending deploy (ids and keys
pairwise distinct), handling a desired-state event whose asset map has no key named
`hasOwnProperty` and names its id with an `updateId` different from the asset's
committed `updateId` overwrites the staged version: the asset afterwards is the old asset with `pendingUpdateId` and
`pendingConfig` those of that desired state and a new `changeTs`, its one pending
change is still `'deploy'`, and a loop iteration that then processes this asset,
unless the removal of the old version fails, calls `deploy()` with exactly that
version and commits it. -/
theorem handleDeviceStateChange_latest_wins (clock : Clock) (tick : Nat) (params : Params)
    (ds : DesiredState) (desiredAssets : List (String × DesiredAsset)) (man : AssetManager)
    (hevent : ignoredEvent params = false) (hinited : man.inited = true)
    (hmap : ds.assets = some desiredAssets)
    (hown : "hasOwnProperty" ∉ desiredAssets.map Prod.fst)
    (hkeys : (desiredAssets.map Prod.fst).Nodup)
    (hids : (man.assets.map Asset.id).Nodup)
    (i : Nat) (asset : Asset) (desiredAsset : DesiredAsset)
    (hasset : man.assets[i]? = some asset)
    (hpending : asset.pendingChange = some PendingChange.deploy)
    (hdesired : (asset.id, desiredAsset) ∈ desiredAssets)
    (hne : asset.updateId ≠ desiredAsset.updateId) :
    ∃ t staged, tick ≤ t ∧
      t < (handleDeviceStateChange clock tick params (some ds) man).tick ∧
      (handleDeviceStateChange clock tick params (some ds) man).man.assets[i]? = some staged ∧
      staged = { asset with
        pendingUpdateId := desiredAsset.updateId
        pendingConfig := some desiredAsset.config
        changeTs := clock t } ∧
      staged.pendingChange = some PendingChange.deploy ∧
      ∀ o : Outcome, (asset.state = AssetState.deployed → o.removeOk = true) →
        ∃ final, (processPendingChange o staged).1 = some final ∧
          final.updateId = desiredAsset.updateId ∧
          final.config = some desiredAsset.config ∧
          Effect.callDeploy asset.id desiredAsset.updateId (some desiredAsset.config) ∈
            (processPendingChange o staged).2 := by
  rw [handleDeviceStateChange_eq clock tick params ds desiredAssets man hevent hinited hmap
    hown]
  obtain ⟨existing, news, hout, hrel⟩ :=
    diffOwnAssets_precise clock tick desiredAssets man.assets hkeys hids
  obtain ⟨a', ha', hr⟩ := forall₂_getElem? hrel i asset hasset
  have hget : (diffOwnAssets clock tick desiredAssets man.assets).assets[i]? = some a' := by
    rw [hout, List.getElem?_append_left, ha']
    by_contra hlt
    rw [List.getElem?_eq_none (not_lt.mp hlt)] at ha'
    exact absurd ha' (by simp)
  obtain ⟨t, ht1, ht2, h⟩ := (hr desiredAsset hdesired).1 hne
  subst h
  refine ⟨t, _, ht1, ht2, hget, ?_, rfl, ?_⟩
  · obtain ⟨ty, id, uid, cfg, st, ts, puid, pc, pcfg⟩ := asset
    simp only at hpending
    subst hpending
    rfl
  · intro o ho
    by_cases hst : asset.state = AssetState.deployed
    · have hrm := ho hst
      simp [processPendingChange, deployStaged, stageDeploy, hst, hrm]
    · simp [processPendingChange, deployStaged, stageDeploy, hst]

/-- Witness of C4: `a1` deployed at `v1` with a deploy of `v2` pending; the desired
state now names `a1` at `v3`. -/
theorem handleDeviceStateChange_latest_wins_witness :
    ∃ t staged, 0 ≤ t ∧
      t < (handleDeviceStateChange sampleClock 0 sampleParams
        (some (sampleDesired "v3" sampleConfig)) (sampleManager [sampleStaged])).tick ∧
      (handleDeviceStateChange sampleClock 0 sampleParams
        (some (sampleDesired "v3" sampleConfig)) (sampleManager [sampleStaged])).man.assets[0]? =
        some staged ∧
      staged = { sampleStaged with
        pendingUpdateId := JsString.str "v3"
        pendingConfig := some sampleConfig
        changeTs := sampleClock t } ∧
      staged.pendingChange = some PendingChange.deploy ∧
      ∀ o : Outcome, (sampleStaged.state = AssetState.deployed → o.removeOk = true) →
        ∃ final, (processPendingChange o staged).1 = some final ∧
          final.updateId = JsString.str "v3" ∧
          final.config = some sampleConfig ∧
          Effect.callDeploy "a1" (JsString.str "v3") (some sampleConfig) ∈
            (processPendingChange o staged).2 :=
  handleDeviceStateChange_latest_wins sampleClock 0 sampleParams
    (sampleDesired "v3" sampleConfig) [("a1", ⟨JsString.str "v3", sampleConfig⟩)]
    (sampleManager [sampleStaged]) (by decide) (by decide) rfl (by decide) (by decide)
    (by decide) 0 sampleStaged ⟨JsString.str "v3", sampleConfig⟩ rfl rfl (by decide)
    (by decide)

/-- Counterexample to C4 as stated: `a1` is deployed at `v1` and has a deploy of `v2`
pending; the latest desired state names `a1` at `v1` again.  The handler leaves the
pending deploy of `v2` in place, so the version staged is not the one of the latest
desired state. -/
theorem handleDeviceStateChange_latest_wins_counterexample :
    (handleDeviceStateChange sampleClock 0 sampleParams
        (some (sampleDesired "v1" sampleConfig)) (sampleManager [sampleStaged])).man.assets =
        [sampleStaged] ∧
      sampleStaged.pendingChange = some PendingChange.deploy ∧
      sampleStaged.pendingUpdateId = JsString.str "v2" ∧
      sampleStaged.pendingUpdateId ≠ JsString.str "v1" := by
  decide

/-- C5. The diffing step never touches committed asset data: for every collection and
every desired state, `_handleDeviceStateChange` (up to the drain it triggers) leaves
`type`, `id`, `state`, `updateId` and `config` of every pre-existing asset unchanged
and in place; and in a loop iteration of the drain every asset that stays in the
collection keeps its `updateId` and `config`, or it had a pending deploy and they are
the staged `pendingUpdateId` and `pendingConfig`, with which `deploy()` is called. -/
theorem handleDeviceStateChange_frame (clock : Clock) (tick : Nat) (params : Params)
    (desiredState : Option DesiredState) (man : AssetManager) :
    ((handleDeviceStateChange clock tick params desiredState man).man.assets.take
        man.assets.length).map Asset.committed = man.assets.map Asset.committed ∧
    ∀ (o : Outcome) (assets : List Asset), ∀ a' ∈ (drainIteration o assets).1,
      ∃ a ∈ assets, a'.id = a.id ∧
        ((a'.updateId = a.updateId ∧ a'.config = a.config) ∨
          (a.pendingChange = some PendingChange.deploy ∧
            a'.updateId = a.pendingUpdateId ∧ a'.config = a.pendingConfig ∧
            Effect.callDeploy a.id a.pendingUpdateId a.pendingConfig ∈
              (drainIteration o assets).2)) := by
  constructor
  · rcases handleDeviceStateChange_cases clock tick params desiredState man with
      ⟨_, h⟩ | ⟨d, h⟩
    · rw [h]
      simp
    · rw [h]
      exact diffOwnAssets_committed clock tick d man.assets
  · intro o assets a' ha'
    rcases drainIteration_mem o assets a' ha' with h | ⟨a, ha, hr, heff⟩
    · exact ⟨a', h, rfl, Or.inl ⟨rfl, rfl⟩⟩
    · obtain ⟨hid, hv⟩ := processPendingChange_version o a a' hr
      refine ⟨a, ha, hid, ?_⟩
      rcases hv with hv | ⟨h1, h2, h3, h4⟩
      · exact Or.inl hv
      · exact Or.inr ⟨h1, h2, h3, heff _ h4⟩

/-- C6. The state label that `_updateReportedAssetState` writes to the reported path
`'assets.assets.<id>'` is `'deployPending'` when `pendingChange` is `'deploy'`,
`'removePending'` when it is `'remove'`, and equal to `asset.state` exactly when the
asset has no pending change; `_updateReportedAssetsState` pushes this update, in
collection order, for the assets with a pending change and for no other; and what the
handler emits are error-log lines followed, when the diff was made, by exactly these
updates for the collection after the diff. -/
theorem updateReportedAssetState_label (asset : Asset) :
    updateReportedAssetState asset =
        Effect.reportSet ("assets.assets." ++ asset.id) asset.updateId asset.changeTs
          (reportedStateLabel asset) ∧
      reportedStateLabel { asset with pendingChange := some PendingChange.deploy } =
        "deployPending" ∧
      reportedStateLabel { asset with pendingChange := some PendingChange.remove } =
        "removePending" ∧
      (reportedStateLabel asset = asset.state.str ↔ asset.pendingChange = none) ∧
      (∀ assets : List Asset,
        updateReportedAssetsState assets =
          (assets.filter fun a => a.pendingChange.isSome).map updateReportedAssetState) ∧
      ∀ (clock : Clock) (tick : Nat) (params : Params) (desiredState : Option DesiredState)
        (man : AssetManager),
        ∃ errors : List Effect, (∀ e ∈ errors, ∃ msg, e = Effect.logError msg) ∧
          (handleDeviceStateChange clock tick params desiredState man).effects =
            errors ++
              if (handleDeviceStateChange clock tick params desiredState man).drain then
                ((handleDeviceStateChange clock tick params desiredState man).man.assets.filter
                  fun a => a.pendingChange.isSome).map updateReportedAssetState
              else [] := by
  refine ⟨rfl, rfl, rfl, ?_, updateReportedAssetsState_eq, ?_⟩
  · obtain ⟨ty, id, uid, cfg, st, ts, puid, pc, pcfg⟩ := asset
    rcases pc with _ | pc
    · simp [reportedStateLabel]
    · cases pc <;> cases st <;> simp [reportedStateLabel, AssetState.str]
  · intro clock tick params desiredState man
    rcases handleDeviceStateChange_cases clock tick params desiredState man with
      ⟨_, h⟩ | ⟨d, h⟩
    · rw [h]
      exact ⟨[], by simp, by simp⟩
    · rw [h]
      refine ⟨(diffOwnAssets clock tick d man.assets).effects, ?_, ?_⟩
      · simp only [diffOwnAssets]
        exact foldl_diffOwnEntry_effects clock d ⟨man.assets, [], tick, []⟩ (by simp)
      · simp only [if_true, updateReportedAssetsState_eq]

/-! ## The claims about the drain loop -/

/-- C7. One loop iteration whose picked asset has the pending change `'deploy'`.  If
the asset is `deployed` and `remove()` returns false, it is left in `removeFail` with
its old `updateId` and `config` and `deploy()` is not called.  Otherwise `updateId` and
`config` become the staged `pendingUpdateId` and `pendingConfig`, `'deploying'` is
reported, `deploy()` is called exactly once, with the staged version, and the final
state is `deployed` when `deploy()` returned true and `deployFail` when it did not,
which is reported.  In both cases `pendingChange` is cleared and the other assets are
untouched. -/
theorem drainIteration_pending_deploy (o : Outcome) (assets before after : List Asset)
    (asset : Asset)
    (hpick : getFirstPendingChangeAsset (processSimpleRemoves assets).1 =
      some (before, asset, after))
    (hpending : asset.pendingChange = some PendingChange.deploy) :
    (asset.state = AssetState.deployed ∧ o.removeOk = false →
      (drainIteration o assets).1 =
        before ++ { asset with pendingChange := none, state := AssetState.removeFail } :: after ∧
      (drainIteration o assets).2 =
        (processSimpleRemoves assets).2 ++
          [Effect.reportSet (reportedPath asset.id) asset.updateId asset.changeTs "removing",
            Effect.callRemove asset.id,
            saveAssetState (drainIteration o assets).1,
            Effect.delay 2000] ∧
      (drainIteration o assets).2.filter Effect.isCallDeploy = []) ∧
    (¬ (asset.state = AssetState.deployed ∧ o.removeOk = false) →
      (drainIteration o assets).1 =
        before ++
          { asset with
            pendingChange := none
            updateId := asset.pendingUpdateId
            config := asset.pendingConfig
            pendingConfig := none
            state := if o.deployOk then AssetState.deployed else AssetState.deployFail } ::
          after ∧
      (drainIteration o assets).2 =
        (processSimpleRemoves assets).2 ++
          (if asset.state = AssetState.deployed then
            [Effect.reportSet (reportedPath asset.id) asset.updateId asset.changeTs "removing",
              Effect.callRemove asset.id]
          else []) ++
          [Effect.reportSet (reportedPath asset.id) asset.pendingUpdateId asset.changeTs
              "deploying",
            Effect.callDeploy asset.id asset.pendingUpdateId asset.pendingConfig,
            Effect.reportSet (reportedPath asset.id) asset.pendingUpdateId asset.changeTs
              (if o.deployOk then "deployed" else "deployFail"),
            saveAssetState (drainIteration o assets).1,
            Effect.delay 2000] ∧
      (drainIteration o assets).2.filter Effect.isCallDeploy =
        [Effect.callDeploy asset.id asset.pendingUpdateId asset.pendingConfig]) := by
  rw [drainIteration_pick o assets before after asset hpick]
  have hsweep := processSimpleRemoves_no_deploy assets
  constructor
  · rintro ⟨hst, hrm⟩
    rw [processPendingChange_deploy_removeFail o asset hpending hst hrm]
    refine ⟨rfl, by simp, ?_⟩
    simp [List.filter_append, hsweep, List.filter_cons, Effect.isCallDeploy, saveAssetState]
  · intro hnot
    by_cases hst : asset.state = AssetState.deployed
    · have hrm : o.removeOk = true := by
        cases h : o.removeOk
        · exact absurd ⟨hst, h⟩ hnot
        · rfl
      rw [processPendingChange_deploy_redeploy o asset hpending hst hrm]
      refine ⟨rfl, by simp [hst], ?_⟩
      simp [List.filter_append, hsweep, List.filter_cons, Effect.isCallDeploy, saveAssetState]
    · rw [processPendingChange_deploy_fresh o asset hpending hst]
      refine ⟨rfl, by simp [hst], ?_⟩
      simp [List.filter_append, hsweep, List.filter_cons, Effect.isCallDeploy, saveAssetState]

/-- Witness of C7: `a1` deployed at `v1` with a deploy of `v2` pending, `remove()` and
`deploy()` succeed. -/
theorem drainIteration_pending_deploy_witness :
    (drainIteration ⟨true, true⟩ [sampleStaged]).1 =
        [] ++
          { sampleStaged with
            pendingChange := none
            updateId := JsString.str "v2"
            config := some sampleConfig
            pendingConfig := none
            state := AssetState.deployed } ::
          [] ∧
      (drainIteration ⟨true, true⟩ [sampleStaged]).2 =
        (processSimpleRemoves [sampleStaged]).2 ++
          (if sampleStaged.state = AssetState.deployed then
            [Effect.reportSet (reportedPath "a1") (JsString.str "v1") 7 "removing",
              Effect.callRemove "a1"]
          else []) ++
          [Effect.reportSet (reportedPath "a1") (JsString.str "v2") 7 "deploying",
            Effect.callDeploy "a1" (JsString.str "v2") (some sampleConfig),
            Effect.reportSet (reportedPath "a1") (JsString.str "v2") 7 "deployed",
            saveAssetState (drainIteration ⟨true, true⟩ [sampleStaged]).1,
            Effect.delay 2000] ∧
      (drainIteration ⟨true, true⟩ [sampleStaged]).2.filter Effect.isCallDeploy =
        [Effect.callDeploy "a1" (JsString.str "v2") (some sampleConfig)] :=
  (drainIteration_pending_deploy ⟨true, true⟩ [sampleStaged] [] [] sampleStaged rfl rfl).2
    (by decide)

/-- C8. One loop iteration whose picked asset has the pending change `'remove'` and
the state `deployed`: `'removing'` is reported and `remove()` is called; if it returns
true the asset is dropped from the collection and its reported-state path is removed;
if it returns false the asset stays, in place, in state `removeFail`.  And in every
iteration a deployed asset whose id is no longer in the collection afterwards had a
pending remove, `remove()` was called on it and returned true, and its reported-state
path was removed. -/
theorem drainIteration_pending_remove_deployed (o : Outcome) (assets before after : List Asset)
    (asset : Asset)
    (hpick : getFirstPendingChangeAsset (processSimpleRemoves assets).1 =
      some (before, asset, after))
    (hpending : asset.pendingChange = some PendingChange.remove)
    (hstate : asset.state = AssetState.deployed) :
    (drainIteration o assets).2 =
      (processSimpleRemoves assets).2 ++
        [Effect.reportSet (reportedPath asset.id) asset.updateId asset.changeTs "removing",
          Effect.callRemove asset.id] ++
        (if o.removeOk then [Effect.reportRemove (reportedPath asset.id)] else []) ++
        [saveAssetState (drainIteration o assets).1, Effect.delay 2000] ∧
    (o.removeOk = true → (drainIteration o assets).1 = before ++ after) ∧
    (o.removeOk = false →
      (drainIteration o assets).1 =
        before ++ { asset with pendingChange := none, state := AssetState.removeFail } ::
          after) ∧
    (∀ (o' : Outcome) (assets' : List Asset) (a : Asset), a ∈ assets' →
      a.state = AssetState.deployed → a.id ∉ (drainIteration o' assets').1.map Asset.id →
        a.pendingChange = some PendingChange.remove ∧ o'.removeOk = true ∧
        Effect.callRemove a.id ∈ (drainIteration o' assets').2 ∧
        Effect.reportRemove (reportedPath a.id) ∈ (drainIteration o' assets').2) := by
  refine ⟨?_, ?_, ?_, ?_⟩
  · rw [drainIteration_pick o assets before after asset hpick]
    cases hrm : o.removeOk
    · rw [processPendingChange_remove_removeFail o asset hpending hstate hrm]
      simp
    · rw [processPendingChange_remove_removed o asset hpending hstate hrm]
      simp
  · intro hrm
    rw [drainIteration_pick o assets before after asset hpick,
      processPendingChange_remove_removed o asset hpending hstate hrm]
  · intro hrm
    rw [drainIteration_pick o assets before after asset hpick,
      processPendingChange_remove_removeFail o asset hpending hstate hrm]
  · intro o' assets' a ha hst hdropped
    rcases drainIteration_dropped o' assets' a ha hdropped with ⟨_, h, _⟩ | ⟨hnone, heff⟩
    · rw [hst] at h
      exact absurd h (by decide)
    · obtain ⟨h1, h2, h3⟩ := processPendingChange_none o' a hnone
      rcases h2 with h2 | ⟨h2, h4⟩
      · exact absurd hst h2
      · exact ⟨h1, h2, heff _ h4, heff _ h3⟩

/-- Witness of C8: `a1` deployed with a remove pending, `remove()` succeeds. -/
theorem drainIteration_pending_remove_deployed_witness :
    (drainIteration ⟨true, true⟩ [sampleRemovePending]).2 =
      (processSimpleRemoves [sampleRemovePending]).2 ++
        [Effect.reportSet (reportedPath "a1") (JsString.str "v1") 7 "removing",
          Effect.callRemove "a1"] ++
        (if (⟨true, true⟩ : Outcome).removeOk then [Effect.reportRemove (reportedPath "a1")]
          else []) ++
        [saveAssetState (drainIteration ⟨true, true⟩ [sampleRemovePending]).1,
          Effect.delay 2000] ∧
    (drainIteration ⟨true, true⟩ [sampleRemovePending]).1 = [] ++ [] :=
  ⟨(drainIteration_pending_remove_deployed ⟨true, true⟩ [sampleRemovePending] [] []
      sampleRemovePending rfl rfl rfl).1,
    (drainIteration_pending_remove_deployed ⟨true, true⟩ [sampleRemovePending] [] []
      sampleRemovePending rfl rfl rfl).2.1 rfl⟩

/-- C9, as the code has it.  For every collection and every outcome of the `remove()`
and `deploy()` calls, an asset whose id is no longer in the collection after a loop
iteration had a pending remove, and either its state was not `deployed` (no `remove()`
call is made on it) or `remove()` was called on it in that iteration and returned
true. -/
theorem drainIteration_drops_only_removed (o : Outcome) (assets : List Asset) (a : Asset)
    (ha : a ∈ assets) (hdropped : a.id ∉ (drainIteration o assets).1.map Asset.id) :
    a.pendingChange = some PendingChange.remove ∧
      (a.state ≠ AssetState.deployed ∨
        (o.removeOk = true ∧ Effect.callRemove a.id ∈ (drainIteration o assets).2)) := by
  rcases drainIteration_dropped o assets a ha hdropped with ⟨h1, h2, _⟩ | ⟨hnone, heff⟩
  · exact ⟨h1, Or.inl (by rw [h2]; decide)⟩
  · obtain ⟨h1, h2, _⟩ := processPendingChange_none o a hnone
    refine ⟨h1, ?_⟩
    rcases h2 with h2 | ⟨h2, h4⟩
    · exact Or.inl h2
    · exact Or.inr ⟨h2, heff _ h4⟩

/-- Witness of C9: `a1` deployed with a remove pending, `remove()` succeeds. -/
theorem drainIteration_drops_only_removed_witness :
    sampleRemovePending.pendingChange = some PendingChange.remove ∧
      (sampleRemovePending.state ≠ AssetState.deployed ∨
        ((⟨true, true⟩ : Outcome).removeOk = true ∧
          Effect.callRemove sampleRemovePending.id ∈
            (drainIteration ⟨true, true⟩ [sampleRemovePending]).2)) :=
  drainIteration_drops_only_removed ⟨true, true⟩ [sampleRemovePending] sampleRemovePending
    (by decide) (by decide)

/-- Counterexample to C9 as stated: `a1` is in `deployFail` with a remove pending.
The loop iteration drops it from the collection although its state is not
`notDeployed` and `remove()` is not called on it (here it would even have failed). -/
theorem drainIteration_drops_failed_counterexample :
    sampleFailedRemovePending.state = AssetState.deployFail ∧
      (drainIteration ⟨false, false⟩ [sampleFailedRemovePending]).1 = [] ∧
      (drainIteration ⟨false, false⟩ [sampleFailedRemovePending]).2.filter
        Effect.isCallRemove = [] := by
  decide

/-- C10 at the failing input: `a1` is deployed with a remove pending and `remove()`
returns false.  The iteration sets the state `removeFail`, but the only update of the
reported-state path of `a1` carries `'removing'`: the transition to `removeFail` is
followed by the snapshot save and the delay, not by a reported-state update. -/
theorem drainIteration_removeFail_unreported :
    drainIteration ⟨false, true⟩ [sampleRemovePending] =
      ([{ sampleRemovePending with pendingChange := none, state := AssetState.removeFail }],
        [Effect.reportSet "assets.assets.a1" (JsString.str "v1") 7 "removing",
          Effect.callRemove "a1",
          Effect.saveAssetState
            [{ type := "file", id := "a1", updateId := JsString.str "v1",
               state := AssetState.removeFail, changeTs := 7, config := some sampleConfig }],
          Effect.delay 2000]) := by
  decide

/-! ## The claims about the whole drain, the snapshot and the file asset -/

/-- C11, as the code has it.  For the collection produced by diffing a desired state
whose asset map has no key named `hasOwnProperty` (ids and keys pairwise distinct) and
every outcome of the `deploy()` and `remove()` calls, with no further event
arriving and the processing flag clear,
`_processPendingAssets` terminates (one evaluation of the loop condition more than
there are pending assets is enough), leaves no asset with a pending change and the
processing flag clear, and leaves no path of an asset that had a pending deploy or
remove with the label `deployPending` or `removePending`.  Every id of the desired
state for which the diff staged a deploy (a new id of type `'file'`, or an asset with
another `updateId`) ends with the desired version committed, in state `deployed` or
`deployFail`, and with that state as its reported label; except that an asset that was
deployed and whose old version `remove()` failed to remove ends in `removeFail`. -/
theorem processPendingAssets_after_diff (clock : Clock) (tick : Nat) (params : Params)
    (ds : DesiredState) (desiredAssets : List (String × DesiredAsset)) (man : AssetManager)
    (oracle : Nat → Outcome) (fuel : Nat) (out : Handled)
    (hevent : ignoredEvent params = false) (hinited : man.inited = true)
    (hmap : ds.assets = some desiredAssets)
    (hown : "hasOwnProperty" ∉ desiredAssets.map Prod.fst)
    (hkeys : (desiredAssets.map Prod.fst).Nodup)
    (hids : (man.assets.map Asset.id).Nodup)
    (hidle : man.processingAssetState = false)
    (hout : out = handleDeviceStateChange clock tick params (some ds) man)
    (hfuel : pendingCount out.man.assets < fuel) :
    ∃ final effects,
      processPendingAssets oracle fuel out.man = some (final, effects) ∧
      final.processingAssetState = false ∧
      (∀ a ∈ final.assets, a.pendingChange = none) ∧
      (∀ a ∈ out.man.assets,
        a.pendingChange = some PendingChange.deploy ∨
          a.pendingChange = some PendingChange.remove →
        ∀ cur,
          reportedLabelAfter (reportedPath a.id) cur (out.effects ++ effects) ≠
              some "deployPending" ∧
            reportedLabelAfter (reportedPath a.id) cur (out.effects ++ effects) ≠
              some "removePending") ∧
      (∀ id d, (id, d) ∈ desiredAssets →
        ((id ∉ man.assets.map Asset.id ∧ d.config.type = "file") ∨
          ∃ a ∈ man.assets, a.id = id ∧ a.updateId ≠ d.updateId) →
        ∀ cur, ∃ a' ∈ final.assets, a'.id = id ∧
          (((a'.state = AssetState.deployed ∨ a'.state = AssetState.deployFail) ∧
              a'.updateId = d.updateId ∧ a'.config = some d.config ∧
              reportedLabelAfter (reportedPath id) cur (out.effects ++ effects) =
                some a'.state.str) ∨
            (a'.state = AssetState.removeFail ∧
              ∃ a ∈ man.assets, a.id = id ∧ a.state = AssetState.deployed))) := by
  rw [handleDeviceStateChange_eq clock tick params ds desiredAssets man hevent hinited hmap
    hown] at hout
  subst hout
  simp only at hfuel ⊢
  have hnd := diffOwnAssets_nodup clock tick desiredAssets man.assets hkeys hids
  obtain ⟨r, hr⟩ := processPendingAssetsLoop_terminates oracle fuel 0 _ hfuel
  obtain ⟨finalAssets, effects⟩ := r
  refine ⟨{ man with assets := finalAssets, processingAssetState := false }, effects, ?_, rfl,
    ?_, ?_, ?_⟩
  · simp [processPendingAssets, hidle, hr]
  · exact processPendingAssetsLoop_no_pending oracle _ _ _ _ _ hr
  · intro a ha hp cur
    rw [reportedLabelAfter_append]
    have htouch := processPendingAssetsLoop_touches oracle _ _ _ _ _ hr a ha hp
    have hlab := (reportedLabelAfter_of_touched (reportedPath a.id)
      (fun label => label = "removing" ∨ label = "deploying" ∨ label = "deployed" ∨
        label = "deployFail") effects
      (processPendingAssetsLoop_labels oracle _ _ _ _ _ hr)).2 htouch
      (reportedLabelAfter (reportedPath a.id) cur
        ((diffOwnAssets clock tick desiredAssets man.assets).effects ++
          updateReportedAssetsState (diffOwnAssets clock tick desiredAssets man.assets).assets))
    rcases hlab with h | ⟨label, h, hl⟩
    · rw [h]; simp
    · rw [h]
      rcases hl with hl | hl | hl | hl <;> rw [hl] <;> decide
  · intro id d hd hstaged cur
    obtain ⟨a, ha, hid, hp, hpu, hpcfg, hst⟩ :=
      diffOwnAssets_staged clock tick desiredAssets man.assets hkeys hids id d hd hstaged
    obtain ⟨a', hfin, hid', _, hres⟩ := processPendingAssetsLoop_deploy oracle _ _ _ _ _ hr hnd
      a ha hp (reportedLabelAfter (reportedPath a.id) cur
        ((diffOwnAssets clock tick desiredAssets man.assets).effects ++
          updateReportedAssetsState (diffOwnAssets clock tick desiredAssets man.assets).assets))
    refine ⟨a', hfin, by rw [hid', hid], ?_⟩
    rw [reportedLabelAfter_append, ← hid]
    rcases hres with ⟨h1, h2, h3, h4⟩ | ⟨h1, h2, _, _, _⟩
    · exact Or.inl ⟨h1, by rw [h2, hpu], by rw [h3, hpcfg], h4⟩
    · refine Or.inr ⟨h2, ?_⟩
      rw [hid]
      exact hst h1

/-- Witness of C11: the desired state names the new file asset `a1` on an empty
collection and every call succeeds. -/
theorem processPendingAssets_after_diff_witness :
    ∃ final effects,
      processPendingAssets (fun _ => ⟨true, true⟩) 2
        (handleDeviceStateChange sampleClock 0 sampleParams
          (some (sampleDesired "v1" sampleConfig)) (sampleManager [])).man =
        some (final, effects) ∧
      final.processingAssetState = false ∧
      (∀ a ∈ final.assets, a.pendingChange = none) ∧
      (∀ a ∈ (handleDeviceStateChange sampleClock 0 sampleParams
          (some (sampleDesired "v1" sampleConfig)) (sampleManager [])).man.assets,
        a.pendingChange = some PendingChange.deploy ∨
          a.pendingChange = some PendingChange.remove →
        ∀ cur,
          reportedLabelAfter (reportedPath a.id) cur
              ((handleDeviceStateChange sampleClock 0 sampleParams
                (some (sampleDesired "v1" sampleConfig)) (sampleManager [])).effects ++
                effects) ≠ some "deployPending" ∧
            reportedLabelAfter (reportedPath a.id) cur
              ((handleDeviceStateChange sampleClock 0 sampleParams
                (some (sampleDesired "v1" sampleConfig)) (sampleManager [])).effects ++
                effects) ≠ some "removePending") ∧
      (∀ id d, (id, d) ∈ [("a1", (⟨JsString.str "v1", sampleConfig⟩ : DesiredAsset))] →
        ((id ∉ (sampleManager []).assets.map Asset.id ∧ d.config.type = "file") ∨
          ∃ a ∈ (sampleManager []).assets, a.id = id ∧ a.updateId ≠ d.updateId) →
        ∀ cur, ∃ a' ∈ final.assets, a'.id = id ∧
          (((a'.state = AssetState.deployed ∨ a'.state = AssetState.deployFail) ∧
              a'.updateId = d.updateId ∧ a'.config = some d.config ∧
              reportedLabelAfter (reportedPath id) cur
                ((handleDeviceStateChange sampleClock 0 sampleParams
                  (some (sampleDesired "v1" sampleConfig)) (sampleManager [])).effects ++
                  effects) = some a'.state.str) ∨
            (a'.state = AssetState.removeFail ∧
              ∃ a ∈ (sampleManager []).assets, a.id = id ∧
                a.state = AssetState.deployed))) :=
  processPendingAssets_after_diff sampleClock 0 sampleParams
    (sampleDesired "v1" sampleConfig) [("a1", ⟨JsString.str "v1", sampleConfig⟩)]
    (sampleManager []) (fun _ => ⟨true, true⟩) 2 _
    (by decide) (by decide) rfl (by decide) (by decide) (by decide) rfl rfl (by decide)

/-- Counterexample to C11 as stated: `a1` is deployed at `v1`, the desired state names
`a1` at `v2`, and `remove()` of the old version fails.  The drain ends with `a1` in
`removeFail` and `'removing'` as the last label reported for it: an id of the desired
state whose reported state is neither `deployed` nor `deployFail`. -/
theorem processPendingAssets_removeFail_counterexample :
    (processPendingAssets (fun _ => ⟨false, true⟩) 2
        (handleDeviceStateChange sampleClock 0 sampleParams
          (some (sampleDesired "v2" sampleConfig)) (sampleManager [sampleDeployed])).man).map
      (fun r =>
        (r.1.processingAssetState, r.1.assets.map fun a => (a.id, a.state, a.pendingChange),
          reportedLabelAfter (reportedPath "a1") none
            ((handleDeviceStateChange sampleClock 0 sampleParams
              (some (sampleDesired "v2" sampleConfig))
              (sampleManager [sampleDeployed])).effects ++ r.2))) =
      some (false, [("a1", AssetState.removeFail, none)], some "removing") := by
  rfl

/-- C12. Durable snapshot round trip: for every collection of file assets, what
`_saveAssetState` writes is the serialization (`type`, `id`, `updateId`, `state`,
`changeTs`, `config`, no pending field) of the assets whose state is `deployed`,
`deployFail` or `removeFail`, in collection order, and loading it into an empty
collection yields exactly these assets, in that order, each with the same `type`, `id`,
`updateId`, `state`, `changeTs` and `config` and with nothing pending; no error is
thrown. -/
theorem loadAssetState_saveAssetState (clock : Clock) (tick : Nat) (assets : List Asset)
    (hfile : ∀ a ∈ assets, a.type = "file") :
    saveAssetState assets =
        Effect.saveAssetState
          ((assets.filter fun a =>
            a.state = AssetState.deployed ∨ a.state = AssetState.deployFail ∨
              a.state = AssetState.removeFail).map Asset.serialize) ∧
      (∀ s ∈ (assets.filter fun a =>
            a.state = AssetState.deployed ∨ a.state = AssetState.deployFail ∨
              a.state = AssetState.removeFail).map Asset.serialize,
        ∃ a ∈ assets, s = ⟨a.type, a.id, a.updateId, a.state, a.changeTs, a.config⟩ ∧
          (a.state = AssetState.deployed ∨ a.state = AssetState.deployFail ∨
            a.state = AssetState.removeFail)) ∧
      loadAssetState clock tick
          (some ((assets.filter fun a =>
            a.state = AssetState.deployed ∨ a.state = AssetState.deployFail ∨
              a.state = AssetState.removeFail).map Asset.serialize)) [] =
        ((assets.filter fun a =>
            a.state = AssetState.deployed ∨ a.state = AssetState.deployFail ∨
              a.state = AssetState.removeFail).map fun a =>
            { a with
              pendingUpdateId := JsString.undefined
              pendingChange := none
              pendingConfig := none },
          tick + (assets.filter fun a =>
            a.state = AssetState.deployed ∨ a.state = AssetState.deployFail ∨
              a.state = AssetState.removeFail).length,
          none) := by
  refine ⟨rfl, ?_, ?_⟩
  · intro s hs
    obtain ⟨a, ha, rfl⟩ := List.mem_map.mp hs
    obtain ⟨ha1, ha2⟩ := List.mem_filter.mp ha
    exact ⟨a, ha1, rfl, by simpa using ha2⟩
  · simp only [loadAssetState]
    rw [loadSerializedAssets_serialize clock _
      (fun a ha => hfile a (List.mem_filter.mp ha).1) tick []]
    rfl

/-- Witness of C12: a collection with a deployed asset and an asset that was never
deployed. -/
theorem loadAssetState_saveAssetState_witness :
    saveAssetState [sampleStaged, sampleNew] =
        Effect.saveAssetState
          (([sampleStaged, sampleNew].filter fun a =>
            a.state = AssetState.deployed ∨ a.state = AssetState.deployFail ∨
              a.state = AssetState.removeFail).map Asset.serialize) ∧
      (∀ s ∈ ([sampleStaged, sampleNew].filter fun a =>
            a.state = AssetState.deployed ∨ a.state = AssetState.deployFail ∨
              a.state = AssetState.removeFail).map Asset.serialize,
        ∃ a ∈ [sampleStaged, sampleNew],
          s = ⟨a.type, a.id, a.updateId, a.state, a.changeTs, a.config⟩ ∧
          (a.state = AssetState.deployed ∨ a.state = AssetState.deployFail ∨
            a.state = AssetState.removeFail)) ∧
      loadAssetState sampleClock 0
          (some (([sampleStaged, sampleNew].filter fun a =>
            a.state = AssetState.deployed ∨ a.state = AssetState.deployFail ∨
              a.state = AssetState.removeFail).map Asset.serialize)) [] =
        (([sampleStaged, sampleNew].filter fun a =>
            a.state = AssetState.deployed ∨ a.state = AssetState.deployFail ∨
              a.state = AssetState.removeFail).map fun a =>
            { a with
              pendingUpdateId := JsString.undefined
              pendingChange := none
              pendingConfig := none },
          0 + ([sampleStaged, sampleNew].filter fun a =>
            a.state = AssetState.deployed ∨ a.state = AssetState.deployFail ∨
              a.state = AssetState.removeFail).length,
          none) :=
  loadAssetState_saveAssetState sampleClock 0 [sampleStaged, sampleNew] (by decide)

/-- C13 at the failing input: the new file asset `a1` declares the integrity
`c2hhMjU2`, and the download completes with a file whose digest is another one.
`_verify` of `file-asset.js` raises on that file, but `deploy()` of the `FileAsset` that
the engine instantiates (`asset-manager.js`, lines 110-151) computes no digest and
returns true, and the loop iteration sets the asset to `deployed`. -/
theorem deployFileAsset_ignores_integrity :
    sampleSha256 "tampered" ≠ sampleConfig.fileTypeConfig.integrity ∧
      deployFileAsset "asset-data" sampleTamperedDownload []
          { sampleNew with config := some sampleConfig } =
        (true, [("asset-data/bin/tool.sh", "tampered")]) ∧
      verifyFile sampleSha256 [("asset-data/bin/tool.sh", "tampered")]
          "asset-data/bin/tool.sh" sampleConfig.fileTypeConfig.integrity =
        Except.error
          "File integrity mismatch: expected:c2hhMjU2, calculated:sha256-of-tampered" ∧
      (drainIteration
          ⟨true, (deployFileAsset "asset-data" sampleTamperedDownload []
            { sampleNew with config := some sampleConfig }).1⟩ [sampleNew]).1 =
        [{ sampleNew with
            pendingChange := none
            updateId := JsString.str "v1"
            config := some sampleConfig
            pendingConfig := none
            state := AssetState.deployed }] := by
  refine ⟨by decide, by rfl, by rfl, by rfl⟩

/-- C14 at the failing input: `a1` is deployed with a remove pending and no file exists
at its destination path.  `_delete` of `file-asset.js` succeeds without deleting
anything, but `remove()` of the `FileAsset` that the engine instantiates
(`asset-manager.js`, lines 154-165) calls `fs.unlinkSync` on the absent file, catches
the error and returns false, and the loop iteration sets the asset to `removeFail`. -/
theorem removeFileAsset_absent_file :
    filePath "asset-data" sampleRemovePending = some "asset-data/bin/tool.sh" ∧
      existsSync [] "asset-data/bin/tool.sh" = false ∧
      deleteFile [] "asset-data/bin/tool.sh" = Except.ok [] ∧
      removeFileAsset "asset-data" [] sampleRemovePending = (Except.ok false, []) ∧
      (drainIteration ⟨false, true⟩ [sampleRemovePending]).1 =
        [{ sampleRemovePending with
            pendingChange := none, state := AssetState.removeFail }] := by
  refine ⟨by rfl, by rfl, by rfl, by rfl, by rfl⟩

/-! ## The claims about the Node-RED supervisor -/

/-- C15. Crash-counter step of the exit handler (ceiling 5, window 5 s): on an
unexpected exit (`code !== 0`) at time `now`, the new `_exceptionRetryCount` is the old
count + 1 if the previous `_lastRetryTimestamp` is less than 5000 ms before `now` and 0
otherwise, `_lastRetryTimestamp` becomes `now`, and an automatic restart (the timer
that calls `_startService` after 1 second) is scheduled if and only if the new count is
below 5. -/
theorem onExit_crash_counter (child : Child) (code : Option Nat) (now : Nat)
    (c : NodeREDController) (hcode : code ≠ some 0) :
    (onExit child code now c).1.exceptionRetryCount =
        (if (now : Int) - (c.lastRetryTimestamp : Int) < 5000 then c.exceptionRetryCount + 1
          else 0) ∧
      (onExit child code now c).1.lastRetryTimestamp = now ∧
      (onExit child code now c).2 =
        (if (onExit child code now c).1.exceptionRetryCount < 5 then
          [SupEffect.scheduleStart child.editSession 1000, SupEffect.removePIDFile]
        else [SupEffect.removePIDFile]) ∧
      ((onExit child code now c).2.any SupEffect.isScheduleStart = true ↔
        (onExit child code now c).1.exceptionRetryCount < maxRetryCount) := by
  rw [onExit_unexpected child code now c hcode]
  have hwin : ((now : Int) - (c.lastRetryTimestamp : Int) < 5000) ↔
      now < c.lastRetryTimestamp + 5000 := by omega
  refine ⟨?_, rfl, rfl, ?_⟩
  · simp only [hwin]
  · simp only [maxRetryCount]
    split_ifs <;> simp [SupEffect.isScheduleStart] <;> omega

/-- Witness of C15: a second crash 1.2 s after the first. -/
theorem onExit_crash_counter_witness :
    (onExit ⟨some 41, none⟩ (some 1) 1200 sampleController).1.exceptionRetryCount =
        (if ((1200 : Nat) : Int) - (sampleController.lastRetryTimestamp : Int) < 5000 then
          sampleController.exceptionRetryCount + 1
          else 0) ∧
      (onExit ⟨some 41, none⟩ (some 1) 1200 sampleController).1.lastRetryTimestamp = 1200 ∧
      (onExit ⟨some 41, none⟩ (some 1) 1200 sampleController).2 =
        (if (onExit ⟨some 41, none⟩ (some 1) 1200 sampleController).1.exceptionRetryCount < 5
        then
          [SupEffect.scheduleStart (⟨some 41, none⟩ : Child).editSession 1000,
            SupEffect.removePIDFile]
        else [SupEffect.removePIDFile]) ∧
      ((onExit ⟨some 41, none⟩ (some 1) 1200 sampleController).2.any
          SupEffect.isScheduleStart = true ↔
        (onExit ⟨some 41, none⟩ (some 1) 1200 sampleController).1.exceptionRetryCount <
          maxRetryCount) :=
  onExit_crash_counter ⟨some 41, none⟩ (some 1) 1200 sampleController (by decide)

/-- C16. Crash loop over a sequence of exits: for every supervisor and every sequence
of unexpected exits each less than 5000 ms after the previous one, the counter grows by
one with each exit and a restart is scheduled after an exit exactly when the counter is
then below 5; so from the initial counter 0, five such exits schedule a restart after
each of the first four and none after the fifth.  And from any counter value, an
unexpected exit 5000 ms or more after the previous one resets the counter to 0 and a
restart is scheduled. -/
theorem crashes_stop_at_ceiling (child : Child) (c : NodeREDController)
    (exits : List (Option Nat × Nat))
    (hwindow : withinWindow c.lastRetryTimestamp exits = true) :
    (crashes child c exits).1.exceptionRetryCount = c.exceptionRetryCount + exits.length ∧
      (crashes child c exits).2 =
        ((List.range exits.length).map fun i =>
          decide (c.exceptionRetryCount + i + 1 < maxRetryCount)) ∧
      (c.exceptionRetryCount = 0 → exits.length = maxRetryCount →
        (crashes child c exits).2 = [true, true, true, true, false]) ∧
      (∀ (c' : NodeREDController) (code : Option Nat) (now : Nat), code ≠ some 0 →
        c'.lastRetryTimestamp + maxRetryCountResetInterval * 1000 ≤ now →
          (onExit child code now c').1.exceptionRetryCount = 0 ∧
          (onExit child code now c').2 =
            [SupEffect.scheduleStart child.editSession 1000, SupEffect.removePIDFile]) := by
  obtain ⟨h1, h2⟩ := crashes_within_window child exits c hwindow
  refine ⟨h1, h2, ?_, ?_⟩
  · intro hzero hlen
    rw [h2, hzero, hlen]
    decide
  · intro c' code now hcode hlate
    rw [onExit_unexpected child code now c' hcode]
    simp only [maxRetryCountResetInterval] at hlate
    have hnot : ¬ now < c'.lastRetryTimestamp + 5000 := by omega
    simp [hnot]

/-- Witness of C16: five crashes one second apart on a new supervisor. -/
theorem crashes_stop_at_ceiling_witness :
    (crashes ⟨some 41, none⟩ sampleController
        [(some 1, 1000), (some 1, 2000), (none, 3000), (some 1, 4000),
          (some 1, 5000)]).2 = [true, true, true, true, false] :=
  (crashes_stop_at_ceiling ⟨some 41, none⟩ sampleController
    [(some 1, 1000), (some 1, 2000), (none, 3000), (some 1, 4000), (some 1, 5000)]
    (by decide)).2.2.1 rfl rfl

/-- C17, as the code has it.  When the service is stopped by `_shutdownService` and the
child ends with exit code 0, the exit is not handled as a crash: `_exceptionRetryCount`
and `_lastRetryTimestamp` are unchanged, no automatic restart is scheduled and `_cproc`
is `null`. -/
theorem shutdownService_clean_exit (now : Nat) (c : NodeREDController) :
    (shutdownService (some 0, now) c).1 = { c with cproc := none } ∧
      (shutdownService (some 0, now) c).1.exceptionRetryCount = c.exceptionRetryCount ∧
      (shutdownService (some 0, now) c).1.lastRetryTimestamp = c.lastRetryTimestamp ∧
      (shutdownService (some 0, now) c).2.any SupEffect.isScheduleStart = false := by
  cases hc : c.cproc with
  | none =>
    have h : shutdownService (some 0, now) c = (c, []) := by simp [shutdownService, hc]
    rw [h]
    refine ⟨?_, rfl, rfl, rfl⟩
    obtain ⟨d, cmd, args, ks, ap, cp, cnt, last, allow, env⟩ := c
    simp only at hc
    subst hc
    rfl
  | some child =>
    have h : shutdownService (some 0, now) c =
        ({ c with cproc := none }, [SupEffect.kill c.killSignal, SupEffect.removePIDFile]) := by
      simp [shutdownService, hc, onExit_clean]
    rw [h]
    exact ⟨rfl, rfl, rfl, rfl⟩

/-- Counterexample to C17 as stated: the service is stopped by `_shutdownService` and
the child is ended by the kill signal (exit code `null`) 1.2 s after the previous
timestamp.  The exit handler counts the exit as a crash and schedules an automatic
restart. -/
theorem shutdownService_signal_counterexample :
    sampleController.exceptionRetryCount = 0 ∧
      (shutdownService (none, 1200) sampleController).1.exceptionRetryCount = 1 ∧
      (shutdownService (none, 1200) sampleController).1.lastRetryTimestamp = 1200 ∧
      (shutdownService (none, 1200) sampleController).2 =
        [SupEffect.kill "SIGINT", SupEffect.scheduleStart none 1000,
          SupEffect.removePIDFile] := by
  decide

/-- C18. For every sequence of calls of the public operations, interleaved in any way
with the settling of the running actions, the queued actions run one at a time and in
submission order: at most one action is running and at most one drain is alive, the
actions called so far followed by the queued ones are the submitted ones in order; a
call made while `_isProcessing` is set only appends its action; and whenever a step
calls an action, that action is the one at the front of `_actions` and it is the only
one running. -/
theorem queueRun_one_at_a_time {α : Type} [DecidableEq α] (events : List (QueueEvent α))
    (q : ActionQueue α) (hrun : queueRun (ActionQueue.init α) events = some q) :
    q.running.length ≤ 1 ∧ q.running.length + q.ended ≤ 1 ∧
      q.started ++ q.actions = q.submitted ∧
      (∀ fn, q.isProcessing = true →
        queueAction fn q =
          { q with actions := q.actions ++ [fn], submitted := q.submitted ++ [fn] }) ∧
      (∀ e q', queueStep q e = some q' →
        q'.started = q.started ∨
          ∃ fn, q'.started = q.started ++ [fn] ∧ q'.running = [fn] ∧
            (q.actions ++ e.pushed).head? = some fn) := by
  have hinit : QueueInv (ActionQueue.init α) :=
    ⟨by simp [ActionQueue.init], by simp [ActionQueue.init], by simp [ActionQueue.init]⟩
  have hinv := queueRun_inv events _ q hinit hrun
  refine ⟨by have := hinv.1; omega, hinv.1, hinv.2.2, ?_, ?_⟩
  · intro fn hp
    simp [queueAction, hp]
  · intro e q' hstep
    rcases queueStep_front q q' e hstep with h | ⟨fn, h1, h2, h3⟩
    · exact Or.inl h
    · exact Or.inr ⟨fn, h1, (running_eq_singleton (queueStep_inv q q' e hinv hstep) h2).1, h3⟩

/-- Witness of C18: two calls, the second while the first action runs; then both
actions resolve. -/
theorem queueRun_one_at_a_time_witness :
    (⟨[], true, [2], 0, [1, 2], [1, 2]⟩ : ActionQueue Nat).running.length ≤ 1 ∧
      (⟨[], true, [2], 0, [1, 2], [1, 2]⟩ : ActionQueue Nat).started = [1, 2] :=
  ⟨(queueRun_one_at_a_time
      [QueueEvent.call 1, QueueEvent.call 2, QueueEvent.resolved 1]
      (⟨[], true, [2], 0, [1, 2], [1, 2]⟩ : ActionQueue Nat) (by decide)).1, rfl⟩

/-- C19, as the code has it.  For every package fetch whose response has a status of
400 or more, `_downloadPackage` fails with the error `'invalid url'`, and the enclosing
`_fetchAndUpdateFlow` fails with it without doing anything: no config file is written,
no dependency resolution runs, the service is neither stopped nor restarted and the
supervisor is unchanged. -/
theorem fetchAndUpdateFlow_error_status (w : FlowWorld) (c : NodeREDController)
    (res : Response) (hresponse : w.response = Except.ok res) (hstatus : 400 ≤ res.status) :
    downloadPackage w.response = Except.error "invalid url" ∧
      fetchAndUpdateFlow w c = (c, [], Except.error "invalid url") := by
  have h : downloadPackage w.response = Except.error "invalid url" := by
    simp [downloadPackage, hresponse, hstatus]
  exact ⟨h, by simp [fetchAndUpdateFlow, h]⟩

/-- Witness of C19: the fetch answers with HTTP 404. -/
theorem fetchAndUpdateFlow_error_status_witness :
    downloadPackage (sampleFlowWorld 404 samplePackage).response =
        Except.error "invalid url" ∧
      fetchAndUpdateFlow (sampleFlowWorld 404 samplePackage) sampleController =
        (sampleController, [], Except.error "invalid url") :=
  fetchAndUpdateFlow_error_status (sampleFlowWorld 404 samplePackage) sampleController
    { status := 404, json := Except.ok (some samplePackage) } rfl (by decide)

/-- Counterexample to C19 as stated: the response has status 300, which is not a
success status, and a JSON body.  `_downloadPackage` returns the body as the package,
and `_fetchAndUpdateFlow` writes `flows.json`, runs the dependency resolution, stops
the service and starts it again. -/
theorem fetchAndUpdateFlow_redirect_counterexample :
    downloadPackage (sampleFlowWorld 300 samplePackage).response =
        Except.ok (some samplePackage) ∧
      (fetchAndUpdateFlow (sampleFlowWorld 300 samplePackage) sampleController).2.1 =
        [SupEffect.writeFile ["/data", "flows.json"] (FileContent.json "[]"),
          SupEffect.npmInstall "/data",
          SupEffect.kill "SIGINT",
          SupEffect.removePIDFile,
          SupEffect.spawn "node-red" ["-s", "settings.js"]
            [("ENEBULAR_ASSETS_DATA_PATH", "/assets")],
          SupEffect.createPIDFile 42] := by
  refine ⟨by rfl, by rfl⟩

/-- C20. For every fetched flow package: if it declares a complete edit session
(`_flowPackageContainsEditSession`) and edit sessions are not allowed,
`_fetchAndUpdateFlow` returns without doing anything (no file written, no dependency
resolution, service neither stopped nor started, supervisor unchanged); if edit
sessions are allowed, the package is applied (the writes of its parts, then the
dependency resolution) and, these succeeding, the service is restarted in editor mode
(editor settings as arguments, editor URL and session token in the environment); and a
package without a complete edit session is applied and, these succeeding, restarted in
normal mode (the arguments of the configured command), whether edit sessions are
allowed or not. -/
theorem fetchAndUpdateFlow_edit_session (w : FlowWorld) (c : NodeREDController)
    (p : FlowPackage) (hdownload : downloadPackage w.response = Except.ok (some p)) :
    (flowPackageContainsEditSession (some p) = true → c.allowEditSessions = false →
      fetchAndUpdateFlow w c = (c, [], Except.ok ())) ∧
    (flowPackageContainsEditSession (some p) = true → c.allowEditSessions = true →
      (updatePackage c w.update (some p)).2 = Except.ok () →
      ∃ es, p.editSession = some es ∧
        fetchAndUpdateFlow w c =
          ((restartService (some es) w.restart c).1,
            (packageWrites c w.update p).map Prod.fst ++ [SupEffect.npmInstall c.dataDir] ++
              (restartService (some es) w.restart c).2.1,
            (restartService (some es) w.restart c).2.2) ∧
        SupEffect.spawn c.command ["-s", ".node-red-config/enebular-editor-settings.js"]
            (setEnv
              (setEnv (setEnv c.env "ENEBULAR_ASSETS_DATA_PATH" c.assetsDataPath)
                "ENEBULAR_EDITOR_URL" ("http://" ++ es.ipAddress ++ ":9017"))
              "ENEBULAR_EDITOR_SESSION_TOKEN" es.sessionToken) ∈
          (restartService (some es) w.restart c).2.1) ∧
    (flowPackageContainsEditSession (some p) = false →
      (updatePackage c w.update (some p)).2 = Except.ok () →
      fetchAndUpdateFlow w c =
          ((restartService none w.restart c).1,
            (packageWrites c w.update p).map Prod.fst ++ [SupEffect.npmInstall c.dataDir] ++
              (restartService none w.restart c).2.1,
            (restartService none w.restart c).2.2) ∧
        SupEffect.spawn c.command c.args
            (setEnv c.env "ENEBULAR_ASSETS_DATA_PATH" c.assetsDataPath) ∈
          (restartService none w.restart c).2.1) := by
  refine ⟨?_, ?_, ?_⟩
  · intro hreq hallow
    simp [fetchAndUpdateFlow, hdownload, hreq, hallow]
  · intro hreq hallow hupdate
    have hes : ∃ es, p.editSession = some es := by
      cases h : p.editSession with
      | none => simp [flowPackageContainsEditSession, h] at hreq
      | some es => exact ⟨es, rfl⟩
    obtain ⟨es, hes⟩ := hes
    refine ⟨es, hes, ?_, restartService_spawn (some es) w.restart c⟩
    rw [fetchAndUpdateFlow_apply w c p hdownload (by simp [hreq, hallow]) hupdate,
      updatePackage_ok c w.update p hupdate, hreq, if_pos rfl, hes]
  · intro hreq hupdate
    refine ⟨?_, restartService_spawn none w.restart c⟩
    rw [fetchAndUpdateFlow_apply w c p hdownload (by simp [hreq]) hupdate,
      updatePackage_ok c w.update p hupdate, hreq]
    rfl

/-- Witness of C20: a package with a complete edit session, edit sessions not
allowed. -/
theorem fetchAndUpdateFlow_edit_session_witness :
    fetchAndUpdateFlow (sampleFlowWorld 200 sampleEditPackage) sampleController =
      (sampleController, [], Except.ok ()) :=
  (fetchAndUpdateFlow_edit_session (sampleFlowWorld 200 sampleEditPackage) sampleController
    sampleEditPackage rfl).1 (by decide) rfl

/-- C21, as the code has it.  `_resolveDependency` resolves on the `'exit'` event of
`npm install` whatever the exit code, also when the command ends with a non-zero code
or by a signal.  With the package downloaded, the edit session (if any) allowed and the
config files written, `_updatePackage` then succeeds and `_fetchAndUpdateFlow` goes on
to restart the service: its result is the result of the restart, and the service is
spawned again. -/
theorem resolveDependency_any_exit (w : FlowWorld) (c : NodeREDController)
    (p : FlowPackage) (code : Option Nat)
    (hnpm : w.update.npm = NpmResult.exit code)
    (hdownload : downloadPackage w.response = Except.ok (some p))
    (hallowed : (flowPackageContainsEditSession (some p) && !c.allowEditSessions) = false)
    (hwrites : (packageWrites c w.update p).findSome? Prod.snd = none) :
    resolveDependency c w.update.npm = ([SupEffect.npmInstall c.dataDir], Except.ok ()) ∧
      (updatePackage c w.update (some p)).2 = Except.ok () ∧
      (fetchAndUpdateFlow w c).2.2 =
        (restartService
          (if flowPackageContainsEditSession (some p) then p.editSession else none)
          w.restart c).2.2 ∧
      ∃ args env, SupEffect.spawn c.command args env ∈ (fetchAndUpdateFlow w c).2.1 := by
  have hres : resolveDependency c w.update.npm =
      ([SupEffect.npmInstall c.dataDir], Except.ok ()) := by
    rw [hnpm]; rfl
  have hupdate : (updatePackage c w.update (some p)).2 = Except.ok () := by
    simp only [updatePackage, hwrites, hres]
  have hflow := fetchAndUpdateFlow_apply w c p hdownload hallowed hupdate
  refine ⟨hres, hupdate, by rw [hflow], ?_⟩
  rw [hflow]
  exact ⟨_, _, List.mem_append_right _ (restartService_spawn _ w.restart c)⟩

/-- Witness of C21: `npm install` exits with code 1 while `samplePackage` is deployed;
the running service is killed and spawned again. -/
theorem resolveDependency_any_exit_witness :
    (updatePackage sampleController (sampleNpmWorld (some 1)).update
        (some samplePackage)).2 = Except.ok () ∧
      (fetchAndUpdateFlow (sampleNpmWorld (some 1)) sampleController).2.2 =
        Except.ok () ∧
      (fetchAndUpdateFlow (sampleNpmWorld (some 1)) sampleController).2.1 =
        [SupEffect.writeFile ["/data", "flows.json"] (FileContent.json "[]"),
          SupEffect.npmInstall "/data",
          SupEffect.kill "SIGINT",
          SupEffect.removePIDFile,
          SupEffect.spawn "node-red" ["-s", "settings.js"]
            [("ENEBULAR_ASSETS_DATA_PATH", "/assets")],
          SupEffect.createPIDFile 42] :=
  ⟨(resolveDependency_any_exit (sampleNpmWorld (some 1)) sampleController samplePackage
      (some 1) rfl rfl (by decide) (by decide)).2.1, rfl, by decide⟩

/-- C22. Once a running action rejects with `reason`, the queue is wedged for good.
Whatever happens later can only be calls of `_queueAction`; `_isProcessing` keeps
holding the same promise, which is rejected with `reason`; no action is called any more,
neither the ones that were in `_actions` nor the ones pushed later, which all stay in
`_actions` in order; and every later call awaits that rejected promise, so it fails
with `reason`.  A later call is always possible. -/
theorem promiseRun_rejection_wedges {α : Type} [DecidableEq α]
    (before later : List (PromiseEvent α)) (fn : α) (reason : String)
    (s s₁ s₂ : QueuePromises α)
    (hbefore : promiseRun (QueuePromises.init α) before = some s)
    (hrejected : promiseStep s (PromiseEvent.rejected fn reason) = some s₁)
    (hlater : promiseRun s₁ later = some s₂) :
    (∀ e ∈ later, ∃ f, e = PromiseEvent.call f) ∧
      s₂.queue.isProcessing = true ∧ s₂.current = s.current ∧
      s₂.drains[s.current]? = some (PromiseState.rejected reason) ∧
      s₂.queue.running = [] ∧ s₂.queue.started = s.queue.started ∧
      s₂.queue.actions =
        s.queue.actions ++ (later.flatMap fun e => e.toQueueEvent.pushed) ∧
      s₂.awaited = s.awaited ++
        (later.flatMap fun e => e.toQueueEvent.pushed).map (fun f => (f, s.current)) ∧
      ∀ f, promiseStep s₂ (PromiseEvent.call f) =
        some { s₂ with
          queue := { s₂.queue with
            actions := s₂.queue.actions ++ [f]
            submitted := s₂.queue.submitted ++ [f] }
          awaited := s₂.awaited ++ [(f, s.current)] } := by
  have hinv := promiseRun_inv before _ s (promiseInv_init α) hbefore
  obtain ⟨hw, hd, ha, hs, haw, hc⟩ := promiseStep_rejected s s₁ fn reason hinv hrejected
  obtain ⟨g1, g2, g3, g4, g5, g6, g7⟩ := promiseRun_wedged later s₁ s₂ hw hlater
  refine ⟨g1, g2.1, by rw [g6, hc], by rw [g5, ← hc]; exact hd, g2.2.1, by rw [g4, hs],
    by rw [g3, ha], by rw [g7, haw, hc], ?_⟩
  intro f
  simp only [promiseStep, PromiseEvent.toQueueEvent, queueStep, queueAction, g2.1, if_true,
    g6, hc]

/-- Witness of C22: two calls, the action of the first rejects with `"boom"`, then a
third call; its action and the second one stay in the queue and the third call awaits
the rejected promise. -/
theorem promiseRun_rejection_wedges_witness :
    (⟨⟨[2, 3], true, [], 0, [1], [1, 2, 3]⟩, [PromiseState.rejected "boom"], 0,
        [(1, 0), (2, 0), (3, 0)]⟩ : QueuePromises Nat).queue.started =
        (⟨⟨[2], true, [1], 0, [1], [1, 2]⟩, [PromiseState.pending], 0,
          [(1, 0), (2, 0)]⟩ : QueuePromises Nat).queue.started ∧
      (⟨⟨[2, 3], true, [], 0, [1], [1, 2, 3]⟩, [PromiseState.rejected "boom"], 0,
        [(1, 0), (2, 0), (3, 0)]⟩ : QueuePromises Nat).drains[0]? =
        some (PromiseState.rejected "boom") :=
  ⟨(promiseRun_rejection_wedges
      [PromiseEvent.call 1, PromiseEvent.call 2] [PromiseEvent.call 3] 1 "boom"
      (⟨⟨[2], true, [1], 0, [1], [1, 2]⟩, [PromiseState.pending], 0,
        [(1, 0), (2, 0)]⟩ : QueuePromises Nat)
      (⟨⟨[2], true, [], 0, [1], [1, 2]⟩, [PromiseState.rejected "boom"], 0,
        [(1, 0), (2, 0)]⟩ : QueuePromises Nat)
      (⟨⟨[2, 3], true, [], 0, [1], [1, 2, 3]⟩, [PromiseState.rejected "boom"], 0,
        [(1, 0), (2, 0), (3, 0)]⟩ : QueuePromises Nat)
      (by decide) (by decide) (by decide)).2.2.2.2.2.1, rfl⟩

/-- C23. If the ids of the assets in the collection are pairwise distinct, then for
every desired state (whose asset map, an object, has each key once) they are pairwise
distinct after `_handleDeviceStateChange`: the ids afterwards are the ids before,
followed by keys of the desired asset map that are the id of no asset, each at most
once.  They are also pairwise distinct after the sweep of the simple removes, after
every iteration of the loop of `_processPendingAssets` and when the method returns:
each of these only takes ids out of the collection. -/
theorem asset_ids_stay_unique (clock : Clock) (tick : Nat) (params : Params)
    (desiredState : Option DesiredState) (man : AssetManager)
    (hkeys : (desiredKeys desiredState).Nodup)
    (hids : (man.assets.map Asset.id).Nodup) :
    ((handleDeviceStateChange clock tick params desiredState man).man.assets.map
        Asset.id).Nodup ∧
      (∃ news : List String,
        (handleDeviceStateChange clock tick params desiredState man).man.assets.map
            Asset.id = man.assets.map Asset.id ++ news ∧
          List.Sublist news (desiredKeys desiredState) ∧
          ∀ id ∈ news, id ∉ man.assets.map Asset.id) ∧
      (List.Sublist ((processSimpleRemoves man.assets).1.map Asset.id)
          (man.assets.map Asset.id) ∧
        ((processSimpleRemoves man.assets).1.map Asset.id).Nodup) ∧
      (∀ o : Outcome,
        List.Sublist ((drainIteration o man.assets).1.map Asset.id)
            (man.assets.map Asset.id) ∧
          ((drainIteration o man.assets).1.map Asset.id).Nodup) ∧
      (∀ (oracle : Nat → Outcome) (fuel : Nat) (final : AssetManager)
          (effects : List Effect),
        processPendingAssets oracle fuel man = some (final, effects) →
        List.Sublist (final.assets.map Asset.id) (man.assets.map Asset.id) ∧
          (final.assets.map Asset.id).Nodup) := by
  have hnews : ∃ news : List String,
      (handleDeviceStateChange clock tick params desiredState man).man.assets.map
          Asset.id = man.assets.map Asset.id ++ news ∧
        List.Sublist news (desiredKeys desiredState) ∧
        ∀ id ∈ news, id ∉ man.assets.map Asset.id := by
    by_cases hev : ignoredEvent params = true
    · exact ⟨[], by simp [handleDeviceStateChange, hev], List.nil_sublist _, by simp⟩
    by_cases hin : man.inited = true
    swap
    · exact ⟨[], by simp [handleDeviceStateChange, hin], List.nil_sublist _, by simp⟩
    cases desiredState with
    | none => exact ⟨[], by simp [handleDeviceStateChange], List.nil_sublist _, by simp⟩
    | some ds =>
      cases hmap : ds.assets with
      | none =>
        exact ⟨[], by simp [handleDeviceStateChange, hmap], List.nil_sublist _, by simp⟩
      | some desiredAssets =>
        simp only [Bool.not_eq_true] at hev
        by_cases hown : "hasOwnProperty" ∈ desiredAssets.map Prod.fst
        · rw [handleDeviceStateChange_throws clock tick params ds desiredAssets man hev hin
            hmap hown]
          exact ⟨[], by simp, List.nil_sublist _, by simp⟩
        rw [handleDeviceStateChange_eq clock tick params ds desiredAssets man hev hin hmap
          hown]
        refine ⟨_, diffOwnAssets_ids clock tick desiredAssets man.assets, ?_, ?_⟩
        · simp only [desiredKeys, hmap]
          exact (List.filter_sublist _).map _
        · intro id hid
          obtain ⟨e, he, rfl⟩ := List.mem_map.mp hid
          have := (List.mem_filter.mp he).2
          simp only [Bool.and_eq_true, decide_eq_true_eq] at this
          exact this.1
  have hsweep := (processSimpleRemoves_sublist man.assets).map Asset.id
  refine ⟨?_, hnews, ⟨hsweep, hids.sublist hsweep⟩, ?_, ?_⟩
  · obtain ⟨news, h1, h2, h3⟩ := hnews
    rw [h1]
    exact List.Nodup.append hids (hkeys.sublist h2) (fun id ha hb => h3 id hb ha)
  · intro o
    exact ⟨drainIteration_ids_sublist o man.assets, drainIteration_nodup o man.assets hids⟩
  · intro oracle fuel final effects h
    have hsub : List.Sublist (final.assets.map Asset.id) (man.assets.map Asset.id) := by
      simp only [processPendingAssets] at h
      split_ifs at h with hp
      · simp only [Option.some.injEq, Prod.mk.injEq] at h
        rw [← h.1]
      · cases hr : processPendingAssetsLoop oracle fuel 0 man.assets with
        | none => rw [hr] at h; simp at h
        | some r =>
          obtain ⟨assets, effects'⟩ := r
          rw [hr] at h
          simp only [Option.some.injEq, Prod.mk.injEq] at h
          rw [← h.1]
          exact processPendingAssetsLoop_ids_sublist oracle fuel 0 _ _ _ hr
    exact ⟨hsub, hids.sublist hsub⟩

/-- Witness of C23: the collection holds `a1`, the desired asset map holds `a1` and
`a2`; afterwards the ids are `a1`, `a2`. -/
theorem asset_ids_stay_unique_witness :
    ((handleDeviceStateChange sampleClock 0 sampleParams (some sampleDesiredTwo)
        (sampleManager [sampleDeployed])).man.assets.map Asset.id).Nodup ∧
      (handleDeviceStateChange sampleClock 0 sampleParams (some sampleDesiredTwo)
        (sampleManager [sampleDeployed])).man.assets.map Asset.id = ["a1", "a2"] :=
  ⟨(asset_ids_stay_unique sampleClock 0 sampleParams (some sampleDesiredTwo)
      (sampleManager [sampleDeployed]) (by decide) (by decide)).1, by decide⟩

end Enebular
